import Mathlib

/-!
# Verification of the Emacs window layout and configuration engine

This file gives a shallow embedding, in Lean 4, of the window-management
subsystem of `src/window.c` (window tree, resize arithmetic, window
configuration snapshots) and proves or refutes the frozen specification
claims about it.

Conventions:
* C `int` values are modelled as `Int`; machine overflow is irrelevant at the
  sizes involved (window sizes are small nonnegative numbers).
* C functions that loop over mutable arrays are modelled as structurally
  recursive functions over lists, with an explicit fuel parameter wherever the
  C loop's termination is not structural; `none` models a run in which the C
  loop would not terminate (or the fuel was insufficient).
* Lisp objects that the modelled code only copies and compares with `EQ` are
  modelled as values of simple types (`Int`, `Nat`, `Bool`, `Option _`).
-/

set_option autoImplicit false

namespace EmacsWindow

/-! ## Part 1: `shrink_windows` (window.c lines 2898-3019)

`shrink_windows` computes new sizes for a chain of sibling windows whose
compound size shrinks from TOTAL to SIZE.  Each child is described by its
current total size (`WINDOW_TOTAL_SIZE`), its minimum size
(`window_min_size_1`), whether it is fixed-size (`window_fixed_size_p` with
`check_siblings_p = 0`) and its `resize_proportionally` flag.

The C code keeps two parallel arrays `new_sizes` and `min_sizes` indexed by
child position; we keep a list of pairs.  For a fixed child (when
`resize_fixed_p` is zero) the C code leaves `min_sizes[i]` uninitialized and
stores -1 in `new_sizes[i]`; every later read of `min_sizes[i]` for such an
entry only occurs in comparisons `new_sizes[i] > min_sizes[i]` against the
-1 marker, so we store the computed minimum there as well (the comparison is
false for any minimum ≥ 0, which `window_min_size_1` guarantees). -/

/-- A child window of the combination being shrunk, as seen by
`shrink_windows`: its current size along the resize axis, its minimum size
(`window_min_size_1`), its fixed-size status and `resize_proportionally`. -/
structure SWChild where
  size : Int
  minSz : Int
  fixed : Bool
  prop : Bool
  deriving Repr, DecidableEq

/-- One entry of the parallel arrays `new_sizes` / `min_sizes`. -/
structure SWEntry where
  newSize : Int
  minSz : Int
  deriving Repr, DecidableEq

/-- State of the shrink-to-zero elimination loop: the arrays plus the C
locals `available_resize`, `shrinkable` and `total_removed`. -/
structure SWState where
  entries : List SWEntry
  avail : Int
  shrinkable : Int
  removed : Int
  deriving Repr, DecidableEq

/-- Initialization loop of `shrink_windows` (lines 2914-2930): build
`new_sizes` (−1 for fixed children when `resizeFixed` is false) and
`min_sizes`, and accumulate `available_resize` over resizable children that
are above their floor and not `resize_proportionally`. -/
def swInitEntries (resizeFixed : Bool) (cs : List SWChild) : List SWEntry :=
  cs.map fun c =>
    if !resizeFixed && c.fixed then ⟨-1, c.minSz⟩ else ⟨c.size, c.minSz⟩

/-- `available_resize` computed by the initialization loop. -/
def swInitAvail (resizeFixed : Bool) (cs : List SWChild) : Int :=
  cs.foldl (fun acc c =>
    if !resizeFixed && c.fixed then acc
    else if c.size > c.minSz && !c.prop then acc + (c.size - c.minSz)
    else acc) 0

/-- The first scan of the elimination loop (lines 2937-2939): find the
smallest positive `new_sizes` value, starting from `smallest = total`. -/
def swSmallest (total : Int) (es : List SWEntry) : Int :=
  es.foldl (fun sm e => if e.newSize > 0 && sm > e.newSize then e.newSize else sm)
    total

/-- The second scan of the elimination loop body (lines 2941-2958): zero the
first entry whose `newSize` equals `sm`, returning that entry and the updated
array.  `none` when no entry matches (the C loop would then spin forever). -/
def swZeroFirst (sm : Int) : List SWEntry → Option (SWEntry × List SWEntry)
  | [] => none
  | e :: rest =>
    if e.newSize = sm then some (e, ⟨0, e.minSz⟩ :: rest)
    else (swZeroFirst sm rest).map fun p => (p.1, e :: p.2)

/-- One iteration of the elimination loop body (lines 2941-2958): zero the
first entry whose `newSize` equals `smallest`, updating `available_resize`,
`shrinkable` and `total_removed`. -/
def swZeroStep (total : Int) (st : SWState) : Option SWState :=
  let sm := swSmallest total st.entries
  match swZeroFirst sm st.entries with
  | none => none
  | some (e, es') =>
    some { entries := es'
           avail := (if sm > e.minSz then st.avail - (sm - e.minSz) else st.avail) + sm
           shrinkable := st.shrinkable - 1
           removed := st.removed + sm }

/-- The elimination loop (lines 2935-2959): while more than one shrinkable
child remains and the available slack is insufficient, zero the smallest
positive child. -/
def swZeroLoop (fuel : Nat) (total size : Int) (st : SWState) : Option SWState :=
  match fuel with
  | 0 => none
  | fuel + 1 =>
    if st.shrinkable > 1 ∧ size + st.avail < total then
      match swZeroStep total st with
      | none => none
      | some st' => swZeroLoop fuel total size st'
    else some st

/-- The proportional pass (lines 2963-2974): shrink every entry above its
floor by `total_shrink * new_sizes[i] / total` (C integer division truncates
toward zero, which is `Int.div`), clamped at the floor.  Returns the new
entries together with the amount added to `total_removed`. -/
def swPropPass (total totalShrink : Int) (es : List SWEntry) : List SWEntry × Int :=
  es.foldr (fun e (acc : List SWEntry × Int) =>
    if e.newSize > e.minSz then
      let t0 := Int.tdiv (totalShrink * e.newSize) total
      let t := if e.newSize - t0 < e.minSz then e.newSize - e.minSz else t0
      (⟨e.newSize - t, e.minSz⟩ :: acc.1, t + acc.2)
    else (e :: acc.1, acc.2)) ([], 0)

/-- The first rounding-remainder pass (lines 2978-3000): while too little has
been removed, remove one unit from the first entry still above its floor;
stop (even if the deficit remains) as soon as only one entry is nonzero.
The count of nonzero entries is taken before the decrement, and the
early-exit test after it, exactly as in the C loop body.  `none` models the
C loop spinning forever (no entry above its floor and ≥ 2 nonzero). -/
def swDecFirst : List SWEntry → Option (List SWEntry)
  | [] => none
  | e :: rest =>
    if e.newSize > e.minSz then some (⟨e.newSize - 1, e.minSz⟩ :: rest)
    else (swDecFirst rest).map (e :: ·)

/-- The loop of the first rounding-remainder pass; see `swDecFirst`.  The
count of nonzero entries is taken before the decrement and the early-exit
test after it, exactly as in the C loop body. -/
def swDownPass (fuel : Nat) (totalShrink : Int) (es : List SWEntry) (removed : Int) :
    Option (List SWEntry × Int) :=
  match fuel with
  | 0 => none
  | fuel + 1 =>
    if totalShrink > removed then
      match swDecFirst es with
      | some es' =>
        if (es.filter fun e => e.newSize ≠ 0).length = 1 then some (es', removed + 1)
        else swDownPass fuel totalShrink es' (removed + 1)
      | none =>
        if (es.filter fun e => e.newSize ≠ 0).length = 1 then some (es, removed)
        else none
    else some (es, removed)

/-- The second rounding-remainder pass (lines 3003-3014): while too much has
been removed, add one unit back to the first entry whose `newSize` is not
zero (this includes the −1 markers of fixed children).  `none` models the C
loop spinning forever (all entries zero). -/
def swIncFirst : List SWEntry → Option (List SWEntry)
  | [] => none
  | e :: rest =>
    if e.newSize ≠ 0 then some (⟨e.newSize + 1, e.minSz⟩ :: rest)
    else (swIncFirst rest).map (e :: ·)

/-- The loop of the second rounding-remainder pass; see `swIncFirst`. -/
def swUpPass (fuel : Nat) (totalShrink : Int) (es : List SWEntry) (removed : Int) :
    Option (List SWEntry × Int) :=
  match fuel with
  | 0 => none
  | fuel + 1 =>
    if totalShrink < removed then
      match swIncFirst es with
      | none => none
      | some es' => swUpPass fuel totalShrink es' (removed - 1)
    else some (es, removed)

/-- `shrink_windows` (lines 2898-3019).  `total` is the children's compound
size, `size` the new compound size, `shrinkable` the caller's count of
children that may shrink, `resizeFixed` whether fixed-size children may be
resized.  Value: the `new_sizes` array (−1 marks a fixed child to be left
alone, 0 a child to be deleted), or `none` if one of the C loops would not
terminate. -/
def shrink_windows (total size shrinkable : Int) (resizeFixed : Bool)
    (cs : List SWChild) : Option (List Int) :=
  match swZeroLoop (cs.length + 1) total size
      { entries := swInitEntries resizeFixed cs
        avail := swInitAvail resizeFixed cs
        shrinkable := shrinkable
        removed := 0 } with
  | none => none
  | some st1 =>
    match swPropPass total (total - size) st1.entries with
    | (es2, removedProp) =>
      match swDownPass ((total - size - (st1.removed + removedProp)).toNat + 1)
          (total - size) es2 (st1.removed + removedProp) with
      | none => none
      | some (es3, removed3) =>
        match swUpPass ((removed3 - (total - size)).toNat + 1)
            (total - size) es3 removed3 with
        | none => none
        | some (es4, _) => some (es4.map SWEntry.newSize)

/-- The caller's view (`size_window`, lines 3121-3199): compute the inputs
`size_window` passes to `shrink_windows` — `total` is the sum of the
children's sizes, `resize_fixed_p` is set when all children are fixed or the
new size is below the compound fixed size, and `n` counts the children that
may be resized. -/
def swResizeFixed (size : Int) (cs : List SWChild) : Bool :=
  decide ((cs.filter SWChild.fixed).length = cs.length) ||
    decide (size < ((cs.filter SWChild.fixed).map SWChild.size).sum)

/-- The `shrink_windows` call exactly as `size_window` makes it (lines
3130-3157): `total` is the sum of the children's sizes, `n` the number of
children that may be resized. -/
def sizeWindowShrink (size : Int) (cs : List SWChild) : Option (List Int) :=
  let total := (cs.map SWChild.size).sum
  let nfixed := (cs.filter SWChild.fixed).length
  let n : Int :=
    if swResizeFixed size cs then (cs.length : Int) else (cs.length : Int) - nfixed
  shrink_windows total size n (swResizeFixed size cs) cs

/-- The sizes actually installed by `size_window`'s second loop (lines
3167-3199): a child that is fixed while `resize_fixed_p` is zero keeps its
old size; every other child receives `new_sizes[n]`. -/
def realizedSizes (resizeFixed : Bool) (cs : List SWChild) (ns : List Int) : List Int :=
  (cs.zip ns).map fun p => if resizeFixed || !p.1.fixed then p.2 else p.1.size

/-- The sum of the sizes `size_window` installs after one shrink of the
children `cs` to compound size `size` (or `none` if the C loops spin). -/
def sizeWindowNewTotal (size : Int) (cs : List SWChild) : Option Int :=
  (sizeWindowShrink size cs).map fun ns =>
    (realizedSizes (swResizeFixed size cs) cs ns).sum

/-! ### Accounting helpers used by the proofs -/

/-- Number of strictly positive `new_sizes` entries. -/
def posCount (es : List SWEntry) : Nat :=
  (es.filter fun e => 0 < e.newSize).length

/-- Sum of the `new_sizes` array. -/
def totalNew (es : List SWEntry) : Int :=
  (es.map SWEntry.newSize).sum

/-- Total slack above the floors (negative slack does not count). -/
def slackSum (es : List SWEntry) : Int :=
  (es.map fun e => max (e.newSize - e.minSz) 0).sum

/-- The amount the proportional pass removes from one entry. -/
def swPropT (total totalShrink : Int) (e : SWEntry) : Int :=
  if e.newSize > e.minSz then
    let t0 := Int.tdiv (totalShrink * e.newSize) total
    if e.newSize - t0 < e.minSz then e.newSize - e.minSz else t0
  else 0

/-- One entry after the proportional pass. -/
def swPropE (total totalShrink : Int) (e : SWEntry) : SWEntry :=
  ⟨e.newSize - swPropT total totalShrink e, e.minSz⟩

/-- The extra size `size_window` adds on top of `new_sizes` for children that
keep their old size: a fixed child holds −1 in `new_sizes` but is installed
at its old size. -/
def fixedAdj (cs : List SWChild) : Int :=
  (cs.map fun c => if c.fixed then c.size + 1 else 0).sum

/-- Relation between a child and its `new_sizes`/`min_sizes` entry that holds
at initialization (with `resize_fixed_p` = 0) and is preserved by all the
passes: fixed children keep the −1 marker, resizable ones stay ≥ 1. -/
def swRel (c : SWChild) (e : SWEntry) : Prop :=
  1 ≤ c.minSz ∧ e.minSz = c.minSz ∧
    (c.fixed = true → e = ⟨-1, c.minSz⟩) ∧
    (c.fixed = false → 1 ≤ e.newSize)

/-- How one entry may evolve across the first rounding-remainder pass. -/
def swDRel (e e' : SWEntry) : Prop :=
  e'.minSz = e.minSz ∧
    (e' = e ∨ (e.minSz < e.newSize ∧ e.minSz ≤ e'.newSize ∧ e'.newSize ≤ e.newSize))

section ShrinkLemmas

theorem forall₂_compose {α β γ : Type} {R : α → β → Prop} {S : β → γ → Prop}
    {T : α → γ → Prop} (h : ∀ a b c, R a b → S b c → T a c) :
    ∀ {l₁ : List α} {l₂ : List β} {l₃ : List γ},
      List.Forall₂ R l₁ l₂ → List.Forall₂ S l₂ l₃ → List.Forall₂ T l₁ l₃ := by
  intro l₁ l₂ l₃ h₁ h₂
  induction h₁ generalizing l₃ with
  | nil => cases h₂; exact List.Forall₂.nil
  | cons hab _ ih =>
    cases h₂ with
    | cons hbc htail => exact List.Forall₂.cons (h _ _ _ hab hbc) (ih htail)

theorem length_filter_fixed (cs : List SWChild) :
    (cs.filter SWChild.fixed).length + (cs.filter fun c => !c.fixed).length
      = cs.length := by
  induction cs with
  | nil => simp
  | cons c cs ih =>
    by_cases h : c.fixed <;> simp [List.filter_cons, h] <;> omega

theorem length_le_sum_of_one_le {l : List Int} (h : ∀ x ∈ l, 1 ≤ x) :
    (l.length : Int) ≤ l.sum := by
  induction l with
  | nil => simp
  | cons x l ih =>
    have hx := h x (List.mem_cons_self x l)
    have := ih fun y hy => h y (List.mem_cons_of_mem _ hy)
    simp only [List.length_cons, List.sum_cons]
    push_cast
    omega

theorem swPropPass_eq (total ts : Int) (es : List SWEntry) :
    swPropPass total ts es =
      (es.map (swPropE total ts), (es.map (swPropT total ts)).sum) := by
  induction es with
  | nil => simp [swPropPass, swPropT, swPropE]
  | cons e es ih =>
    simp only [swPropPass, List.foldr_cons, List.map_cons, List.sum_cons]
    rw [swPropPass] at ih
    rw [ih]
    by_cases h : e.newSize > e.minSz <;> simp [swPropT, swPropE, h]

theorem sum_map_sub {α : Type} (f g : α → Int) (l : List α) :
    (l.map fun x => f x - g x).sum = (l.map f).sum - (l.map g).sum := by
  induction l with
  | nil => simp
  | cons x l ih => simp only [List.map_cons, List.sum_cons, ih]; ring

theorem slack_pos_exists {es : List SWEntry} (h : 0 < slackSum es) :
    ∃ e ∈ es, e.minSz < e.newSize := by
  induction es with
  | nil => simp [slackSum] at h
  | cons e es ih =>
    by_cases he : e.minSz < e.newSize
    · exact ⟨e, List.mem_cons_self e es, he⟩
    · have h0 : max (e.newSize - e.minSz) 0 = 0 := by omega
      simp only [slackSum, List.map_cons, List.sum_cons, h0, zero_add] at h
      obtain ⟨f, hf, hlt⟩ := ih h
      exact ⟨f, List.mem_cons_of_mem _ hf, hlt⟩

/-- How one entry may evolve across a single `swDecFirst` step. -/
def swStepRel (e e' : SWEntry) : Prop :=
  e' = e ∨ (e.minSz < e.newSize ∧ e' = ⟨e.newSize - 1, e.minSz⟩)

theorem swDecFirst_spec {es : List SWEntry} (h : ∃ e ∈ es, e.minSz < e.newSize) :
    ∃ es', swDecFirst es = some es' ∧ totalNew es' = totalNew es - 1 ∧
      slackSum es' = slackSum es - 1 ∧ List.Forall₂ swStepRel es es' := by
  induction es with
  | nil => simp at h
  | cons e es ih =>
    by_cases he : e.newSize > e.minSz
    · refine ⟨⟨e.newSize - 1, e.minSz⟩ :: es, ?_, ?_, ?_, ?_⟩
      · simp [swDecFirst, he]
      · simp only [totalNew, List.map_cons, List.sum_cons]; ring
      · simp only [slackSum, List.map_cons, List.sum_cons]
        have h1 : max (e.newSize - 1 - e.minSz) 0 = e.newSize - e.minSz - 1 := by omega
        have h2 : max (e.newSize - e.minSz) 0 = e.newSize - e.minSz := by omega
        rw [h1, h2]; ring
      · exact List.Forall₂.cons (Or.inr ⟨he, rfl⟩)
          ((List.forall₂_same).2 fun x _ => Or.inl rfl)
    · obtain ⟨f, hf, hlt⟩ := h
      rcases List.mem_cons.1 hf with rfl | hf'
      · omega
      · obtain ⟨es', hes', ht, hs, hrel⟩ := ih ⟨f, hf', hlt⟩
        refine ⟨e :: es', ?_, ?_, ?_, List.Forall₂.cons (Or.inl rfl) hrel⟩
        · simp [swDecFirst, he, hes']
        · simp only [totalNew, List.map_cons, List.sum_cons] at ht ⊢; omega
        · simp only [slackSum, List.map_cons, List.sum_cons] at hs ⊢; omega

theorem forall₂_mem_right {α β : Type} {R : α → β → Prop} {l₁ : List α}
    {l₂ : List β} (h : List.Forall₂ R l₁ l₂) {b : β} (hb : b ∈ l₂) :
    ∃ a ∈ l₁, R a b := by
  induction h with
  | nil => simp at hb
  | cons hab htail ih =>
    rcases List.mem_cons.1 hb with rfl | hb'
    · exact ⟨_, List.mem_cons_self _ _, hab⟩
    · obtain ⟨a, ha, har⟩ := ih hb'
      exact ⟨a, List.mem_cons_of_mem _ ha, har⟩

theorem swDownPass_total (ts : Int) : ∀ (fuel : Nat) (es : List SWEntry) (removed : Int),
    removed ≤ ts → (ts - removed).toNat < fuel →
    ts - removed ≤ slackSum es →
    (∀ e ∈ es, e.newSize ≠ 0) →
    (∀ e ∈ es, 1 ≤ e.minSz) →
    2 ≤ es.length →
    ∃ es', swDownPass fuel ts es removed = some (es', ts) ∧
      totalNew es' = totalNew es - (ts - removed) ∧
      List.Forall₂ swDRel es es' := by
  intro fuel
  induction fuel with
  | zero => intro es removed _ hf; omega
  | succ fuel ih =>
    intro es removed hle hf hslack hnz hmin hlen
    by_cases hlt : ts > removed
    · have hex : ∃ e ∈ es, e.minSz < e.newSize :=
        slack_pos_exists (lt_of_lt_of_le (by omega) hslack)
      obtain ⟨es₁, hdec, ht₁, hs₁, hrel₁⟩ := swDecFirst_spec hex
      have hlen₁ : es₁.length = es.length := (List.Forall₂.length_eq hrel₁).symm
      have hnz₁ : ∀ e ∈ es₁, e.newSize ≠ 0 := by
        intro e he
        obtain ⟨x, hx, hxy⟩ := forall₂_mem_right hrel₁ he
        rcases hxy with heq | ⟨hlt', heq⟩
        · rw [heq]; exact hnz x hx
        · rw [heq]
          have := hmin x hx
          simp only [ne_eq]
          omega
      have hmin₁ : ∀ e ∈ es₁, 1 ≤ e.minSz := by
        intro e he
        obtain ⟨x, hx, hxy⟩ := forall₂_mem_right hrel₁ he
        rcases hxy with heq | ⟨hlt', heq⟩
        · rw [heq]; exact hmin x hx
        · rw [heq]; exact hmin x hx
      obtain ⟨es', hruns, ht', hrel'⟩ :=
        ih es₁ (removed + 1) (by omega) (by omega) (by omega) hnz₁ hmin₁ (by omega)
      have hcount : (es.filter fun e => e.newSize ≠ 0).length = es.length := by
        rw [List.filter_eq_self.2 (by intro a ha; simpa using hnz a ha)]
      refine ⟨es', ?_, by omega, ?_⟩
      · rw [swDownPass, if_pos hlt, hdec]
        show (if (es.filter fun e => e.newSize ≠ 0).length = 1
            then some (es₁, removed + 1)
            else swDownPass fuel ts es₁ (removed + 1)) = some (es', ts)
        rw [hcount, if_neg (by omega), hruns]
      · refine forall₂_compose ?_ hrel₁ hrel'
        intro a b c hab hbc
        obtain ⟨hbcmin, hbcd⟩ := hbc
        rcases hab with rfl | ⟨hlt', rfl⟩
        · exact ⟨hbcmin, hbcd⟩
        · refine ⟨hbcmin, Or.inr ⟨hlt', ?_, ?_⟩⟩ <;>
            rcases hbcd with rfl | ⟨h1, h2, h3⟩ <;> simp_all <;> omega
    · have : removed = ts := by omega
      subst this
      refine ⟨es, ?_, by omega, (List.forall₂_same).2 fun x _ => ⟨rfl, Or.inl rfl⟩⟩
      rw [swDownPass, if_neg hlt]

theorem swZeroLoop_noop {total size : Int} {st : SWState}
    (h : ¬(st.shrinkable > 1 ∧ size + st.avail < total)) (fuel : Nat) :
    swZeroLoop (fuel + 1) total size st = some st := by
  rw [swZeroLoop, if_neg h]

theorem swUpPass_noop {ts removed : Int} (h : ¬ ts < removed)
    (es : List SWEntry) (fuel : Nat) :
    swUpPass (fuel + 1) ts es removed = some (es, removed) := by
  rw [swUpPass, if_neg h]

theorem swInitEntries_false (cs : List SWChild) :
    swInitEntries false cs =
      cs.map fun c => if c.fixed then SWEntry.mk (-1) c.minSz else ⟨c.size, c.minSz⟩ := by
  simp only [swInitEntries, Bool.not_false, Bool.true_and]

theorem swInitAvail_eq (rf : Bool) (cs : List SWChild) :
    swInitAvail rf cs = (cs.map fun c =>
      if !rf && c.fixed then 0
      else if c.size > c.minSz && !c.prop then c.size - c.minSz else 0).sum := by
  suffices h : ∀ (l : List SWChild) (a : Int),
      l.foldl (fun acc c =>
        if !rf && c.fixed then acc
        else if c.size > c.minSz && !c.prop then acc + (c.size - c.minSz)
        else acc) a
        = a + (l.map fun c =>
            if !rf && c.fixed then 0
            else if c.size > c.minSz && !c.prop then c.size - c.minSz else 0).sum by
    rw [swInitAvail, h cs 0, zero_add]
  intro l
  induction l with
  | nil => intro a; simp
  | cons c l ih =>
    intro a
    simp only [List.foldl_cons, List.map_cons, List.sum_cons]
    by_cases h1 : (!rf && c.fixed) = true
    · rw [if_pos h1, if_pos h1, ih]; ring
    · by_cases h2 : (c.size > c.minSz && !c.prop) = true
      · rw [if_neg h1, if_neg h1, if_pos h2, if_pos h2, ih]; ring
      · rw [if_neg h1, if_neg h1, if_neg h2, if_neg h2, ih]; ring

theorem swPropT_zero {total ts : Int} {e : SWEntry} (h : ¬ e.minSz < e.newSize) :
    swPropT total ts e = 0 := by
  simp [swPropT, h]

theorem swPropE_spec {total ts : Int} {e : SWEntry} (h : e.minSz < e.newSize) :
    e.minSz ≤ (swPropE total ts e).newSize := by
  simp only [swPropE, swPropT, if_pos h]
  by_cases hc : e.newSize - Int.tdiv (ts * e.newSize) total < e.minSz
  · simp [hc]
  · simp [hc]
    omega

theorem swPropT_mul_le {total ts : Int} {e : SWEntry} (htotal : 0 < total)
    (hts : 0 ≤ ts) (h : e.minSz < e.newSize) (hnn : 0 ≤ e.newSize) :
    swPropT total ts e * total ≤ ts * e.newSize := by
  have hnn2 : 0 ≤ ts * e.newSize := mul_nonneg hts hnn
  have ht0 : Int.tdiv (ts * e.newSize) total * total ≤ ts * e.newSize := by
    rw [Int.tdiv_eq_ediv hnn2 (le_of_lt htotal)]
    exact Int.ediv_mul_le _ (by omega)
  simp only [swPropT, if_pos h]
  by_cases hc : e.newSize - Int.tdiv (ts * e.newSize) total < e.minSz
  · rw [if_pos hc]
    have h1 : e.newSize - e.minSz ≤ Int.tdiv (ts * e.newSize) total := by omega
    calc (e.newSize - e.minSz) * total
        ≤ Int.tdiv (ts * e.newSize) total * total :=
          mul_le_mul_of_nonneg_right h1 (le_of_lt htotal)
      _ ≤ ts * e.newSize := ht0
  · rw [if_neg hc]; exact ht0

theorem totalNew_prop (total ts : Int) (es : List SWEntry) :
    totalNew (es.map (swPropE total ts)) =
      totalNew es - (es.map (swPropT total ts)).sum := by
  simp only [totalNew, List.map_map]
  have h : (SWEntry.newSize ∘ swPropE total ts)
      = fun e => e.newSize - swPropT total ts e := rfl
  rw [h, sum_map_sub]

theorem slack_prop {total ts : Int} (es : List SWEntry) :
    slackSum (es.map (swPropE total ts)) =
      slackSum es - (es.map (swPropT total ts)).sum := by
  simp only [slackSum, List.map_map]
  have hpt : ∀ e ∈ es,
      ((fun e => max (e.newSize - e.minSz) 0) ∘ swPropE total ts) e
        = max (e.newSize - e.minSz) 0 - swPropT total ts e := by
    intro e _
    by_cases h : e.minSz < e.newSize
    · have h2 := @swPropE_spec total ts _ h
      simp only [Function.comp_apply, swPropE] at h2 ⊢
      omega
    · rw [swPropT_zero h]
      simp [swPropE, swPropT_zero h]
  rw [List.map_congr_left hpt]
  exact sum_map_sub _ _ es

theorem swRel_prop {total ts : Int} {c : SWChild} {e : SWEntry}
    (h : swRel c e) : swRel c (swPropE total ts e) := by
  obtain ⟨hc, hm, hf, hr⟩ := h
  cases hcf : c.fixed with
  | true =>
    have he : e = ⟨-1, c.minSz⟩ := hf hcf
    subst he
    have hlt : ¬ (SWEntry.mk (-1) c.minSz).minSz < (SWEntry.mk (-1) c.minSz).newSize := by
      simp only [SWEntry.mk.injEq]
      omega
    refine ⟨hc, hm, fun _ => ?_, fun h0 => ?_⟩
    · simp [swPropE, swPropT_zero hlt]
    · rw [hcf] at h0; cases h0
  | false =>
    refine ⟨hc, hm, fun h1 => ?_, fun _ => ?_⟩
    · rw [hcf] at h1; cases h1
    · by_cases hlt : e.minSz < e.newSize
      · have := @swPropE_spec total ts _ hlt
        omega
      · simp only [swPropE, swPropT_zero hlt]
        have := hr hcf
        omega

theorem realized_sum {cs : List SWChild} {es : List SWEntry}
    (h : List.Forall₂ swRel cs es) :
    (realizedSizes false cs (es.map SWEntry.newSize)).sum
      = totalNew es + fixedAdj cs := by
  induction h with
  | nil => simp [realizedSizes, totalNew, fixedAdj]
  | @cons c e cs es hce _ ih =>
    obtain ⟨hc, hm, hf, hr⟩ := hce
    simp only [realizedSizes, List.map_cons, List.zip_cons_cons, List.sum_cons,
      totalNew, fixedAdj] at ih ⊢
    rw [ih]
    cases hcf : c.fixed with
    | true =>
      have he : e = ⟨-1, c.minSz⟩ := hf hcf
      subst he
      norm_num
      ring
    | false =>
      norm_num
      ring

theorem totalNew_init (cs : List SWChild) :
    totalNew (swInitEntries false cs) = (cs.map SWChild.size).sum - fixedAdj cs := by
  rw [swInitEntries_false]
  simp only [totalNew, fixedAdj, List.map_map]
  have : ∀ c ∈ cs, (SWEntry.newSize ∘ fun c =>
      if c.fixed then SWEntry.mk (-1) c.minSz else ⟨c.size, c.minSz⟩) c
        = c.size - (if c.fixed then c.size + 1 else 0) := by
    intro c _
    by_cases h : c.fixed <;> simp [h]
  rw [List.map_congr_left this, sum_map_sub]

theorem forall₂_map_right {α β γ : Type} {R : α → β → Prop} {S : α → γ → Prop}
    (f : β → γ) (hp : ∀ a b, R a b → S a (f b)) :
    ∀ {l₁ : List α} {l₂ : List β},
      List.Forall₂ R l₁ l₂ → List.Forall₂ S l₁ (l₂.map f) := by
  intro l₁ l₂ h
  induction h with
  | nil => exact List.Forall₂.nil
  | cons hab _ ih => exact List.Forall₂.cons (hp _ _ hab) ih

/-- The sum of the floors dominates the compound fixed size plus one unit per
resizable child. -/
theorem floors_split_ge (cs : List SWChild) (hmin : ∀ c ∈ cs, 1 ≤ c.minSz) :
    ((cs.filter SWChild.fixed).map SWChild.size).sum
        + ((cs.filter fun c => !c.fixed).length : Int)
      ≤ (cs.map fun c => if c.fixed then c.size else c.minSz).sum := by
  induction cs with
  | nil => simp
  | cons c cs ih =>
    have hm := hmin c (List.mem_cons_self c cs)
    have ih' := ih fun x hx => hmin x (List.mem_cons_of_mem _ hx)
    by_cases h : c.fixed = true
    · simp only [List.filter_cons, h, Bool.not_true, if_true, Bool.false_eq_true,
        if_false, List.map_cons, List.sum_cons]
      omega
    · have h' : c.fixed = false := by revert h; cases c.fixed <;> simp
      simp only [List.filter_cons, h', Bool.not_false, if_true, Bool.false_eq_true,
        if_false, List.map_cons, List.sum_cons, List.length_cons]
      push_cast
      omega

/-- Amended claim C1, proved: when no child carries `resize_proportionally`,
every child's size and floor are at least 1, at least two children are
resizable, and the new compound size lies between the sum of the floors
(fixed children counted at their current size) and the old compound size,
then the sizes `size_window` installs from `shrink_windows`'s result sum
exactly to the new compound size. -/
theorem shrink_windows_conserves_total (size : Int) (cs : List SWChild)
    (hres : 2 ≤ (cs.filter fun c => !c.fixed).length)
    (hsz : ∀ c ∈ cs, 1 ≤ c.size)
    (hmin : ∀ c ∈ cs, 1 ≤ c.minSz)
    (hprop : ∀ c ∈ cs, c.prop = false)
    (hlt : size < (cs.map SWChild.size).sum)
    (hfloor : (cs.map fun c => if c.fixed then c.size else c.minSz).sum ≤ size) :
    sizeWindowNewTotal size cs = some size := by
  have hlen2 : 2 ≤ cs.length :=
    le_trans hres (List.length_filter_le _ cs)
  have htotal_ge : (cs.length : Int) ≤ (cs.map SWChild.size).sum := by
    have h := length_le_sum_of_one_le (l := cs.map SWChild.size) ?_
    · rwa [List.length_map] at h
    · intro x hx
      obtain ⟨c, hc, rfl⟩ := List.mem_map.1 hx
      exact hsz c hc
  have htotal : 0 < (cs.map SWChild.size).sum := by
    have : ((2 : Nat) : Int) ≤ (cs.length : Int) := by exact_mod_cast hlen2
    omega
  -- `resize_fixed_p` is 0 under the hypotheses.
  have hsplit := floors_split_ge cs hmin
  have hrf : swResizeFixed size cs = false := by
    have h1 : (cs.filter SWChild.fixed).length ≠ cs.length := by
      have := length_filter_fixed cs
      omega
    have h2 : ¬ size < ((cs.filter SWChild.fixed).map SWChild.size).sum := by
      have hcast : ((2 : Nat) : Int) ≤ ((cs.filter fun c => !c.fixed).length : Int) := by
        exact_mod_cast hres
      omega
    simp [swResizeFixed, h1, h2]
  -- The initial entries and their relation to the children.
  have hrel0 : List.Forall₂ swRel cs (swInitEntries false cs) := by
    rw [swInitEntries_false]
    refine forall₂_map_right (R := fun a b => a = b ∧ a ∈ cs) _ ?_
      ((List.forall₂_same).2 fun c hc => ⟨rfl, hc⟩)
    rintro a b ⟨rfl, ha⟩
    by_cases h : a.fixed = true
    · refine ⟨hmin a ha, ?_, fun _ => ?_, fun hf => ?_⟩
      · simp [h]
      · simp [h]
      · rw [h] at hf; cases hf
    · have h' : a.fixed = false := by revert h; cases a.fixed <;> simp
      refine ⟨hmin a ha, ?_, fun hf => ?_, fun _ => ?_⟩
      · simp [h']
      · rw [h'] at hf; cases hf
      · simp only [h', Bool.false_eq_true, if_false]
        exact hsz a ha
  -- Pointwise facts about the initial entries.
  have hge0 : ∀ {e : SWEntry}, e ∈ swInitEntries false cs →
      (1 ≤ e.minSz ∧ e.newSize ≠ 0 ∧ (e.minSz < e.newSize → 0 ≤ e.newSize)) := by
    intro e he
    obtain ⟨c, _, hce⟩ := forall₂_mem_right hrel0 he
    obtain ⟨hc1, hc2, hc3, hc4⟩ := hce
    cases hcf : c.fixed with
    | true =>
      have := hc3 hcf
      subst this
      refine ⟨by omega, by simp only [ne_eq]; omega, by intro h; omega⟩
    | false =>
      have := hc4 hcf
      exact ⟨by omega, by omega, fun _ => by omega⟩
  -- Available slack dominates the requested shrink.
  have havail : (cs.map SWChild.size).sum - size ≤ swInitAvail false cs := by
    rw [swInitAvail_eq]
    have hle : ∀ c ∈ cs,
        (fun c => c.size - (if c.fixed then c.size else c.minSz)) c ≤
          (fun c => if !false && c.fixed then 0
            else if c.size > c.minSz && !c.prop then c.size - c.minSz else 0) c := by
      intro c hc
      by_cases h : c.fixed = true
      · simp [h]
      · have h' : c.fixed = false := by revert h; cases c.fixed <;> simp
        have hp := hprop c hc
        by_cases h2 : c.minSz < c.size
        · simp [h', hp, h2]
        · simp [h', hp, h2]
          omega
    have hs := List.sum_le_sum hle
    rw [sum_map_sub] at hs
    omega
  -- Slack above the floors dominates the requested shrink.
  have hslack0 : (cs.map SWChild.size).sum - size
      ≤ slackSum (swInitEntries false cs) := by
    rw [swInitEntries_false]
    have hle : ∀ c ∈ cs,
        (fun c => c.size - (if c.fixed then c.size else c.minSz)) c ≤
          (fun c => max (((if c.fixed then SWEntry.mk (-1) c.minSz
            else ⟨c.size, c.minSz⟩)).newSize
              - ((if c.fixed then SWEntry.mk (-1) c.minSz
                else ⟨c.size, c.minSz⟩)).minSz) 0) c := by
      intro c hc
      by_cases h : c.fixed = true
      · simp [h]
      · have h' : c.fixed = false := by revert h; cases c.fixed <;> simp
        simp [h']
    have hs := List.sum_le_sum hle
    rw [sum_map_sub] at hs
    simp only [slackSum, List.map_map]
    have hs2 : (cs.map SWChild.size).sum
        - (cs.map fun c => if c.fixed then c.size else c.minSz).sum
        ≤ (cs.map ((fun e => max (e.newSize - e.minSz) 0) ∘
            fun c => if c.fixed then SWEntry.mk (-1) c.minSz
              else ⟨c.size, c.minSz⟩)).sum := hs
    omega
  -- Notation for the run.
  set total := (cs.map SWChild.size).sum with htotdef
  set ts := total - size with htsdef
  set es0 := swInitEntries false cs with hes0def
  set es2 := es0.map (swPropE total ts) with hes2def
  set removedP := (es0.map (swPropT total ts)).sum with hremdef
  have hts0 : 0 < ts := by omega
  have hrel2 : List.Forall₂ swRel cs es2 :=
    forall₂_map_right _ (fun a b h => swRel_prop h) hrel0
  -- The proportional pass removes at most the requested shrink.
  have hremP : removedP ≤ ts := by
    have hle1 : ∀ e ∈ es0,
        (fun e => swPropT total ts e * total) e ≤
          (fun e => ts * (if e.minSz < e.newSize then e.newSize else 0)) e := by
      intro e he
      obtain ⟨he1, he2, he3⟩ := hge0 he
      by_cases h : e.minSz < e.newSize
      · simp only [if_pos h]
        exact swPropT_mul_le htotal (le_of_lt hts0) h (he3 h)
      · simp only [if_neg h, swPropT_zero h, zero_mul, mul_zero, le_refl]
    have h1 := List.sum_le_sum hle1
    rw [List.sum_map_mul_right, List.sum_map_mul_left] at h1
    have hposNew : (es0.map fun e => if e.minSz < e.newSize then e.newSize else 0).sum
        ≤ total := by
      rw [hes0def, swInitEntries_false, List.map_map]
      refine le_trans (List.sum_le_sum (g := SWChild.size) ?_) (le_of_eq rfl)
      intro c hc
      by_cases h : c.fixed = true
      · have h1 := hmin c hc
        have h2 := hsz c hc
        simp only [Function.comp_apply, h, if_true]
        have : ¬ ((SWEntry.mk (-1) c.minSz).minSz < (SWEntry.mk (-1) c.minSz).newSize) := by
          simp only [SWEntry.mk.injEq]
          omega
        rw [if_neg this]
        omega
      · have h' : c.fixed = false := by revert h; cases c.fixed <;> simp
        have h2 := hsz c hc
        simp only [Function.comp_apply, h', Bool.false_eq_true, if_false]
        by_cases h3 : c.minSz < c.size
        · simp [h3]
        · simp [h3]
          omega
    have h2 : ts * (es0.map fun e => if e.minSz < e.newSize then e.newSize else 0).sum
        ≤ ts * total := mul_le_mul_of_nonneg_left hposNew (le_of_lt hts0)
    have h3 : removedP * total ≤ ts * total := le_trans h1 h2
    exact le_of_mul_le_mul_right h3 htotal
  have hslack2 : ts - removedP ≤ slackSum es2 := by
    rw [hes2def, slack_prop]
    omega
  have hnzmin2 : ∀ e ∈ es2, e.newSize ≠ 0 ∧ 1 ≤ e.minSz := by
    intro e he
    obtain ⟨c, _, hce⟩ := forall₂_mem_right hrel2 he
    obtain ⟨hc1, hc2, hc3, hc4⟩ := hce
    cases hcf : c.fixed with
    | true =>
      have := hc3 hcf
      subst this
      exact ⟨by simp only [ne_eq]; omega, by omega⟩
    | false =>
      have := hc4 hcf
      exact ⟨by omega, by omega⟩
  have hlen2' : 2 ≤ es2.length := by
    have := List.Forall₂.length_eq hrel2
    omega
  obtain ⟨es3, hdown, htn3, hrel23⟩ :=
    swDownPass_total ts ((ts - removedP).toNat + 1) es2 removedP hremP (by omega)
      hslack2 (fun e he => (hnzmin2 e he).1) (fun e he => (hnzmin2 e he).2) hlen2'
  have htn2 : totalNew es2 = totalNew es0 - removedP := totalNew_prop total ts es0
  have htn0 : totalNew es0 = total - fixedAdj cs := totalNew_init cs
  have hrel3 : List.Forall₂ swRel cs es3 := by
    refine forall₂_compose ?_ hrel2 hrel23
    intro a b c hab hbc
    obtain ⟨h1, h2, h3, h4⟩ := hab
    obtain ⟨d1, d2⟩ := hbc
    refine ⟨h1, d1.trans h2, fun hf => ?_, fun hf => ?_⟩
    · have hb := h3 hf
      subst hb
      rcases d2 with rfl | ⟨hx, _, _⟩
      · rfl
      · simp only [SWEntry.mk.injEq] at hx ⊢
        omega
    · rcases d2 with rfl | ⟨_, hy, _⟩
      · exact h4 hf
      · omega
  have hfinal := realized_sum hrel3
  have hfinal2 : (realizedSizes false cs (es3.map SWEntry.newSize)).sum = size := by
    omega
  -- Put the run together.
  have hzl : ∀ sh : Int,
      swZeroLoop (cs.length + 1) total size
          ⟨es0, swInitAvail false cs, sh, 0⟩
        = some ⟨es0, swInitAvail false cs, sh, 0⟩ := by
    intro sh
    refine swZeroLoop_noop ?_ cs.length
    intro hand
    have habs : size + (SWState.mk es0 (swInitAvail false cs) sh 0).avail < total := hand.2
    have : size + swInitAvail false cs < total := habs
    omega
  have hpp : swPropPass total ts es0 = (es2, removedP) := by
    rw [swPropPass_eq, hes2def, hremdef]
  have hup : swUpPass ((ts - ts).toNat + 1) ts es3 ts = some (es3, ts) :=
    swUpPass_noop (by omega) es3 ((ts - ts).toNat)
  have hrun : shrink_windows total size
      ((cs.length : Int) - ((cs.filter SWChild.fixed).length : Int)) false cs
      = some (es3.map SWEntry.newSize) := by
    rw [shrink_windows]
    rw [show swInitEntries false cs = es0 from rfl,
      show total - size = ts from rfl]
    simp only [hzl ((cs.length : Int) - ((cs.filter SWChild.fixed).length : Int)),
      hpp, zero_add, hdown, hup]
  show sizeWindowNewTotal size cs = some size
  rw [sizeWindowNewTotal, sizeWindowShrink, hrf]
  rw [if_neg (by decide : ¬ (false = true))]
  rw [← htotdef, hrun]
  simp only [Option.map_some']
  rw [hfinal2]

/-- Closed witness for `shrink_windows_conserves_total`: two resizable
children of size 5 and 6 with floor 1 shrunk to a compound size of 7. -/
theorem shrink_windows_conserves_total_witness :
    sizeWindowNewTotal 7 [⟨5, 1, false, false⟩, ⟨6, 1, false, false⟩] = some 7 :=
  shrink_windows_conserves_total 7 _ (by decide)
    (by decide) (by decide) (by decide) (by decide) (by decide)

/-- Counterexample to claim C1 exactly as stated: two resizable children of
size 2 with floor 2, shrunk from compound size 4 to 1 (`totalNew < totalOld`,
two resizable children), yield installed sizes summing to 2, not to 1: the
elimination loop zeroes the first child, the remainder pass stops at the
`nonzero_sizes == 1` early exit, and the deficit is never removed. -/
theorem shrink_windows_total_mismatch :
    (2 ≤ (([⟨2, 2, false, false⟩, ⟨2, 2, false, false⟩] : List SWChild).filter
        fun c => !c.fixed).length) ∧
    ((1 : Int) < (([⟨2, 2, false, false⟩, ⟨2, 2, false, false⟩] : List SWChild).map
        SWChild.size).sum) ∧
    sizeWindowNewTotal 1 [⟨2, 2, false, false⟩, ⟨2, 2, false, false⟩] = some 2 ∧
    sizeWindowNewTotal 1 [⟨2, 2, false, false⟩, ⟨2, 2, false, false⟩] ≠ some 1 := by
  refine ⟨by decide, by decide, by decide, by decide⟩

/-! ### The shrink-to-zero elimination loop (claim C3) -/

theorem swSmallest_le_init (es : List SWEntry) (a : Int) :
    es.foldl (fun sm e => if e.newSize > 0 && sm > e.newSize then e.newSize else sm) a
      ≤ a := by
  induction es generalizing a with
  | nil => simp
  | cons e es ih =>
    simp only [List.foldl_cons]
    by_cases h : (e.newSize > 0 && a > e.newSize) = true
    · rw [if_pos h]
      simp only [Bool.and_eq_true, decide_eq_true_eq] at h
      exact le_trans (ih e.newSize) (le_of_lt h.2)
    · rw [if_neg h]
      exact ih a

theorem swSmallest_le_pos (es : List SWEntry) (a : Int) :
    ∀ e ∈ es, 0 < e.newSize →
      es.foldl (fun sm e => if e.newSize > 0 && sm > e.newSize then e.newSize else sm) a
        ≤ e.newSize := by
  induction es generalizing a with
  | nil => intro e he; simp at he
  | cons f es ih =>
    intro e he hpos
    simp only [List.foldl_cons]
    rcases List.mem_cons.1 he with rfl | he'
    · by_cases h : (e.newSize > 0 && a > e.newSize) = true
      · rw [if_pos h]
        exact swSmallest_le_init es e.newSize
      · rw [if_neg h]
        simp only [Bool.and_eq_true, decide_eq_true_eq, not_and, not_lt] at h
        exact le_trans (swSmallest_le_init es a) (h hpos)
    · by_cases h : (f.newSize > 0 && a > f.newSize) = true
      · rw [if_pos h]; exact ih f.newSize e he' hpos
      · rw [if_neg h]; exact ih a e he' hpos

theorem swSmallest_cases (es : List SWEntry) (a : Int) :
    es.foldl (fun sm e => if e.newSize > 0 && sm > e.newSize then e.newSize else sm) a
        = a ∨
      ∃ e ∈ es,
        es.foldl (fun sm e => if e.newSize > 0 && sm > e.newSize then e.newSize else sm) a
          = e.newSize ∧ 0 < e.newSize := by
  induction es generalizing a with
  | nil => exact Or.inl rfl
  | cons f es ih =>
    simp only [List.foldl_cons]
    by_cases h : (f.newSize > 0 && a > f.newSize) = true
    · rw [if_pos h]
      simp only [Bool.and_eq_true, decide_eq_true_eq] at h
      rcases ih f.newSize with heq | ⟨e, he, heq, hpos⟩
      · exact Or.inr ⟨f, List.mem_cons_self f es, heq, h.1⟩
      · exact Or.inr ⟨e, List.mem_cons_of_mem _ he, heq, hpos⟩
    · rw [if_neg h]
      rcases ih a with heq | ⟨e, he, heq, hpos⟩
      · exact Or.inl heq
      · exact Or.inr ⟨e, List.mem_cons_of_mem _ he, heq, hpos⟩

/-- The two scans of the elimination loop body find a genuine minimum: under
the loop's operating conditions the `smallest` value computed by the first
scan is positive, is attained by some entry, and bounds every positive entry
from below. -/
theorem swSmallest_spec {total : Int} {es : List SWEntry} (htotal : 0 < total)
    (hle : ∀ e ∈ es, e.newSize ≤ total) (hpos : ∃ e ∈ es, 0 < e.newSize) :
    (∃ e ∈ es, e.newSize = swSmallest total es) ∧ 0 < swSmallest total es ∧
      ∀ e ∈ es, 0 < e.newSize → swSmallest total es ≤ e.newSize := by
  obtain ⟨p, hp, hppos⟩ := hpos
  have hlow := swSmallest_le_pos es total
  rcases swSmallest_cases es total with heq | ⟨e, he, heq, hepos⟩
  · refine ⟨⟨p, hp, ?_⟩, ?_, fun e he hpe => hlow e he hpe⟩
    · have h1 : swSmallest total es ≤ p.newSize := hlow p hp hppos
      have h2 := hle p hp
      rw [swSmallest] at *
      omega
    · rw [swSmallest, heq]; exact htotal
  · exact ⟨⟨e, he, heq.symm⟩, by rw [swSmallest, heq]; exact hepos,
      fun f hf hpf => hlow f hf hpf⟩

/-- How one entry may evolve across one elimination: unchanged, or a positive
entry equal to the zeroed minimum set to 0. -/
def swZRel (sm : Int) (e e' : SWEntry) : Prop :=
  e' = e ∨ (e.newSize = sm ∧ e' = ⟨0, e.minSz⟩)

theorem swZeroFirst_spec {sm : Int} :
    ∀ {es : List SWEntry}, (∃ e ∈ es, e.newSize = sm) →
    ∃ e₀ es', swZeroFirst sm es = some (e₀, es') ∧ e₀ ∈ es ∧ e₀.newSize = sm ∧
      List.Forall₂ (swZRel sm) es es' ∧
      (0 < sm → posCount es' + 1 = posCount es) := by
  intro es
  induction es with
  | nil => intro h; simp at h
  | cons e rest ih =>
    intro h
    by_cases he : e.newSize = sm
    · refine ⟨e, ⟨0, e.minSz⟩ :: rest, ?_, List.mem_cons_self e rest, he, ?_, ?_⟩
      · simp [swZeroFirst, he]
      · exact List.Forall₂.cons (Or.inr ⟨he, rfl⟩)
          ((List.forall₂_same).2 fun x _ => Or.inl rfl)
      · intro hsm
        simp only [posCount, List.filter_cons]
        have h1 : (decide (0 < e.newSize)) = true := by
          simp only [decide_eq_true_eq]; omega
        have h2 : (decide (0 < (SWEntry.mk 0 e.minSz).newSize)) = false := by
          simp
        rw [h1, h2]
        simp
    · obtain ⟨f, hf, hfe⟩ := h
      rcases List.mem_cons.1 hf with rfl | hf'
      · exact absurd hfe he
      · obtain ⟨e₀, es', hz, hmem, hsm0, hrel, hcount⟩ := ih ⟨f, hf', hfe⟩
        refine ⟨e₀, e :: es', ?_, List.mem_cons_of_mem _ hmem, hsm0,
          List.Forall₂.cons (Or.inl rfl) hrel, ?_⟩
        · simp [swZeroFirst, he, hz]
        · intro hsm
          have := hcount hsm
          simp only [posCount, List.filter_cons]
          by_cases hp : (decide (0 < e.newSize)) = true
          · rw [hp]
            simp only [if_true, List.length_cons]
            simp only [posCount] at this ⊢
            omega
          · rw [Bool.not_eq_true] at hp
            rw [hp]
            simpa [posCount] using this

theorem mem_zip_same {α : Type} {l : List α} :
    ∀ {p : α × α}, p ∈ l.zip l → p.1 = p.2 := by
  induction l with
  | nil => intro p h; simp at h
  | cons x l ih =>
    intro p h
    rcases List.mem_cons.1 (by simpa [List.zip_cons_cons] using h) with rfl | h'
    · rfl
    · exact ih h'

theorem zip_mid {α β γ : Type} :
    ∀ {l1 : List α} {l2 : List β} {l3 : List γ},
      l1.length = l2.length → l2.length = l3.length →
      ∀ {a : α} {c : γ}, (a, c) ∈ l1.zip l3 →
        ∃ b, (a, b) ∈ l1.zip l2 ∧ (b, c) ∈ l2.zip l3 := by
  intro l1
  induction l1 with
  | nil => intro l2 l3 _ _ a c h; simp at h
  | cons x l1 ih =>
    intro l2 l3 h12 h23 a c h
    cases l2 with
    | nil => simp at h12
    | cons y l2 =>
      cases l3 with
      | nil => simp at h23
      | cons z l3 =>
        have h0 : (a = x ∧ c = z) ∨ (a, c) ∈ l1.zip l3 := by
          simpa [List.zip_cons_cons] using h
        rcases h0 with ⟨rfl, rfl⟩ | h'
        · exact ⟨y, by simp [List.zip_cons_cons], by simp [List.zip_cons_cons]⟩
        · obtain ⟨b, hb1, hb2⟩ := ih (by simpa using h12) (by simpa using h23) h'
          exact ⟨b, List.mem_cons_of_mem _ hb1, List.mem_cons_of_mem _ hb2⟩

theorem posCount_pos_exists {es : List SWEntry} (h : 1 ≤ posCount es) :
    ∃ e ∈ es, 0 < e.newSize := by
  induction es with
  | nil => simp [posCount] at h
  | cons e es ih =>
    by_cases hp : 0 < e.newSize
    · exact ⟨e, List.mem_cons_self e es, hp⟩
    · simp only [posCount, List.filter_cons, decide_eq_true_eq] at h
      rw [if_neg (by simpa using hp)] at h
      obtain ⟨f, hf, hfp⟩ := ih h
      exact ⟨f, List.mem_cons_of_mem _ hf, hfp⟩

/-- One iteration of the elimination loop: it zeroes an entry holding the
smallest positive value, decrements `shrinkable`, and leaves every other
entry untouched. -/
theorem swZeroStep_spec {total : Int} {st : SWState} (htotal : 0 < total)
    (hle : ∀ e ∈ st.entries, e.newSize ≤ total)
    (hpos : ∃ e ∈ st.entries, 0 < e.newSize) :
    ∃ st1, swZeroStep total st = some st1 ∧
      st1.shrinkable = st.shrinkable - 1 ∧
      List.Forall₂ (swZRel (swSmallest total st.entries)) st.entries st1.entries ∧
      posCount st1.entries + 1 = posCount st.entries ∧
      0 < swSmallest total st.entries ∧
      (∀ e ∈ st.entries, 0 < e.newSize → swSmallest total st.entries ≤ e.newSize) := by
  obtain ⟨hex, hsm, hmin⟩ := swSmallest_spec htotal hle hpos
  obtain ⟨e₀, es', hz, hm, he₀, hrel, hcount⟩ := swZeroFirst_spec hex
  refine ⟨{ entries := es'
            avail := (if swSmallest total st.entries > e₀.minSz
              then st.avail - (swSmallest total st.entries - e₀.minSz)
              else st.avail) + swSmallest total st.entries
            shrinkable := st.shrinkable - 1
            removed := st.removed + swSmallest total st.entries },
    ?_, rfl, hrel, hcount hsm, hsm, hmin⟩
  simp only [swZeroStep, hz]

/-- Claim C3: the elimination loop of `shrink_windows` runs while more than
one shrinkable child remains and the slack is insufficient; it terminates in
a state where that condition fails; over the whole run every entry is either
untouched or zeroed; an entry that is zeroed held, at the moment it was
zeroed, a value no larger than every entry still positive at the end — in
particular the loop zeroes smallest children first; and at least one
positive (resizable) entry always survives. -/
theorem swZeroLoop_spec (total size : Int) (htotal : 0 < total) :
    ∀ (fuel : Nat) (st : SWState),
      posCount st.entries < fuel →
      st.shrinkable = (posCount st.entries : Int) →
      (∀ e ∈ st.entries, e.newSize ≤ total) →
      ∃ st', swZeroLoop fuel total size st = some st' ∧
        ¬(st'.shrinkable > 1 ∧ size + st'.avail < total) ∧
        st'.shrinkable = (posCount st'.entries : Int) ∧
        (1 ≤ posCount st.entries → 1 ≤ posCount st'.entries) ∧
        List.Forall₂ (fun e e' => e' = e ∨ (0 < e.newSize ∧ e' = ⟨0, e.minSz⟩))
          st.entries st'.entries ∧
        (∀ p ∈ st.entries.zip st'.entries, 0 < p.1.newSize → p.2.newSize = 0 →
          ∀ q ∈ st.entries.zip st'.entries, 0 < q.2.newSize →
            p.1.newSize ≤ q.1.newSize) := by
  intro fuel
  induction fuel with
  | zero => intro st h; omega
  | succ fuel ih =>
    intro st hfuel hshr hle
    by_cases hguard : st.shrinkable > 1 ∧ size + st.avail < total
    · have hpc1 : 1 < posCount st.entries := by
        have h1 := hguard.1
        rw [hshr] at h1
        exact_mod_cast h1
      have hpos : ∃ e ∈ st.entries, 0 < e.newSize :=
        posCount_pos_exists (by omega)
      obtain ⟨st1, hstep, hshr1, hrelZ, hcount, hsmpos, hsmmin⟩ :=
        swZeroStep_spec htotal hle hpos
      have hle1 : ∀ e ∈ st1.entries, e.newSize ≤ total := by
        intro e he
        obtain ⟨x, hx, hxy⟩ := forall₂_mem_right hrelZ he
        rcases hxy with heq | ⟨_, heq⟩
        · rw [heq]; exact hle x hx
        · rw [heq]
          change (0 : Int) ≤ total
          omega
      obtain ⟨st', hrun', hstop', hshr'', hpos'', hrel'', hsf''⟩ :=
        ih st1 (by omega) (by rw [hshr1, hshr]; omega) hle1
      have hlen12 : st.entries.length = st1.entries.length :=
        List.Forall₂.length_eq hrelZ
      have hlen23 : st1.entries.length = st'.entries.length :=
        List.Forall₂.length_eq hrel''
      refine ⟨st', ?_, hstop', hshr'', fun _ => hpos'' (by omega), ?_, ?_⟩
      · rw [swZeroLoop, if_pos hguard, hstep]
        exact hrun'
      · refine forall₂_compose ?_ hrelZ hrel''
        intro a b c hab hbc
        rcases hab with rfl | ⟨hasm, heq⟩
        · exact hbc
        · subst heq
          rcases hbc with heq2 | ⟨hpos2, heq2⟩
          · rw [heq2]
            exact Or.inr ⟨by rw [hasm]; exact hsmpos, rfl⟩
          · exfalso
            simp only [SWEntry.mk.injEq] at hpos2
            omega
      · rintro ⟨a, a'⟩ hp hppos hpzero ⟨c, c'⟩ hq hqpos
        have hppos' : 0 < a.newSize := hppos
        have hpzero' : a'.newSize = 0 := hpzero
        have hqpos' : 0 < c'.newSize := hqpos
        obtain ⟨b, hab, hba'⟩ := zip_mid hlen12 hlen23 hp
        obtain ⟨d, hcd, hdc'⟩ := zip_mid hlen12 hlen23 hq
        have hzr1 : swZRel (swSmallest total st.entries) a b :=
          (List.forall₂_iff_zip.1 hrelZ).2 hab
        have hzr2 : swZRel (swSmallest total st.entries) c d :=
          (List.forall₂_iff_zip.1 hrelZ).2 hcd
        have hir2 : c' = d ∨ (0 < d.newSize ∧ c' = ⟨0, d.minSz⟩) :=
          (List.forall₂_iff_zip.1 hrel'').2 hdc'
        have hdc : d = c ∧ 0 < c.newSize := by
          rcases hir2 with heq | ⟨_, heq⟩
          · rcases hzr2 with heq2 | ⟨_, heq2⟩
            · rw [heq2] at heq ⊢
              exact ⟨rfl, heq ▸ hqpos'⟩
            · rw [heq2] at heq
              rw [heq] at hqpos'
              change 0 < (0 : Int) at hqpos'
              omega
          · rw [heq] at hqpos'
            change 0 < (0 : Int) at hqpos'
            omega
        rcases hzr1 with heq | ⟨hasm, heq⟩
        · have hstep := hsf'' (b, a') hba' (by rw [heq]; exact hppos')
            hpzero' (d, c') hdc' hqpos'
          have hstep' : b.newSize ≤ d.newSize := hstep
          rw [heq, hdc.1] at hstep'
          exact hstep'
        · have hc1 : c ∈ st.entries := (List.of_mem_zip hcd).1
          have hq2 : 0 < c.newSize := hdc.2
          have hmin2 := hsmmin c hc1 hq2
          show a.newSize ≤ c.newSize
          omega
    · refine ⟨st, ?_, hguard, hshr, fun h => h, ?_, ?_⟩
      · rw [swZeroLoop, if_neg hguard]
      · exact (List.forall₂_same).2 fun x _ => Or.inl rfl
      · intro p hp hp1 hp2
        have heq : p.1.newSize = p.2.newSize :=
          congrArg SWEntry.newSize (mem_zip_same hp)
        omega

theorem posCount_init (cs : List SWChild) (hsz : ∀ c ∈ cs, 1 ≤ c.size) :
    posCount (swInitEntries false cs) = (cs.filter fun c => !c.fixed).length := by
  induction cs with
  | nil => simp [posCount, swInitEntries]
  | cons c cs ih =>
    have hc := hsz c (List.mem_cons_self c cs)
    have ih' := ih fun x hx => hsz x (List.mem_cons_of_mem _ hx)
    rw [swInitEntries_false] at ih' ⊢
    simp only [List.map_cons, posCount, List.filter_cons] at ih' ⊢
    by_cases h : c.fixed = true
    · have h1 : (decide (0 < (if c.fixed = true then SWEntry.mk (-1) c.minSz
          else ⟨c.size, c.minSz⟩).newSize)) = false := by
        rw [if_pos h]
        simp
      rw [h1]
      simp [h, ih']
    · have h' : c.fixed = false := by revert h; cases c.fixed <;> simp
      have h1 : (decide (0 < (if c.fixed = true then SWEntry.mk (-1) c.minSz
          else ⟨c.size, c.minSz⟩).newSize)) = true := by
        rw [if_neg (by simp [h'])]
        simp only [decide_eq_true_eq]
        omega
      rw [h1]
      simp [h', ih']

/-- Claim C3: in the `shrink_windows` elimination loop, run exactly as
`shrink_windows` runs it with `resize_fixed_p` zero (entries and
`available_resize` from the initialization loop, `shrinkable` the number of
resizable children), the loop (1) terminates in a state where it is no longer
true that more than one shrinkable child remains and the freed room is
insufficient, (2) leaves each entry either untouched or zeroed, (3) zeroes
only entries whose value was, at elimination time, no larger than that of
every entry still positive at the end (smallest-first elimination), and
(4) never zeroes the last remaining resizable child: at least one entry
stays positive. -/
theorem shrink_windows_zero_loop (size : Int) (cs : List SWChild)
    (hsz : ∀ c ∈ cs, 1 ≤ c.size)
    (hres : 1 ≤ (cs.filter fun c => !c.fixed).length) :
    ∃ st', swZeroLoop (cs.length + 1) ((cs.map SWChild.size).sum) size
        ⟨swInitEntries false cs, swInitAvail false cs,
          (((cs.filter fun c => !c.fixed).length : Int)), 0⟩ = some st' ∧
      ¬(st'.shrinkable > 1 ∧ size + st'.avail < (cs.map SWChild.size).sum) ∧
      st'.shrinkable = (posCount st'.entries : Int) ∧
      1 ≤ posCount st'.entries ∧
      List.Forall₂ (fun e e' => e' = e ∨ (0 < e.newSize ∧ e' = ⟨0, e.minSz⟩))
        (swInitEntries false cs) st'.entries ∧
      (∀ p ∈ (swInitEntries false cs).zip st'.entries,
        0 < p.1.newSize → p.2.newSize = 0 →
        ∀ q ∈ (swInitEntries false cs).zip st'.entries, 0 < q.2.newSize →
          p.1.newSize ≤ q.1.newSize) := by
  have hlen1 : 1 ≤ cs.length := le_trans hres (List.length_filter_le _ cs)
  have htotal_ge : (cs.length : Int) ≤ (cs.map SWChild.size).sum := by
    have h := length_le_sum_of_one_le (l := cs.map SWChild.size) ?_
    · rwa [List.length_map] at h
    · intro x hx
      obtain ⟨c, hc, rfl⟩ := List.mem_map.1 hx
      exact hsz c hc
  have htotal : 0 < (cs.map SWChild.size).sum := by
    have : ((1 : Nat) : Int) ≤ (cs.length : Int) := by exact_mod_cast hlen1
    omega
  have hle : ∀ e ∈ swInitEntries false cs, e.newSize ≤ (cs.map SWChild.size).sum := by
    rw [swInitEntries_false]
    intro e he
    obtain ⟨c, hc, rfl⟩ := List.mem_map.1 he
    have hsle : c.size ≤ (cs.map SWChild.size).sum := by
      refine List.single_le_sum ?_ _ (List.mem_map_of_mem SWChild.size hc)
      intro x hx
      obtain ⟨d, hd, rfl⟩ := List.mem_map.1 hx
      have := hsz d hd
      omega
    by_cases h : c.fixed = true
    · rw [if_pos h]
      change (-1 : Int) ≤ _
      omega
    · rw [if_neg h]
      exact hsle
  have hpc := posCount_init cs hsz
  obtain ⟨st', h1, h2, h3, h4, h5, h6⟩ :=
    swZeroLoop_spec ((cs.map SWChild.size).sum) size htotal (cs.length + 1)
      ⟨swInitEntries false cs, swInitAvail false cs,
        (((cs.filter fun c => !c.fixed).length : Int)), 0⟩
      (by
        show posCount (swInitEntries false cs) < cs.length + 1
        rw [swInitEntries_false] at *
        have : posCount (cs.map fun c => if c.fixed then SWEntry.mk (-1) c.minSz
            else ⟨c.size, c.minSz⟩) ≤ cs.length := by
          rw [posCount]
          have := List.length_filter_le (fun e => decide (0 < e.newSize))
            (cs.map fun c => if c.fixed then SWEntry.mk (-1) c.minSz
              else ⟨c.size, c.minSz⟩)
          simpa using this
        omega)
      (by
        show (((cs.filter fun c => !c.fixed).length : Int))
          = (posCount (swInitEntries false cs) : Int)
        rw [hpc])
      hle
  exact ⟨st', h1, h2, h3, h4 (by rw [hpc]; exact hres), h5, h6⟩

/-- Closed witness for `shrink_windows_zero_loop`: the specification's
shrink-to-zero scenario, four resizable children with floors 2, 3, 4 and 10
(sizes 3, 4, 5 and 11) shrunk to a compound size of 12. -/
theorem shrink_windows_zero_loop_witness :
    ∃ st', swZeroLoop (([⟨3, 2, false, false⟩, ⟨4, 3, false, false⟩,
        ⟨5, 4, false, false⟩, ⟨11, 10, false, false⟩] : List SWChild).length + 1)
        ((([⟨3, 2, false, false⟩, ⟨4, 3, false, false⟩, ⟨5, 4, false, false⟩,
          ⟨11, 10, false, false⟩] : List SWChild).map SWChild.size).sum) 12
        ⟨swInitEntries false [⟨3, 2, false, false⟩, ⟨4, 3, false, false⟩,
            ⟨5, 4, false, false⟩, ⟨11, 10, false, false⟩],
          swInitAvail false [⟨3, 2, false, false⟩, ⟨4, 3, false, false⟩,
            ⟨5, 4, false, false⟩, ⟨11, 10, false, false⟩],
          (((([⟨3, 2, false, false⟩, ⟨4, 3, false, false⟩, ⟨5, 4, false, false⟩,
            ⟨11, 10, false, false⟩] : List SWChild).filter
              fun c => !c.fixed).length : Int)), 0⟩ = some st' ∧
      ¬(st'.shrinkable > 1 ∧ 12 + st'.avail
        < ((([⟨3, 2, false, false⟩, ⟨4, 3, false, false⟩, ⟨5, 4, false, false⟩,
          ⟨11, 10, false, false⟩] : List SWChild).map SWChild.size).sum)) ∧
      st'.shrinkable = (posCount st'.entries : Int) ∧
      1 ≤ posCount st'.entries ∧
      List.Forall₂ (fun e e' => e' = e ∨ (0 < e.newSize ∧ e' = ⟨0, e.minSz⟩))
        (swInitEntries false [⟨3, 2, false, false⟩, ⟨4, 3, false, false⟩,
          ⟨5, 4, false, false⟩, ⟨11, 10, false, false⟩]) st'.entries ∧
      (∀ p ∈ (swInitEntries false [⟨3, 2, false, false⟩, ⟨4, 3, false, false⟩,
          ⟨5, 4, false, false⟩, ⟨11, 10, false, false⟩]).zip st'.entries,
        0 < p.1.newSize → p.2.newSize = 0 →
        ∀ q ∈ (swInitEntries false [⟨3, 2, false, false⟩, ⟨4, 3, false, false⟩,
          ⟨5, 4, false, false⟩, ⟨11, 10, false, false⟩]).zip st'.entries,
          0 < q.2.newSize → p.1.newSize ≤ q.1.newSize) :=
  shrink_windows_zero_loop 12 _ (by decide) (by decide)

end ShrinkLemmas

/-! ## Part 2: `window_fixed_size_p` (window.c lines 2609-2700)

A window is a live leaf showing a buffer (whose local `window-size-fixed`
value gives its policy), a dead leaf (no buffer, no children — the final
`else fixed_p = 1` branch), or a horizontal/vertical combination with a
nonempty chain of children.  The recursion below is exactly the C function
with `check_siblings_p = 0` (every recursive call in the C code passes 0;
the sibling check only applies to the outermost window and needs the
surrounding chain, which a subtree does not have). -/

/-- The buffer's `window-size-fixed` value: unbound or nil (not fixed),
`height`, `width`, or any other non-nil value (fixed in both directions). -/
inductive FixedPolicy where
  | free | height | width | both
  deriving Repr, DecidableEq

/-- Leaf case of `window_fixed_size_p` (lines 2657-2675, sibling check
omitted): fixed unless the policy names only the other axis. -/
def leafFixed (p : FixedPolicy) (widthP : Bool) : Bool :=
  match p with
  | .free => false
  | .height => !widthP
  | .width => widthP
  | .both => true

/-- A window subtree. -/
inductive WTree where
  | leaf (policy : FixedPolicy) : WTree
  | deadLeaf : WTree
  | hcomb (first : WTree) (rest : List WTree) : WTree
  | vcomb (first : WTree) (rest : List WTree) : WTree

mutual

/-- `window_fixed_size_p` with `check_siblings_p = 0`.  The `while` loops on
the child chain (lines 2623-2654) become `wfspAll` (advance while fixed,
result "reached the end") and `wfspAny` (advance while not fixed, result
"stopped before the end"). -/
def window_fixed_size_p : WTree → Bool → Bool
  | .hcomb c cs, widthP =>
    if widthP then wfspAll (c :: cs) widthP else wfspAny (c :: cs) widthP
  | .vcomb c cs, widthP =>
    if widthP then wfspAny (c :: cs) widthP else wfspAll (c :: cs) widthP
  | .leaf p, widthP => leafFixed p widthP
  | .deadLeaf, _ => true

/-- `while (c && window_fixed_size_p (c, ...)) c = c->next; fixed_p = c == NULL`. -/
def wfspAll : List WTree → Bool → Bool
  | [], _ => true
  | c :: rest, widthP =>
    if window_fixed_size_p c widthP then wfspAll rest widthP else false

/-- `while (c && !window_fixed_size_p (c, ...)) c = c->next; fixed_p = c != NULL`. -/
def wfspAny : List WTree → Bool → Bool
  | [], _ => false
  | c :: rest, widthP =>
    if window_fixed_size_p c widthP then true else wfspAny rest widthP

end

theorem wfspAll_eq (widthP : Bool) :
    ∀ l : List WTree, wfspAll l widthP = l.all (window_fixed_size_p · widthP) := by
  intro l
  induction l with
  | nil => simp [wfspAll]
  | cons c cs ih =>
    rw [wfspAll, List.all_cons]
    by_cases h : window_fixed_size_p c widthP = true
    · rw [if_pos h, h, ih, Bool.true_and]
    · rw [if_neg h, Bool.not_eq_true] at *
      rw [h, Bool.false_and]

theorem wfspAny_eq (widthP : Bool) :
    ∀ l : List WTree, wfspAny l widthP = l.any (window_fixed_size_p · widthP) := by
  intro l
  induction l with
  | nil => simp [wfspAny]
  | cons c cs ih =>
    rw [wfspAny, List.any_cons]
    by_cases h : window_fixed_size_p c widthP = true
    · rw [if_pos h, h, Bool.true_or]
    · rw [if_neg h, Bool.not_eq_true] at *
      rw [h, ih, Bool.false_or]

/-- Claim C4: a horizontal combination is width-fixed iff all children are
width-fixed and height-fixed iff some child is height-fixed; symmetrically
for vertical combinations; in particular a horizontal combination of two
leaves is width-fixed when both leaves are, and is height-fixed exactly when
one of the leaves is. -/
theorem window_fixed_size_p_combination (c : WTree) (cs : List WTree) :
    (window_fixed_size_p (.hcomb c cs) true
      = (c :: cs).all fun w => window_fixed_size_p w true) ∧
    (window_fixed_size_p (.hcomb c cs) false
      = (c :: cs).any fun w => window_fixed_size_p w false) ∧
    (window_fixed_size_p (.vcomb c cs) false
      = (c :: cs).all fun w => window_fixed_size_p w false) ∧
    (window_fixed_size_p (.vcomb c cs) true
      = (c :: cs).any fun w => window_fixed_size_p w true) ∧
    (∀ p1 p2 : FixedPolicy,
      window_fixed_size_p (.hcomb (.leaf p1) [.leaf p2]) true
        = (leafFixed p1 true && leafFixed p2 true) ∧
      window_fixed_size_p (.hcomb (.leaf p1) [.leaf p2]) false
        = (leafFixed p1 false || leafFixed p2 false)) := by
  refine ⟨?_, ?_, ?_, ?_, ?_⟩
  · rw [window_fixed_size_p, if_pos rfl, wfspAll_eq]
  · rw [window_fixed_size_p, if_neg (by simp), wfspAny_eq]
  · rw [window_fixed_size_p, if_neg (by simp), wfspAll_eq]
  · rw [window_fixed_size_p, if_pos rfl, wfspAny_eq]
  · intro p1 p2
    constructor
    · rw [window_fixed_size_p, if_pos rfl, wfspAll_eq]
      simp [window_fixed_size_p]
    · rw [window_fixed_size_p, if_neg (by simp), wfspAny_eq]
      simp [window_fixed_size_p]

/-! ## Part 3: `Fget_lru_window` (window.c lines 2355-2381) and the
`GET_LRU_WINDOW` case of `window_loop` (lines 2189-2202)

The canonical window list is modelled as a list of records; `obj` is the
bit-vector argument of `window_loop` (`bit 0`: full-width windows only,
`bit 1`: dedicated windows allowed); the selected window is identified by
its id. -/

/-- A candidate window as seen by `window_loop`'s `GET_LRU_WINDOW` case. -/
structure LWin where
  id : Nat
  fullWidth : Bool
  dedicated : Bool
  mini : Bool
  useTime : Nat
  deriving Repr, DecidableEq

/-- `window_loop (GET_LRU_WINDOW, obj, 0, frame)` over the canonical window
list: skip minibuffer windows, skip non-full-width windows when bit 0 of
`obj` is set, skip dedicated windows unless bit 1 of `obj` is set; among the
rest keep the window with the smallest use time, earliest first on ties
(`XFASTINT (best->use_time) > XFASTINT (w->use_time)` is strict). -/
def windowLoopLRU (fullWidthOnly considerDedicated : Bool) (ws : List LWin) :
    Option LWin :=
  ws.foldl (fun best w =>
    if w.mini then best
    else if (fullWidthOnly && !w.fullWidth) || (!considerDedicated && w.dedicated)
        || w.mini then best
    else match best with
      | none => some w
      | some b => if b.useTime > w.useTime then some w else some b) none

/-- `Fget_lru_window`: first try full-width windows only; if that yields a
window other than the selected one, return it; otherwise consider windows of
any width. -/
def Fget_lru_window (considerDedicated : Bool) (selId : Nat) (ws : List LWin) :
    Option LWin :=
  match windowLoopLRU true considerDedicated ws with
  | some w =>
    if w.id ≠ selId then some w
    else windowLoopLRU false considerDedicated ws
  | none => windowLoopLRU false considerDedicated ws

theorem windowLoopLRU_full_aux (considerDedicated : Bool) :
    ∀ (ws : List LWin) (acc : Option LWin),
      (∀ b, acc = some b → b.fullWidth = true) →
      ∀ w, ws.foldl (fun best w =>
        if w.mini then best
        else if (true && !w.fullWidth) || (!considerDedicated && w.dedicated)
            || w.mini then best
        else match best with
          | none => some w
          | some b => if b.useTime > w.useTime then some w else some b) acc = some w →
      w.fullWidth = true := by
  intro ws
  induction ws with
  | nil => intro acc hacc w h; exact hacc w h
  | cons x ws ih =>
    intro acc hacc w h
    rw [List.foldl_cons] at h
    refine ih _ ?_ w h
    intro b hb
    by_cases hm : x.mini = true
    · rw [if_pos hm] at hb; exact hacc b hb
    · rw [if_neg hm] at hb
      by_cases hskip : ((true && !x.fullWidth) || (!considerDedicated && x.dedicated)
          || x.mini) = true
      · rw [if_pos hskip] at hb; exact hacc b hb
      · rw [if_neg hskip] at hb
        have hxfull : x.fullWidth = true := by
          rcases hfw : x.fullWidth with _ | _
          · exfalso; apply hskip; rw [hfw]; simp
          · rfl
        rcases hacc2 : acc with _ | b0
        · rw [hacc2] at hb
          have hb' : some x = some b := hb
          cases hb'
          exact hxfull
        · rw [hacc2] at hb
          have hb' : (if b0.useTime > x.useTime then some x else some b0) = some b := hb
          by_cases hu : b0.useTime > x.useTime
          · rw [if_pos hu] at hb'
            cases hb'
            exact hxfull
          · rw [if_neg hu] at hb'
            cases hb'
            exact hacc _ hacc2

/-- Claim C10 (implicit two-pass behavior of `get-lru-window`): the first
pass only ever returns a full-width window, and there are inputs — here a
full-width window with use time 5 next to a half-width window with use time
1, neither dedicated, minibuffer or selected — on which `Fget_lru_window`
returns the full-width window although another candidate window has a
strictly smaller use time. -/
theorem get_lru_window_two_pass :
    (∀ (d : Bool) (ws : List LWin) (w : LWin),
      windowLoopLRU true d ws = some w → w.fullWidth = true) ∧
    (Fget_lru_window false 0
        [⟨1, true, false, false, 5⟩, ⟨2, false, false, false, 1⟩]
      = some ⟨1, true, false, false, 5⟩ ∧
      (⟨2, false, false, false, 1⟩ : LWin).mini = false ∧
      (⟨2, false, false, false, 1⟩ : LWin).dedicated = false ∧
      (⟨2, false, false, false, 1⟩ : LWin).useTime
        < (⟨1, true, false, false, 5⟩ : LWin).useTime) := by
  constructor
  · intro d ws w h
    exact windowLoopLRU_full_aux d ws none (by intro b hb; cases hb) w h
  · refine ⟨by decide, rfl, rfl, by decide⟩

/-- Closed witness for `get_lru_window_two_pass`: the first conjunct applied
to a one-element list. -/
theorem get_lru_window_two_pass_witness :
    (⟨7, true, false, false, 3⟩ : LWin).fullWidth = true :=
  get_lru_window_two_pass.1 false [⟨7, true, false, false, 3⟩]
    ⟨7, true, false, false, 3⟩ (by decide)

/-!
## Part 4: the window arena — tree surgery, configurations, selection

The remaining functions of window.c mutate a heap of window objects linked
by `parent`/`prev`/`next`/`vchild`/`hchild` references.  We embed that heap
as a total map from window ids to window records inside a machine state
`EState` that also carries the buffer and frame objects and the globals of
window.c (`selected_window`, `Vwindow_list` is modelled as recomputed,
`minibuf_level`, `Vbuffer_alist`, ...).  C code that loops over the
pointer structure becomes fuel-indexed recursion returning `Option`;
`none` models a non-terminating traversal of a malformed heap.  Everything
in this part is translated from window.c except the few external services
(markers, buffers, frames live outside this repository's sources) which
are modelled from the spec and marked as such.
-/

namespace Arena

/-- A marker object: the buffer it points into (`none` when the marker is
detached, C `XMARKER (m)->buffer == 0`) and its character position. -/
structure Marker where
  buffer : Option Nat := none
  charpos : Int := 0
  deriving DecidableEq

/-- The fragment of Lisp values stored in the window fields that window.c
only moves around and compares with `EQ`: `nil`, `t`, fixnums, and
references to window, buffer and frame objects.  `EQ` is equality (two
fixnums are `EQ` iff equal, object references are `EQ` iff they are the
same object). -/
inductive LV where
  | nil
  | t
  | num (n : Int)
  | win (w : Nat)
  | buf (b : Nat)
  | frm (f : Nat)
  deriving DecidableEq

/-- `BUFFERP` on an `LV`, returning the buffer id. -/
def LV.bufferp : LV → Option Nat
  | .buf b => some b
  | _ => none

/-- `NILP` on an `LV`. -/
def LV.nilp : LV → Bool
  | .nil => true
  | _ => false

/-- One window object (`struct window`), with the fields window.c's layout
and configuration code reads or writes.  Structural links are `Option Nat`
window ids (`none` is `Qnil`).  `buffer` is an `LV` because the code
stores `Qnil` (deleted), `Qt` (window being set up by `Fsplit_window`) or
a buffer there, and `total_lines` is an `LV` because
`delete_all_subwindows` parks the window's buffer in it (window.c:6189). -/
structure Window where
  frame : Nat := 0
  next : Option Nat := none
  prev : Option Nat := none
  parent : Option Nat := none
  vchild : Option Nat := none
  hchild : Option Nat := none
  buffer : LV := .nil
  left_col : Int := 0
  top_line : Int := 0
  total_cols : Int := 0
  total_lines : LV := .num 0
  hscroll : Int := 0
  min_hscroll : Int := 0
  display_table : LV := .nil
  orig_top_line : LV := .nil
  orig_total_lines : LV := .nil
  left_margin_cols : LV := .nil
  right_margin_cols : LV := .nil
  left_fringe_width : LV := .nil
  right_fringe_width : LV := .nil
  fringes_outside_margins : LV := .nil
  scroll_bar_width : LV := .nil
  vertical_scroll_bar_type : LV := .t
  dedicated : LV := .nil
  resize_proportionally : LV := .nil
  start_at_line_beg : LV := .nil
  pointm : Marker := {}
  start : Marker := {}
  temslot : Nat := 0
  use_time : Int := 0
  sequence_number : Nat := 0
  window_end_valid : LV := .nil
  force_start : LV := .nil
  frozen_window_start_p : Bool := false
  last_modified : Int := 0
  last_overlay_modified : Int := 0
  vscroll : Int := 0
  deriving DecidableEq

/-- One buffer object, reduced to the fields window.c reads: liveness
(`BVAR (b, name)` is nil exactly for killed buffers), point and the
accessible range `[begv, zv]` within `[1, z]`, the mark, and the
bookkeeping fields `last_window_start` / `last_selected_window` that
`unshow_buffer` maintains.  `window_size_fixed` is the buffer-local
variable read by `window_fixed_size_p`, `mode_line_format` the one read
by `window_min_size_2`. -/
structure Buffer where
  live : Bool := true
  pt : Int := 1
  begv : Int := 1
  zv : Int := 1
  z : Int := 1
  mark : Marker := {}
  last_window_start : Int := 1
  last_selected_window : Option Nat := none
  window_size_fixed : FixedPolicy := .free
  mode_line_format : LV := .t
  deriving DecidableEq

/-- One frame object, reduced to the fields window.c reads:
`FRAME_LIVE_P`, `FRAME_ROOT_WINDOW`, `FRAME_SELECTED_WINDOW`,
`FRAME_MINIBUF_WINDOW` (used by `MINI_WINDOW_P`), the character geometry
and chrome, the focus redirection, and the
`FRAME_WINDOW_SIZES_CHANGED` flag. -/
structure Frame where
  live : Bool := true
  root_window : Nat := 0
  selected_window : Nat := 0
  minibuf_window : Option Nat := none
  cols : Int := 80
  lines : Int := 25
  menu_bar_lines : Int := 0
  tool_bar_lines : Int := 0
  focus_frame : LV := .nil
  window_sizes_changed : Bool := false
  deriving DecidableEq

/-- The machine state: the window/buffer/frame heaps as total maps over
ids, plus the globals of window.c.  `frame_list` is `Vframe_list` (order
matters for `window_list`), `buffer_alist` is the most-recently-used
order of `Vbuffer_alist` reduced to its buffer ids, `next_window_id` is
the allocator used by `make_window`. -/
structure EState where
  windows : Nat → Window
  buffers : Nat → Buffer
  frames : Nat → Frame
  frame_list : List Nat := []
  selected_frame : Nat := 0
  selected_window : Nat := 0
  current_buffer : Nat := 0
  minibuf_level : Int := 0
  minibuf_window : Option Nat := none
  minibuf_scroll_window : LV := .nil
  minibuf_selected_window : LV := .nil
  buffer_alist : List Nat := []
  window_deletion_count : Nat := 0
  window_select_count : Int := 0
  sequence_number : Nat := 0
  next_window_id : Nat := 0
  window_min_height : Int := 4
  window_min_width : Int := 10

/-- Update one window record. -/
def updW (s : EState) (i : Nat) (f : Window → Window) : EState :=
  { s with windows := fun j => if j = i then f (s.windows j) else s.windows j }

/-- Update one buffer record. -/
def updB (s : EState) (i : Nat) (f : Buffer → Buffer) : EState :=
  { s with buffers := fun j => if j = i then f (s.buffers j) else s.buffers j }

/-- Update one frame record. -/
def updF (s : EState) (i : Nat) (f : Frame → Frame) : EState :=
  { s with frames := fun j => if j = i then f (s.frames j) else s.frames j }

@[simp] theorem updW_windows_same (s : EState) (i : Nat) (f : Window → Window) :
    (updW s i f).windows i = f (s.windows i) := by
  simp [updW]

theorem updW_windows_other (s : EState) (i j : Nat) (f : Window → Window)
    (h : j ≠ i) : (updW s i f).windows j = s.windows j := by
  simp [updW, h]

/-- `MINI_WINDOW_P (w)`: whether window `w` is the minibuffer window of
its frame. -/
def MINI_WINDOW_P (s : EState) (w : Nat) : Bool :=
  (s.frames (s.windows w).frame).minibuf_window = some w

/-- `FRAME_LIVE_P`. -/
def FRAME_LIVE_P (s : EState) (f : Nat) : Bool :=
  (s.frames f).live

/-- `clip_to_bounds (lower, num, upper)` from lisp.h. -/
def clip_to_bounds (lower num upper : Int) : Int :=
  max lower (min num upper)

/-- Modelled from the spec: the buffer/text service exposes the buffer's
point position (`bufferPointPosition`); `BUF_PT`. -/
def BUF_PT (s : EState) (b : Nat) : Int :=
  (s.buffers b).pt

/-- Modelled from the spec: `markerSet` attaching a marker to a buffer at
a position the caller already validated (C `set_marker_both`, marker.c,
which is outside this repository's sources). -/
def markerAt (b : Nat) (pos : Int) : Marker :=
  { buffer := some b, charpos := pos }

/-- Modelled from the spec: `set_marker_restricted` (marker.c) attaches
the marker to the buffer at the given position restricted to the
buffer's accessible range `[begv, zv]`; position 0 therefore lands at
the very beginning of the visible range. -/
def set_marker_restricted (s : EState) (pos : Int) (b : Nat) : Marker :=
  markerAt b (clip_to_bounds (s.buffers b).begv pos (s.buffers b).zv)

/-- Modelled from the spec: `Fset_marker` (marker.c) with a position that
is `nil` or a detached marker detaches the target marker
(`markerClear`); otherwise it attaches it at the position clamped to the
buffer's whole range `[1, z]`. -/
def Fset_marker (s : EState) (pos : Option Int) (b : Nat) : Marker :=
  match pos with
  | none => { buffer := none, charpos := 0 }
  | some p => markerAt b (clip_to_bounds 1 p (s.buffers b).z)

/-- Modelled from the spec: marker equality as decided by `Fequal`
(fns.c): same buffer, and, unless both are detached, the same position. -/
def markersFequal (m1 m2 : Marker) : Bool :=
  decide (m1.buffer = m2.buffer) &&
    (decide (m1.buffer = none) || decide (m1.charpos = m2.charpos))

/-- `Fequal` on the nil-or-marker slots of a saved window. -/
def markerSlotEqual : Option Marker → Option Marker → Bool
  | none, none => true
  | some m1, some m2 => markersFequal m1 m2
  | _, _ => false

/-- Modelled from the spec: `temp_set_point` (intervals.c) moves the
buffer's point without running hooks; callers clamp the position. -/
def temp_set_point (s : EState) (b : Nat) (pos : Int) : EState :=
  updB s b (fun r => { r with pt := pos })

/-- Modelled from the spec: `SET_PT` moves point of the current buffer. -/
def SET_PT (s : EState) (pos : Int) : EState :=
  temp_set_point s s.current_buffer pos

/-- Modelled from the spec: `Fset_buffer` (buffer.c) makes a buffer
current (the frame-independent bookkeeping restore performs even for a
dead frame). -/
def Fset_buffer (s : EState) (b : Nat) : EState :=
  { s with current_buffer := b }

/-- Modelled from the spec: `record_buffer` (buffer.c) moves a buffer to
the head of the most-recently-used buffer list. -/
def record_buffer (s : EState) (b : Nat) : EState :=
  { s with buffer_alist := b :: s.buffer_alist.erase b }

/-- `Fcdr (Fcar (Vbuffer_alist))` at window.c:6076: the most recently
used buffer. -/
def mruBuffer (s : EState) : Option Nat :=
  s.buffer_alist.head?

/-- Modelled from the spec: `change_frame_size` (dispnew.c) records the
new character geometry of the frame (the frame-tree relayout it triggers
is render-side; the restore paths proved about below never take this
branch, their hypotheses pin the configuration's sizes to the frame's). -/
def change_frame_size (s : EState) (f : Nat) (newlines newcols : Int) : EState :=
  updF s f (fun r => { r with lines := newlines, cols := newcols })

/-- Modelled from the spec: `x_set_menu_bar_lines` records the menu bar
height. -/
def x_set_menu_bar_lines (s : EState) (f : Nat) (n : Int) : EState :=
  updF s f (fun r => { r with menu_bar_lines := n })

/-- Modelled from the spec: `x_set_tool_bar_lines` records the tool bar
height. -/
def x_set_tool_bar_lines (s : EState) (f : Nat) (n : Int) : EState :=
  updF s f (fun r => { r with tool_bar_lines := n })

/-- Modelled from the spec: `Fredirect_frame_focus` (frame.c) records the
focus redirection of a frame. -/
def Fredirect_frame_focus (s : EState) (f : Nat) (focus : LV) : EState :=
  updF s f (fun r => { r with focus_frame := focus })

/-- One slot of a window configuration (`struct saved_window`): the saved
copy of one window's fields.  `parent` and `prev` are slot indices into
the configuration's vector (`temslot` values), not window ids.  The
marker slots are by-value copies (`Fcopy_marker`), `none` is `Qnil`. -/
structure SavedWindow where
  window : Nat
  buffer : LV := .nil
  left_col : Int := 0
  top_line : Int := 0
  total_cols : Int := 0
  total_lines : LV := .num 0
  hscroll : Int := 0
  min_hscroll : Int := 0
  display_table : LV := .nil
  orig_top_line : LV := .nil
  orig_total_lines : LV := .nil
  left_margin_cols : LV := .nil
  right_margin_cols : LV := .nil
  left_fringe_width : LV := .nil
  right_fringe_width : LV := .nil
  fringes_outside_margins : LV := .nil
  scroll_bar_width : LV := .nil
  vertical_scroll_bar_type : LV := .t
  dedicated : LV := .nil
  resize_proportionally : LV := .nil
  pointm : Option Marker := none
  start : Option Marker := none
  mark : Option Marker := none
  start_at_line_beg : LV := .nil
  parent : Option Nat := none
  prev : Option Nat := none
  deriving DecidableEq

/-- A window configuration (`struct save_window_data`). -/
structure SaveWindowData where
  frame_cols : Int := 80
  frame_lines : Int := 25
  frame_menu_bar_lines : Int := 0
  frame_tool_bar_lines : Int := 0
  selected_frame : Nat := 0
  current_window : Nat := 0
  current_buffer : Nat := 0
  minibuf_scroll_window : LV := .nil
  minibuf_selected_window : LV := .nil
  root_window : Nat := 0
  focus_frame : LV := .nil
  saved_windows : List SavedWindow := []
  deriving DecidableEq

/-- `unshow_buffer` (window.c:1386-1431): record the window's start
position in the buffer's `last_window_start`, copy the window's point
into the buffer unless the buffer is the selected window's or is shown
in its `last_selected_window`, and clear `last_selected_window` if it
was this window.  `none` models the `abort ()` when the window's point
marker does not point into the window's buffer, and the type errors the
C could not survive (`XBUFFER` of a non-buffer, `marker_position` of a
detached marker). -/
def unshow_buffer_run (s : EState) (w : Nat) (b : Nat) : EState :=
  let wr := s.windows w
  let s1 := updB s b (fun r => { r with last_window_start := wr.start.charpos })
  let skip : Bool :=
    decide (wr.buffer = (s1.windows s1.selected_window).buffer) ||
      (match (s1.buffers b).last_selected_window with
       | some lsw =>
         decide (lsw ≠ w) && decide (wr.buffer = (s1.windows lsw).buffer)
       | none => false)
  let s2 :=
    if skip then s1
    else
      temp_set_point s1 b
        (clip_to_bounds (s1.buffers b).begv wr.pointm.charpos
          (s1.buffers b).zv)
  if (s2.buffers b).last_selected_window = some w then
    updB s2 b (fun r => { r with last_selected_window := none })
  else s2

def unshow_buffer (s : EState) (w : Nat) : Option EState :=
  match (s.windows w).buffer.bufferp with
  | none => none
  | some b =>
    if (s.windows w).pointm.buffer ≠ some b then none
    else if (s.windows w).start.buffer = none then none
    else some (unshow_buffer_run s w b)

/-- `delete_all_subwindows` (window.c:6179-6203): recurse into `next`,
`vchild` and `hchild`, park the window's buffer in its `total_lines`
field, unshow a non-nil buffer, and nil out `buffer`, `vchild` and
`hchild`. -/
def delete_all_subwindows (fuel : Nat) (s : EState) (w : Nat) : Option EState :=
  match fuel with
  | 0 => none
  | fuel + 1 =>
    (match (s.windows w).next with
      | some nxt => delete_all_subwindows fuel s nxt
      | none => some s).bind fun s1 =>
    (match (s1.windows w).vchild with
      | some v => delete_all_subwindows fuel s1 v
      | none => some s1).bind fun s2 =>
    (match (s2.windows w).hchild with
      | some hc => delete_all_subwindows fuel s2 hc
      | none => some s2).bind fun s3 =>
    let s4 := updW s3 w (fun r => { r with total_lines := r.buffer })
    (if ((s4.windows w).buffer.nilp : Bool) then some s4
      else unshow_buffer s4 w).bind fun s5 =>
    some (updW s5 w (fun r =>
      { r with buffer := .nil, vchild := none, hchild := none }))

/-- `save_window_save` (window.c:6264-6343): walk the sibling chain from
`window`, assigning each window its slot index in `temslot` and
recording its fields; a non-selected window's point is the copy of its
`pointm` marker, the selected window's point is read from its buffer.
Children (`vchild` then `hchild`) are saved between a node and its next
sibling, so slots are in preorder and a window's parent and previous
sibling already carry their `temslot` when it is read back.  Returns the
state (with the `temslot` writes), the next free index and the slots. -/
def save_window_save (fuel : Nat) (s : EState) (window : Option Nat)
    (i : Nat) : Option (EState × Nat × List SavedWindow) :=
  match fuel with
  | 0 => none
  | fuel + 1 =>
    match window with
    | none => some (s, i, [])
    | some wid =>
      let s := updW s wid (fun r => { r with temslot := i })
      let w := s.windows wid
      (match w.buffer with
        | .nil => some ((none : Option Marker), (none : Option Marker),
            (none : Option Marker), LV.nil)
        | .buf b =>
          some
            (if wid = s.selected_window then some (markerAt b (BUF_PT s b))
             else some w.pointm,
             some w.start, some (s.buffers b).mark, w.start_at_line_beg)
        | _ => none).bind fun mks =>
      let p : SavedWindow :=
        { window := wid, buffer := w.buffer, left_col := w.left_col,
          top_line := w.top_line, total_cols := w.total_cols,
          total_lines := w.total_lines, hscroll := w.hscroll,
          min_hscroll := w.min_hscroll, display_table := w.display_table,
          orig_top_line := w.orig_top_line,
          orig_total_lines := w.orig_total_lines,
          left_margin_cols := w.left_margin_cols,
          right_margin_cols := w.right_margin_cols,
          left_fringe_width := w.left_fringe_width,
          right_fringe_width := w.right_fringe_width,
          fringes_outside_margins := w.fringes_outside_margins,
          scroll_bar_width := w.scroll_bar_width,
          vertical_scroll_bar_type := w.vertical_scroll_bar_type,
          dedicated := w.dedicated,
          resize_proportionally := w.resize_proportionally,
          pointm := mks.1, start := mks.2.1, mark := mks.2.2.1,
          start_at_line_beg := mks.2.2.2,
          parent := w.parent.map (fun pw => (s.windows pw).temslot),
          prev := w.prev.map (fun pv => (s.windows pv).temslot) }
      (save_window_save fuel s w.vchild (i + 1)).bind fun r1 =>
      (save_window_save fuel r1.1 w.hchild r1.2.1).bind fun r2 =>
      (save_window_save fuel r2.1 w.next r2.2.1).bind fun r3 =>
      some (r3.1, r3.2.1, p :: (r1.2.2 ++ r2.2.2 ++ r3.2.2))

/-- `Fcurrent_window_configuration` (window.c:6345-6391) for an explicit
live frame: record the frame's geometry and chrome, the selected frame,
the frame's selected window, the current buffer, the minibuffer fields
(only while the minibuffer is active), root and focus, and the slot
vector from `save_window_save`.  Returns the configuration together with
the state (capture writes the `temslot` fields). -/
def Fcurrent_window_configuration (fuel : Nat) (s : EState) (f : Nat) :
    Option (EState × SaveWindowData) :=
  if ¬ (FRAME_LIVE_P s f : Bool) then none
  else
    (save_window_save fuel s (some (s.frames f).root_window) 0).bind fun r =>
      some (r.1,
        { frame_cols := (s.frames f).cols, frame_lines := (s.frames f).lines,
          frame_menu_bar_lines := (s.frames f).menu_bar_lines,
          frame_tool_bar_lines := (s.frames f).tool_bar_lines,
          selected_frame := s.selected_frame,
          current_window := (s.frames f).selected_window,
          current_buffer := s.current_buffer,
          minibuf_scroll_window :=
            if 0 < s.minibuf_level then s.minibuf_scroll_window else .nil,
          minibuf_selected_window :=
            if 0 < s.minibuf_level then s.minibuf_selected_window else .nil,
          root_window := (s.frames f).root_window,
          focus_frame := (s.frames f).focus_frame,
          saved_windows := r.2.2 })

/-- Per-slot comparison of `compare_window_configurations`
(window.c:6898-6960): the current-window flags must agree, the saved
fields must be `EQ`, and unless positions are ignored the scroll state
must be `EQ` and the markers `Fequal`. -/
def compareSavedWindow (d1 d2 : SaveWindowData) (p1 p2 : SavedWindow)
    (ignore_positions : Bool) : Bool :=
  decide ((d1.current_window = p1.window) ↔ (d2.current_window = p2.window)) &&
  decide (p1.buffer = p2.buffer) &&
  decide (p1.left_col = p2.left_col) &&
  decide (p1.top_line = p2.top_line) &&
  decide (p1.total_cols = p2.total_cols) &&
  decide (p1.total_lines = p2.total_lines) &&
  decide (p1.display_table = p2.display_table) &&
  decide (p1.parent = p2.parent) &&
  decide (p1.prev = p2.prev) &&
  (ignore_positions ||
    (decide (p1.hscroll = p2.hscroll) &&
     decide (p1.min_hscroll = p2.min_hscroll) &&
     decide (p1.start_at_line_beg = p2.start_at_line_beg) &&
     markerSlotEqual p1.start p2.start &&
     markerSlotEqual p1.pointm p2.pointm &&
     markerSlotEqual p1.mark p2.mark)) &&
  decide (p1.left_margin_cols = p2.left_margin_cols) &&
  decide (p1.right_margin_cols = p2.right_margin_cols) &&
  decide (p1.left_fringe_width = p2.left_fringe_width) &&
  decide (p1.right_fringe_width = p2.right_fringe_width) &&
  decide (p1.fringes_outside_margins = p2.fringes_outside_margins) &&
  decide (p1.scroll_bar_width = p2.scroll_bar_width) &&
  decide (p1.vertical_scroll_bar_type = p2.vertical_scroll_bar_type)

/-- `compare_window_configurations` (window.c:6852-6963): frame geometry,
menu bar (the tool bar is not compared), selected frame, current buffer,
the minibuffer fields (unless positions are ignored), focus, equal slot
counts, and all slot pairs. -/
def compare_window_configurations (d1 d2 : SaveWindowData)
    (ignore_positions : Bool) : Bool :=
  decide (d1.frame_cols = d2.frame_cols) &&
  decide (d1.frame_lines = d2.frame_lines) &&
  decide (d1.frame_menu_bar_lines = d2.frame_menu_bar_lines) &&
  decide (d1.selected_frame = d2.selected_frame) &&
  decide (d1.current_buffer = d2.current_buffer) &&
  (ignore_positions ||
    (decide (d1.minibuf_scroll_window = d2.minibuf_scroll_window) &&
     decide (d1.minibuf_selected_window = d2.minibuf_selected_window))) &&
  decide (d1.focus_frame = d2.focus_frame) &&
  decide (d1.saved_windows.length = d2.saved_windows.length) &&
  (d1.saved_windows.zip d2.saved_windows).all
    (fun pp => compareSavedWindow d1 d2 pp.1 pp.2 ignore_positions)

/-- Head of `select_window` (window.c:3502-3512): `CHECK_LIVE_WINDOW`
(the window must show a buffer), clear `frozen_window_start_p`, and
unless `norecord` bump the selection counter into the window's
`use_time` and move its buffer to the head of the MRU list.  Returns the
buffer id alongside the state. -/
def select_window_pre (s : EState) (window : Nat) (norecord : Bool) :
    Option (EState × Nat) :=
  match (s.windows window).buffer.bufferp with
  | none => none
  | some b =>
    let s := updW s window (fun r => { r with frozen_window_start_p := false })
    let s :=
      if norecord then s
      else
        let s := { s with window_select_count := s.window_select_count + 1 }
        let s := updW s window (fun r => { r with use_time := s.window_select_count })
        record_buffer s b
    some (s, b)

/-- Same-frame remainder of `select_window` (window.c:3531-3567): set the
frame's selected window, store the current buffer's point into the old
selected window's `pointm` unless `inhibit_point_swap`, make the window
selected, make its buffer current, record it as the buffer's
`last_selected_window`, and move point to the window's `pointm` clamped
to the accessible range. -/
def select_window_tail (s : EState) (window : Nat) (b : Nat)
    (inhibit_point_swap : Bool) : Option EState :=
  let s := updF s s.selected_frame (fun r => { r with selected_window := window })
  (if inhibit_point_swap then some s
    else
      match (s.windows s.selected_window).buffer with
      | .nil => some s
      | .buf ob =>
        some (updW s s.selected_window (fun r =>
          { r with pointm := markerAt ob (BUF_PT s ob) }))
      | _ => none).bind fun s =>
  let s := { s with selected_window := window }
  let s := Fset_buffer s b
  let s := updB s b (fun r => { r with last_selected_window := some window })
  if (s.windows window).pointm.buffer = none then none
  else
    let new_point := (s.windows window).pointm.charpos
    some (SET_PT s
      (clip_to_bounds (s.buffers b).begv new_point (s.buffers b).zv))

mutual

/-- `select_window` (window.c:3495-3568).  The cross-frame branch stores
the window into its frame's selected-window slot and switches frames;
the frame switch selects that frame's selected window, re-entering
`select_window` on the same frame (without `inhibit_point_swap`, as in
`Fselect_window`), so both functions recurse on a shared fuel. -/
def select_window (fuel : Nat) (s : EState) (window : Nat)
    (norecord inhibit_point_swap : Bool) : Option EState :=
  match fuel with
  | 0 => none
  | fuel + 1 =>
    (select_window_pre s window norecord).bind fun sb =>
      if window = sb.1.selected_window ∧ ¬ inhibit_point_swap then some sb.1
      else
        let wf := (sb.1.windows window).frame
        if ¬ (wf = sb.1.selected_frame) then
          do_switch_frame fuel
            (updF sb.1 wf (fun r => { r with selected_window := window }))
            wf norecord
        else
          select_window_tail sb.1 window sb.2 inhibit_point_swap

/-- Modelled from the spec: `do_switch_frame` (frame.c) makes the frame
selected and then selects that frame's selected window (which makes its
buffer current); switching to the already-selected frame is a no-op. -/
def do_switch_frame (fuel : Nat) (s : EState) (frame : Nat)
    (norecord : Bool) : Option EState :=
  match fuel with
  | 0 => none
  | fuel + 1 =>
    if frame = s.selected_frame then some s
    else
      select_window fuel { s with selected_frame := frame }
        (s.frames frame).selected_window norecord false

end

/-- `Fselect_window` (window.c:3574-3591): `select_window` without
point-swap inhibition. -/
def Fselect_window (fuel : Nat) (s : EState) (window : Nat)
    (norecord : Bool) : Option EState :=
  select_window fuel s window norecord false

/-- The `Qnil`-or-buffer value of the restore's `new_current_buffer`. -/
def ncbLV : Option Nat → LV
  | none => .nil
  | some b => .buf b

/-- Position argument for `Fset_marker` when the C passes a
nil-or-marker: `nil` and detached markers request detaching. -/
def markerPosForSet : Option Marker → Option Int
  | none => none
  | some m =>
    match m.buffer with
    | none => none
    | some _ => some m.charpos

/-- Body of the slot loop of `Fset_window_configuration`
(window.c:5990-6098) for one slot `p`: clear `next`, relink `parent` and
`prev` from the slot indices (a first sibling hooks itself into its
parent's `vchild` or `hchild` according to whether its saved
`total_cols` equals the parent's, window.c:6013-6022), un-park a buffer
squirreled away in `total_lines`, copy the saved fields back, and
reinstall the saved buffer: a live saved buffer is installed with its
markers (moving point of the running current buffer when that buffer is
shown but is not the configuration's recorded buffer); a dead saved
buffer is replaced by the most recently used live buffer with start and
point at the beginning of its accessible range; a window that still has
a live (parked) buffer keeps it with its markers made real. -/
def restoreLinks (s : EState) (slots : List SavedWindow)
    (p : SavedWindow) : Option EState :=
  let wid := p.window
  let s := updW s wid (fun r => { r with next := none })
  (match p.parent with
    | some idx =>
      match slots[idx]? with
      | some q => some (updW s wid (fun r => { r with parent := some q.window }))
      | none => none
    | none =>
      some (updW s wid (fun r => { r with parent := none }))).bind fun s =>
  match p.prev with
  | some idx =>
    match slots[idx]? with
    | some q =>
      some (updW (updW s wid (fun r => { r with prev := some q.window }))
        q.window (fun r => { r with next := some wid }))
    | none => none
  | none =>
    let s := updW s wid (fun r => { r with prev := none })
    match (s.windows wid).parent with
    | some par =>
      if p.total_cols = (s.windows par).total_cols then
        some (updW s par (fun r => { r with vchild := some wid, hchild := none }))
      else
        some (updW s par (fun r => { r with hchild := some wid, vchild := none }))
    | none => some s

def restoreFields (s : EState) (p : SavedWindow) : EState :=
  let wid := p.window
  let s :=
    match (s.windows wid).total_lines.bufferp with
    | some pb => updW s wid (fun r => { r with buffer := .buf pb })
    | none => s
  updW s wid (fun r =>
    { r with
      left_col := p.left_col, top_line := p.top_line,
      total_cols := p.total_cols, total_lines := p.total_lines,
      hscroll := p.hscroll, min_hscroll := p.min_hscroll,
      display_table := p.display_table, orig_top_line := p.orig_top_line,
      orig_total_lines := p.orig_total_lines,
      left_margin_cols := p.left_margin_cols,
      right_margin_cols := p.right_margin_cols,
      left_fringe_width := p.left_fringe_width,
      right_fringe_width := p.right_fringe_width,
      fringes_outside_margins := p.fringes_outside_margins,
      scroll_bar_width := p.scroll_bar_width,
      vertical_scroll_bar_type := p.vertical_scroll_bar_type,
      dedicated := p.dedicated,
      resize_proportionally := p.resize_proportionally,
      last_modified := 0, last_overlay_modified := 0 })

def substituteMRU (s : EState) (wid : Nat) : Option EState :=
  match mruBuffer s with
  | none => none
  | some mb =>
    some (updW s wid (fun r =>
      { r with
        buffer := .buf mb,
        start := set_marker_restricted s 0 mb,
        pointm := set_marker_restricted s 0 mb,
        start_at_line_beg := .t }))

def reinstallBuffer (s : EState) (ncb : Option Nat) (p : SavedWindow) :
    Option EState :=
  let wid := p.window
  match p.buffer with
  | .nil => some (updW s wid (fun r => { r with buffer := .nil }))
  | .buf pb =>
    if (s.buffers pb).live then
      match p.start, p.pointm with
      | some stm, some pmm =>
        match stm.buffer, pmm.buffer with
        | some _, some _ =>
          let s := updW s wid (fun r =>
            { r with
              buffer := .buf pb,
              start_at_line_beg := p.start_at_line_beg,
              start := set_marker_restricted s stm.charpos pb,
              pointm := set_marker_restricted s pmm.charpos pb })
          let s := updB s pb (fun r =>
            { r with mark := Fset_marker s (markerPosForSet p.mark) pb })
          if ¬ (p.buffer = ncbLV ncb) ∧ pb = s.current_buffer then
            some (SET_PT s
              (clip_to_bounds (s.buffers pb).begv
                (s.windows wid).pointm.charpos (s.buffers pb).zv))
          else some s
        | _, _ => none
      | _, _ => none
    else
      match (s.windows wid).buffer with
      | .nil => substituteMRU s wid
      | .buf ob =>
        if ¬ (s.buffers ob).live then substituteMRU s wid
        else
          let s :=
            if (s.windows wid).start.buffer = none then
              updW s wid (fun r => { r with start := set_marker_restricted s 0 ob })
            else s
          let s :=
            if (s.windows wid).pointm.buffer = none then
              updW s wid (fun r =>
                { r with
                  pointm := markerAt ob
                    (clip_to_bounds (s.buffers ob).begv (BUF_PT s ob)
                      (s.buffers ob).zv) })
            else s
          some (updW s wid (fun r => { r with start_at_line_beg := .t }))
      | _ => none
  | _ => none

def restoreSlot1 (s : EState) (slots : List SavedWindow) (ncb : Option Nat)
    (p : SavedWindow) : Option EState :=
  (restoreLinks s slots p).bind fun s =>
  reinstallBuffer (restoreFields s p) ncb p

/-- The slot loop of `Fset_window_configuration`, left to right over the
saved-window vector. -/
def restoreSlots (s : EState) (slots : List SavedWindow) (ncb : Option Nat) :
    List SavedWindow → Option EState
  | [] => some s
  | p :: rest =>
    match restoreSlot1 s slots ncb p with
    | none => none
    | some s' => restoreSlots s' slots ncb rest

/-- The `old_point` computation of `Fset_window_configuration`
(window.c:5863-5908): the position the restore will force back into the
to-be-selected window when that window shows the recorded current
buffer, chosen so that restoring does not clobber the current buffer's
point. -/
def restoreOldPoint (s : EState) (data : SaveWindowData) (ncb : Option Nat) :
    Int :=
  match ncb with
  | none => -1
  | some nb =>
    if nb = s.current_buffer then
      if (s.windows data.current_window).buffer = LV.buf nb ∧
          (s.windows s.selected_window).buffer = LV.buf nb ∧
          ¬ (s.selected_window = data.current_window) then
        (s.windows data.current_window).pointm.charpos
      else BUF_PT s s.current_buffer
    else
      if (s.windows data.current_window).buffer = LV.buf nb ∧
          ¬ (s.selected_window = data.current_window) then
        (s.windows data.current_window).pointm.charpos
      else BUF_PT s nb

/-- Frame-specific part of `Fset_window_configuration`
(window.c:5916-6165), entered only for a live frame: temporarily set the
frame to the configuration's size, swap the current point out into the
selected window, mark the frame's windows deleted with their buffers
parked, run the slot loop, set the root window, force `old_point` into
the to-be-selected window when it shows the recorded buffer, select the
configuration's current window without point swapping, restore focus
redirection, resize the frame back, and re-select the recorded selected
frame if it is live. -/
def restoreTempResize (s : EState) (data : SaveWindowData) (f : Nat) :
    EState :=
  let s :=
    if ¬ (data.frame_lines = (s.frames f).lines) ∨
        ¬ (data.frame_cols = (s.frames f).cols) then
      change_frame_size s f data.frame_lines data.frame_cols
    else s
  let s :=
    if ¬ (data.frame_menu_bar_lines = (s.frames f).menu_bar_lines) then
      x_set_menu_bar_lines s f data.frame_menu_bar_lines
    else s
  if ¬ (data.frame_tool_bar_lines = (s.frames f).tool_bar_lines) then
    x_set_tool_bar_lines s f data.frame_tool_bar_lines
  else s

def restoreSwapOutPoint (s : EState) : Option EState :=
  match (s.windows s.selected_window).buffer with
  | .nil => some s
  | .buf wb =>
    some (updW s s.selected_window (fun r =>
      { r with pointm := markerAt wb (BUF_PT s wb) }))
  | _ => none

def restoreOldPointForce (s : EState) (data : SaveWindowData)
    (ncb : Option Nat) (old_point : Int) : Option EState :=
  if (s.windows data.current_window).buffer = ncbLV ncb then
    match (s.windows data.current_window).buffer.bufferp with
    | some wb =>
      some (updW s data.current_window (fun r =>
        { r with pointm := set_marker_restricted s old_point wb }))
    | none => none
  else some s

def restoreLastSelected (s : EState) : Option EState :=
  match (s.windows s.selected_window).buffer.bufferp with
  | none => none
  | some sb =>
    some (updB s sb (fun r =>
      { r with last_selected_window := some s.selected_window }))

def restoreFocus (s : EState) (data : SaveWindowData) (f : Nat) : EState :=
  if (data.focus_frame.nilp : Bool) then
    Fredirect_frame_focus s f data.focus_frame
  else
    match data.focus_frame with
    | .frm ff =>
      if (FRAME_LIVE_P s ff : Bool) then
        Fredirect_frame_focus s f data.focus_frame
      else s
    | _ => s

def restoreResizeBack (s : EState) (f : Nat)
    (previous_frame_lines previous_frame_cols previous_frame_menu_bar_lines
      previous_frame_tool_bar_lines : Int) : EState :=
  let s :=
    if ¬ (previous_frame_lines = (s.frames f).lines) ∨
        ¬ (previous_frame_cols = (s.frames f).cols) then
      change_frame_size s f previous_frame_lines previous_frame_cols
    else s
  let s :=
    if ¬ (previous_frame_menu_bar_lines = (s.frames f).menu_bar_lines) then
      x_set_menu_bar_lines s f previous_frame_menu_bar_lines
    else s
  if ¬ (previous_frame_tool_bar_lines = (s.frames f).tool_bar_lines) then
    x_set_tool_bar_lines s f previous_frame_tool_bar_lines
  else s

def restoreFrameTree (fuel : Nat) (s : EState) (data : SaveWindowData)
    (f : Nat) (ncb : Option Nat) (old_point : Int) : Option EState :=
  let previous_frame_lines := (s.frames f).lines
  let previous_frame_cols := (s.frames f).cols
  let previous_frame_menu_bar_lines := (s.frames f).menu_bar_lines
  let previous_frame_tool_bar_lines := (s.frames f).tool_bar_lines
  (restoreSwapOutPoint (restoreTempResize s data f)).bind fun s =>
  let s := updF s f (fun r => { r with window_sizes_changed := true })
  (delete_all_subwindows fuel s (s.frames f).root_window).bind fun s =>
  (restoreSlots s data.saved_windows ncb data.saved_windows).bind fun s =>
  let s := updF s f (fun r => { r with root_window := data.root_window })
  (restoreOldPointForce s data ncb old_point).bind fun s =>
  (select_window fuel s data.current_window false true).bind fun s =>
  (restoreLastSelected s).bind fun s =>
  let s := restoreResizeBack (restoreFocus s data f) f previous_frame_lines
    previous_frame_cols previous_frame_menu_bar_lines
    previous_frame_tool_bar_lines
  if (FRAME_LIVE_P s data.selected_frame : Bool) then
    do_switch_frame fuel s data.selected_frame false
  else some s

/-- `Fset_window_configuration` (window.c:5848-6174): compute the
surviving recorded buffer and `old_point`, rebuild the frame tree only
when the originating frame (read off the first slot's window) is live,
then unconditionally make the recorded buffer current when it survives
and restore the minibuffer bookkeeping; the second component of the
result is the return value, `t` exactly when the frame is live. -/
def Fset_window_configuration (fuel : Nat) (s : EState)
    (data : SaveWindowData) : Option (EState × Bool) :=
  let ncb : Option Nat :=
    if (s.buffers data.current_buffer).live then some data.current_buffer
    else none
  let old_point := restoreOldPoint s data ncb
  match data.saved_windows with
  | [] => none
  | p0 :: _ =>
    let f := (s.windows p0.window).frame
    (if (FRAME_LIVE_P s f : Bool) then
        restoreFrameTree fuel s data f ncb old_point
      else some s).bind fun s =>
    let s :=
      match ncb with
      | some nb => Fset_buffer s nb
      | none => s
    let s :=
      { s with minibuf_scroll_window := data.minibuf_scroll_window,
               minibuf_selected_window := data.minibuf_selected_window }
    some (s, FRAME_LIVE_P s f)

section Preservation

@[simp] theorem updW_frames (s : EState) (i : Nat) (f : Window → Window) :
    (updW s i f).frames = s.frames := rfl

@[simp] theorem updB_frames (s : EState) (i : Nat) (f : Buffer → Buffer) :
    (updB s i f).frames = s.frames := rfl

@[simp] theorem temp_set_point_frames (s : EState) (b : Nat) (p : Int) :
    (temp_set_point s b p).frames = s.frames := rfl

@[simp] theorem SET_PT_frames (s : EState) (p : Int) :
    (SET_PT s p).frames = s.frames := rfl

@[simp] theorem Fset_buffer_frames (s : EState) (b : Nat) :
    (Fset_buffer s b).frames = s.frames := rfl

@[simp] theorem record_buffer_frames (s : EState) (b : Nat) :
    (record_buffer s b).frames = s.frames := rfl

theorem unshow_buffer_run_frames (s : EState) (w b : Nat) :
    (unshow_buffer_run s w b).frames = s.frames := by
  simp only [unshow_buffer_run]
  split <;> split <;> simp

/-- `unshow_buffer` only touches buffers. -/
theorem unshow_buffer_frames {s s' : EState} {w : Nat}
    (h : unshow_buffer s w = some s') : s'.frames = s.frames := by
  unfold unshow_buffer at h
  split at h
  · exact absurd h (by simp)
  · rename_i b hb
    split at h
    · exact absurd h (by simp)
    · rcases hs : (s.windows w).start.buffer with _ | sb
      · rw [hs, if_pos rfl] at h
        exact absurd h (by simp)
      · rw [hs, if_neg (by simp)] at h
        cases h
        exact unshow_buffer_run_frames s w b

/-- `delete_all_subwindows` only touches windows and buffers. -/
theorem delete_all_subwindows_frames :
    ∀ (fuel : Nat) (s : EState) (w : Nat) (s' : EState),
      delete_all_subwindows fuel s w = some s' → s'.frames = s.frames := by
  intro fuel
  induction fuel with
  | zero => intro s w s' h; exact absurd h (by simp [delete_all_subwindows])
  | succ n ih =>
    intro s w s' h
    rw [delete_all_subwindows] at h
    rcases Option.bind_eq_some.mp h with ⟨s1, h1, h⟩
    rcases Option.bind_eq_some.mp h with ⟨s2, h2, h⟩
    rcases Option.bind_eq_some.mp h with ⟨s3, h3, h⟩
    rcases Option.bind_eq_some.mp h with ⟨s5, h5, h⟩
    simp only [Option.some.injEq] at h
    subst h
    have f1 : s1.frames = s.frames := by
      rcases hn : (s.windows w).next with _ | nxt <;> rw [hn] at h1
      · cases h1; rfl
      · exact ih s nxt s1 h1
    have f2 : s2.frames = s1.frames := by
      rcases hn : (s1.windows w).vchild with _ | v <;> rw [hn] at h2
      · cases h2; rfl
      · exact ih s1 v s2 h2
    have f3 : s3.frames = s2.frames := by
      rcases hn : (s2.windows w).hchild with _ | hc <;> rw [hn] at h3
      · cases h3; rfl
      · exact ih s2 hc s3 h3
    have f5 : s5.frames = s3.frames := by
      split at h5
      · cases h5; rfl
      · rw [unshow_buffer_frames h5]; rfl
    show (updW s5 w _).frames = s.frames
    rw [updW_frames, f5, f3, f2, f1]

/-- `restoreLinks` only touches windows. -/
theorem restoreLinks_frames {s s' : EState} {slots : List SavedWindow}
    {p : SavedWindow} (h : restoreLinks s slots p = some s') :
    s'.frames = s.frames := by
  unfold restoreLinks at h
  rcases Option.bind_eq_some.mp h with ⟨s1, h1, h⟩
  dsimp only at h
  have f1 : s1.frames = s.frames := by
    repeat' split at h1
    all_goals first
      | exact Option.noConfusion h1
      | (simp only [Option.some.injEq] at h1; subst h1; rfl)
  have f2 : s'.frames = s1.frames := by
    repeat' split at h
    all_goals first
      | exact Option.noConfusion h
      | (simp only [Option.some.injEq] at h; subst h; rfl)
  rw [f2, f1]

@[simp] theorem restoreFields_frames (s : EState) (p : SavedWindow) :
    (restoreFields s p).frames = s.frames := by
  simp only [restoreFields]
  split <;> simp

theorem substituteMRU_frames {s s' : EState} {wid : Nat}
    (h : substituteMRU s wid = some s') : s'.frames = s.frames := by
  unfold substituteMRU at h
  rcases hm : mruBuffer s with _ | mb <;> rw [hm] at h
  · exact absurd h (by simp)
  · cases h; rfl

/-- `reinstallBuffer` only touches windows and buffers. -/
theorem reinstallBuffer_frames {s s' : EState} {ncb : Option Nat}
    {p : SavedWindow} (h : reinstallBuffer s ncb p = some s') :
    s'.frames = s.frames := by
  unfold reinstallBuffer at h
  dsimp only at h
  repeat' split at h
  all_goals first
    | exact Option.noConfusion h
    | exact substituteMRU_frames h
    | (cases h; simp)

theorem restoreSlot1_frames {s s' : EState} {slots : List SavedWindow}
    {ncb : Option Nat} {p : SavedWindow}
    (h : restoreSlot1 s slots ncb p = some s') : s'.frames = s.frames := by
  unfold restoreSlot1 at h
  rcases Option.bind_eq_some.mp h with ⟨s1, h1, h⟩
  rw [reinstallBuffer_frames h, restoreFields_frames, restoreLinks_frames h1]

/-- The slot loop only touches windows and buffers. -/
theorem restoreSlots_frames {slots : List SavedWindow} {ncb : Option Nat} :
    ∀ {rest : List SavedWindow} {s s' : EState},
      restoreSlots s slots ncb rest = some s' → s'.frames = s.frames := by
  intro rest
  induction rest with
  | nil => intro s s' h; cases h; rfl
  | cons p ps ih =>
    intro s s' h
    rw [restoreSlots] at h
    rcases h1 : restoreSlot1 s slots ncb p with _ | s1
    · rw [h1] at h; exact absurd h (by simp)
    · rw [h1] at h
      rw [ih h, restoreSlot1_frames h1]

/-- Frame liveness across an `EState`, preserved by all the selection and
restore paths (they only move selected-window slots and geometry). -/
def framesLiveEq (s s' : EState) : Prop :=
  ∀ j, (s'.frames j).live = (s.frames j).live

theorem framesLiveEq_refl (s : EState) : framesLiveEq s s := fun _ => rfl

theorem framesLiveEq_trans {s1 s2 s3 : EState} (h1 : framesLiveEq s1 s2)
    (h2 : framesLiveEq s2 s3) : framesLiveEq s1 s3 :=
  fun j => (h2 j).trans (h1 j)

theorem framesLiveEq_of_frames_eq {s s' : EState} (h : s'.frames = s.frames) :
    framesLiveEq s s' := fun j => by rw [h]

theorem updF_frames_live (s : EState) (i : Nat) (g : Frame → Frame)
    (hg : ∀ r, (g r).live = r.live) : framesLiveEq s (updF s i g) := by
  intro j
  show (if j = i then g (s.frames j) else s.frames j).live = (s.frames j).live
  split
  · exact hg _
  · rfl

theorem change_frame_size_frames_live (s : EState) (f : Nat) (a b : Int) :
    framesLiveEq s (change_frame_size s f a b) :=
  updF_frames_live s f _ (fun _ => rfl)

theorem x_set_menu_bar_lines_frames_live (s : EState) (f : Nat) (a : Int) :
    framesLiveEq s (x_set_menu_bar_lines s f a) :=
  updF_frames_live s f _ (fun _ => rfl)

theorem x_set_tool_bar_lines_frames_live (s : EState) (f : Nat) (a : Int) :
    framesLiveEq s (x_set_tool_bar_lines s f a) :=
  updF_frames_live s f _ (fun _ => rfl)

theorem Fredirect_frame_focus_frames_live (s : EState) (f : Nat) (v : LV) :
    framesLiveEq s (Fredirect_frame_focus s f v) :=
  updF_frames_live s f _ (fun _ => rfl)

theorem select_window_pre_frames {s s1 : EState} {w : Nat} {nr : Bool}
    {b : Nat} (h : select_window_pre s w nr = some (s1, b)) :
    s1.frames = s.frames := by
  unfold select_window_pre at h
  split at h
  · exact absurd h (by simp)
  · simp only [Option.some.injEq, Prod.mk.injEq] at h
    rw [← h.1]
    split <;> simp

theorem select_window_tail_frames_live {s s' : EState} {w b : Nat}
    {ip : Bool} (h : select_window_tail s w b ip = some s') :
    framesLiveEq s s' := by
  unfold select_window_tail at h
  rcases Option.bind_eq_some.mp h with ⟨s2, hsw, h⟩
  try dsimp only at h
  have hf2 : framesLiveEq s s2 := by
    try dsimp only at hsw
    repeat' split at hsw
    all_goals first
      | exact Option.noConfusion hsw
      | (cases hsw
         exact updF_frames_live s _ _ (fun _ => rfl))
      | (cases hsw
         intro j
         simp only [updW_frames, updF]
         split <;> rfl)
  split at h
  · exact absurd h (by simp)
  · cases h
    exact framesLiveEq_trans hf2 (framesLiveEq_of_frames_eq (by simp))

theorem select_do_switch_frames_live :
    ∀ fuel : Nat,
      (∀ (s : EState) (w : Nat) (nr ip : Bool) (s' : EState),
        select_window fuel s w nr ip = some s' → framesLiveEq s s') ∧
      (∀ (s : EState) (fr : Nat) (nr : Bool) (s' : EState),
        do_switch_frame fuel s fr nr = some s' → framesLiveEq s s') := by
  intro fuel
  induction fuel with
  | zero =>
    constructor
    · intro s w nr ip s' h; exact absurd h (by simp [select_window])
    · intro s fr nr s' h; exact absurd h (by simp [do_switch_frame])
  | succ n ih =>
    constructor
    · intro s w nr ip s' h
      rw [select_window] at h
      rcases Option.bind_eq_some.mp h with ⟨sb, hpre, h⟩
      obtain ⟨s1, b⟩ := sb
      have hf1 : framesLiveEq s s1 :=
        framesLiveEq_of_frames_eq (select_window_pre_frames hpre)
      dsimp only at h
      split at h
      · cases h; exact hf1
      · split at h
        · have hd := ih.2 _ _ _ _ h
          refine framesLiveEq_trans hf1
            (framesLiveEq_trans (updF_frames_live s1 _ _ ?_) hd)
          intro r; rfl
        · exact framesLiveEq_trans hf1 (select_window_tail_frames_live h)
    · intro s fr nr s' h
      rw [do_switch_frame] at h
      split at h
      · cases h; exact framesLiveEq_refl s
      · try dsimp only at h
        have hd := ih.1 _ _ _ _ _ h
        exact framesLiveEq_trans (fun j => rfl) hd

theorem select_window_frames_live {fuel : Nat} {s s' : EState} {w : Nat}
    {nr ip : Bool} (h : select_window fuel s w nr ip = some s') :
    framesLiveEq s s' :=
  (select_do_switch_frames_live fuel).1 s w nr ip s' h

theorem do_switch_frame_frames_live {fuel : Nat} {s s' : EState} {fr : Nat}
    {nr : Bool} (h : do_switch_frame fuel s fr nr = some s') :
    framesLiveEq s s' :=
  (select_do_switch_frames_live fuel).2 s fr nr s' h

theorem restoreTempResize_frames_live (s : EState) (data : SaveWindowData)
    (f : Nat) : framesLiveEq s (restoreTempResize s data f) := by
  unfold restoreTempResize
  dsimp only
  repeat'
    first
      | exact framesLiveEq_refl _
      | exact change_frame_size_frames_live _ _ _ _
      | refine framesLiveEq_trans ?_ (x_set_tool_bar_lines_frames_live _ _ _)
      | refine framesLiveEq_trans ?_ (x_set_menu_bar_lines_frames_live _ _ _)
      | split

theorem restoreResizeBack_frames_live (s : EState) (f : Nat)
    (a b c d : Int) : framesLiveEq s (restoreResizeBack s f a b c d) := by
  unfold restoreResizeBack
  dsimp only
  repeat'
    first
      | exact framesLiveEq_refl _
      | exact change_frame_size_frames_live _ _ _ _
      | refine framesLiveEq_trans ?_ (x_set_tool_bar_lines_frames_live _ _ _)
      | refine framesLiveEq_trans ?_ (x_set_menu_bar_lines_frames_live _ _ _)
      | split

theorem restoreFocus_frames_live (s : EState) (data : SaveWindowData)
    (f : Nat) : framesLiveEq s (restoreFocus s data f) := by
  unfold restoreFocus
  repeat'
    first
      | exact framesLiveEq_refl _
      | exact Fredirect_frame_focus_frames_live _ _ _
      | split

theorem restoreSwapOutPoint_frames {s s' : EState}
    (h : restoreSwapOutPoint s = some s') : s'.frames = s.frames := by
  unfold restoreSwapOutPoint at h
  rcases hb : (s.windows s.selected_window).buffer with _ | _ | n | wi | bi | fi <;>
    rw [hb] at h
  all_goals first
    | (cases h; simp)
    | exact absurd h (by simp)

theorem restoreOldPointForce_frames {s s' : EState} {data : SaveWindowData}
    {ncb : Option Nat} {op : Int}
    (h : restoreOldPointForce s data ncb op = some s') :
    s'.frames = s.frames := by
  unfold restoreOldPointForce at h
  split at h
  · rcases hb : (s.windows data.current_window).buffer.bufferp with _ | wb <;>
      rw [hb] at h
    · exact absurd h (by simp)
    · cases h; simp
  · cases h; rfl

theorem restoreLastSelected_frames {s s' : EState}
    (h : restoreLastSelected s = some s') : s'.frames = s.frames := by
  unfold restoreLastSelected at h
  rcases hb : (s.windows s.selected_window).buffer.bufferp with _ | sb <;>
    rw [hb] at h
  · exact absurd h (by simp)
  · cases h; simp

/-- The whole frame-specific restore phase preserves frame liveness. -/
theorem restoreFrameTree_frames_live {fuel : Nat} {s s' : EState}
    {data : SaveWindowData} {f : Nat} {ncb : Option Nat} {op : Int}
    (h : restoreFrameTree fuel s data f ncb op = some s') :
    framesLiveEq s s' := by
  unfold restoreFrameTree at h
  rcases Option.bind_eq_some.mp h with ⟨s1, h1, h⟩
  rcases Option.bind_eq_some.mp h with ⟨s2, h2, h⟩
  rcases Option.bind_eq_some.mp h with ⟨s3, h3, h⟩
  rcases Option.bind_eq_some.mp h with ⟨s4, h4, h⟩
  rcases Option.bind_eq_some.mp h with ⟨s5, h5, h⟩
  rcases Option.bind_eq_some.mp h with ⟨s6, h6, h⟩
  have l1 : framesLiveEq s s1 :=
    framesLiveEq_trans (restoreTempResize_frames_live s data f)
      (framesLiveEq_of_frames_eq (restoreSwapOutPoint_frames h1))
  have l2 : framesLiveEq s1 s2 := by
    have hd := delete_all_subwindows_frames _ _ _ _ h2
    refine framesLiveEq_trans (updF_frames_live s1 f _ ?_)
      (framesLiveEq_of_frames_eq hd)
    intro r; rfl
  have l3 : framesLiveEq s2 s3 :=
    framesLiveEq_of_frames_eq (restoreSlots_frames h3)
  have l4 : framesLiveEq s3 s4 := by
    have hd := restoreOldPointForce_frames h4
    refine framesLiveEq_trans (updF_frames_live s3 f _ ?_)
      (framesLiveEq_of_frames_eq hd)
    intro r; rfl
  have l5 : framesLiveEq s4 s5 := select_window_frames_live h5
  have l6 : framesLiveEq s5 s6 :=
    framesLiveEq_of_frames_eq (restoreLastSelected_frames h6)
  have l7 : framesLiveEq s6
      (restoreResizeBack (restoreFocus s6 data f) f (s.frames f).lines
        (s.frames f).cols (s.frames f).menu_bar_lines
        (s.frames f).tool_bar_lines) :=
    framesLiveEq_trans (restoreFocus_frames_live s6 data f)
      (restoreResizeBack_frames_live _ _ _ _ _ _)
  have l8 : framesLiveEq
      (restoreResizeBack (restoreFocus s6 data f) f (s.frames f).lines
        (s.frames f).cols (s.frames f).menu_bar_lines
        (s.frames f).tool_bar_lines) s' := by
    try dsimp only at h
    split at h
    · exact do_switch_frame_frames_live h
    · cases h; exact framesLiveEq_refl _
  exact framesLiveEq_trans l1 (framesLiveEq_trans l2 (framesLiveEq_trans l3
    (framesLiveEq_trans l4 (framesLiveEq_trans l5 (framesLiveEq_trans l6
      (framesLiveEq_trans l7 l8))))))

end Preservation

/-- Shared characterization of `Fset_window_configuration`'s result: the
returned flag equals the liveness of the first slot's window's frame at
call time, and for a dead frame the state is changed only by the
frame-independent tail (window.c:6167-6173). -/
theorem Fset_window_configuration_result
    (fuel : Nat) (s : EState) (data : SaveWindowData)
    (p0 : SavedWindow) (rest : List SavedWindow)
    (hslots : data.saved_windows = p0 :: rest)
    (s' : EState) (b : Bool)
    (hrun : Fset_window_configuration fuel s data = some (s', b)) :
    b = FRAME_LIVE_P s ((s.windows p0.window).frame) ∧
    (FRAME_LIVE_P s ((s.windows p0.window).frame) = false →
      s' = { (if (s.buffers data.current_buffer).live then
                Fset_buffer s data.current_buffer
              else s) with
             minibuf_scroll_window := data.minibuf_scroll_window,
             minibuf_selected_window := data.minibuf_selected_window }) := by
  unfold Fset_window_configuration at hrun
  simp only [hslots] at hrun
  rcases Option.bind_eq_some.mp hrun with ⟨sm, hm, hrun⟩
  try dsimp only at hrun
  simp only [Option.some.injEq, Prod.mk.injEq] at hrun
  obtain ⟨hs', hb⟩ := hrun
  have hfle : framesLiveEq s sm := by
    split at hm
    · exact restoreFrameTree_frames_live hm
    · cases hm; exact framesLiveEq_refl s
  have hb2 : b = FRAME_LIVE_P s ((s.windows p0.window).frame) := by
    rw [← hb]
    show FRAME_LIVE_P _ _ = _
    unfold FRAME_LIVE_P
    have hfr :
        ({ (match (if (s.buffers data.current_buffer).live then
              some data.current_buffer else none) with
            | some nb => Fset_buffer sm nb
            | none => sm) with
           minibuf_scroll_window := data.minibuf_scroll_window,
           minibuf_selected_window := data.minibuf_selected_window } :
          EState).frames = sm.frames := by
      split <;> rfl
    rw [hfr]
    exact hfle _
  refine ⟨hb2, ?_⟩
  intro hdead
  have hsm : sm = s := by
    rw [if_neg (by simp [hdead])] at hm
    cases hm
    rfl
  rw [← hs', hsm]
  by_cases hl : (s.buffers data.current_buffer).live <;> simp [hl]

/-- Claim C9: `Fset_window_configuration` returns `t` if and only if the
configuration's originating frame (the frame of the first slot's window,
window.c:5910-5911) is still live; a dead frame is not an error: the
whole frame-specific rebuild (window.c:5916-6165) is skipped and the
resulting state differs from the input state only by the
frame-independent bookkeeping of window.c:6167-6171 — the recorded
current buffer is made current when it is still live, and the
minibuffer-scroll-window and minibuffer-selected-window are restored —
while `nil` (`false`) is returned. -/
theorem Fset_window_configuration_live_iff
    (fuel : Nat) (s : EState) (data : SaveWindowData)
    (p0 : SavedWindow) (rest : List SavedWindow)
    (hslots : data.saved_windows = p0 :: rest)
    (s' : EState) (b : Bool)
    (hrun : Fset_window_configuration fuel s data = some (s', b)) :
    (b = true ↔ FRAME_LIVE_P s ((s.windows p0.window).frame) = true) ∧
    (FRAME_LIVE_P s ((s.windows p0.window).frame) = false →
      b = false ∧
      s' = { (if (s.buffers data.current_buffer).live then
                Fset_buffer s data.current_buffer
              else s) with
             minibuf_scroll_window := data.minibuf_scroll_window,
             minibuf_selected_window := data.minibuf_selected_window }) := by
  obtain ⟨hb, hdead⟩ :=
    Fset_window_configuration_result fuel s data p0 rest hslots s' b hrun
  constructor
  · rw [hb]
  · intro hd
    exact ⟨by rw [hb, hd], hdead hd⟩

/-- Concrete dead-frame scenario for the witness: every frame dead. -/
def c9State : EState :=
  { windows := fun _ => {}, buffers := fun _ => {},
    frames := fun _ => { live := false } }

def c9Slot : SavedWindow := { window := 5 }

def c9Data : SaveWindowData :=
  { current_buffer := 3, saved_windows := [c9Slot] }

def c9Result : EState :=
  { Fset_buffer c9State 3 with
    minibuf_scroll_window := LV.nil, minibuf_selected_window := LV.nil }

/-- Concrete capture-kill-restore scenario for claim C8: a single-window
frame whose window shows buffer 12; the configuration stored buffer 12,
and buffer 12 has since been killed; buffer 10 is the most recently used
live buffer. -/
def c8State : EState :=
  { windows := fun i =>
      if i = 1 then
        { frame := 0, buffer := .buf 12, total_cols := 80,
          total_lines := .num 25,
          pointm := { buffer := some 12, charpos := 1 },
          start := { buffer := some 12, charpos := 1 },
          start_at_line_beg := .t }
      else {},
    buffers := fun i =>
      if i = 10 then { pt := 1, begv := 1, zv := 5, z := 5 }
      else if i = 12 then { live := false }
      else { live := false },
    frames := fun i =>
      if i = 0 then
        { root_window := 1, selected_window := 1, cols := 80, lines := 25 }
      else { live := false },
    frame_list := [0], selected_frame := 0, selected_window := 1,
    current_buffer := 10, buffer_alist := [10], next_window_id := 2 }

def c8Slot : SavedWindow :=
  { window := 1, buffer := .buf 12, total_cols := 80,
    total_lines := .num 25,
    pointm := some { buffer := some 12, charpos := 1 },
    start := some { buffer := some 12, charpos := 1 },
    mark := some { buffer := none, charpos := 0 },
    start_at_line_beg := .t }

/-- Claim C8: when a restore meets a slot whose stored buffer has been
killed (window.c:6052-6097), it does not fail: the reinstall step
replaces the window's (equally dead, parked-and-recovered) buffer by the
most recently used live buffer and puts the window's start and point
markers at the very beginning of that buffer's accessible range with
`start_at_line_beg = t`; and independently of any dead buffers among the
slots, a restore that completes still returns `t` whenever the
originating frame is live. -/
theorem restore_dead_buffer_substitutes_mru :
    (∀ (s : EState) (ncb : Option Nat) (p : SavedWindow) (pb mb : Nat),
      p.buffer = .buf pb →
      (s.buffers pb).live = false →
      (s.windows p.window).buffer = .buf pb →
      mruBuffer s = some mb →
      0 ≤ (s.buffers mb).begv → 0 ≤ (s.buffers mb).zv →
      reinstallBuffer s ncb p =
        some (updW s p.window (fun r =>
          { r with
            buffer := .buf mb,
            start := markerAt mb (s.buffers mb).begv,
            pointm := markerAt mb (s.buffers mb).begv,
            start_at_line_beg := .t }))) ∧
    (∀ (fuel : Nat) (s : EState) (data : SaveWindowData) (p0 : SavedWindow)
      (rest : List SavedWindow) (s' : EState) (b : Bool),
      data.saved_windows = p0 :: rest →
      Fset_window_configuration fuel s data = some (s', b) →
      FRAME_LIVE_P s ((s.windows p0.window).frame) = true →
      b = true) := by
  constructor
  · intro s ncb p pb mb hpb hdead hown hmru hbegv hzv
    have hm : set_marker_restricted s 0 mb = markerAt mb (s.buffers mb).begv := by
      unfold set_marker_restricted clip_to_bounds
      have hmax : max (s.buffers mb).begv (min 0 (s.buffers mb).zv) =
          (s.buffers mb).begv := by omega
      rw [hmax]
    simp [reinstallBuffer, hpb, hdead, hown, substituteMRU, hmru, hm]
  · intro fuel s data p0 rest s' b hslots hrun hlive
    have hb :=
      (Fset_window_configuration_result fuel s data p0 rest hslots s' b hrun).1
    rw [hb, hlive]

/-- Closed witness for `restore_dead_buffer_substitutes_mru`: the general
part applied at the concrete scenario's slot step. -/
theorem restore_dead_buffer_substitutes_mru_witness :
    reinstallBuffer c8State none c8Slot =
      some (updW c8State c8Slot.window (fun r =>
        { r with
          buffer := .buf 10,
          start := markerAt 10 (c8State.buffers 10).begv,
          pointm := markerAt 10 (c8State.buffers 10).begv,
          start_at_line_beg := .t })) :=
  restore_dead_buffer_substitutes_mru.1 c8State none c8Slot 12 10 rfl rfl
    rfl rfl (by decide) (by decide)

/-- Closed witness for `Fset_window_configuration_live_iff` at the
concrete dead-frame state. -/
theorem Fset_window_configuration_live_iff_witness :
    (false = true ↔
      FRAME_LIVE_P c9State ((c9State.windows c9Slot.window).frame) = true) ∧
    (FRAME_LIVE_P c9State ((c9State.windows c9Slot.window).frame) = false →
      false = false ∧
      c9Result = { (if (c9State.buffers c9Data.current_buffer).live then
                      Fset_buffer c9State c9Data.current_buffer
                    else c9State) with
                   minibuf_scroll_window := c9Data.minibuf_scroll_window,
                   minibuf_selected_window := c9Data.minibuf_selected_window }) :=
  Fset_window_configuration_live_iff 5 c9State c9Data c9Slot [] rfl
    c9Result false (by rfl)

/-!
### Part 5: splitting a window

`Fsplit_window` (window.c:3740-3880) with its helpers: the fresh-window
allocator `make_window` (window.c:166-217), the tree splicing
`replace_window` (window.c:1435-1483) and `make_dummy_parent`
(window.c:3710-3738), the leaf minimum `window_min_size_2`
(window.c:2710-2734), the window-tree `window_fixed_size_p`
(window.c:2609-2700), the margin refit `adjust_window_margins`
(window.c:2845-2873), and the keep-margins form of `set_window_buffer`
(window.c:3347-3441) that `Fsplit_window` requests.
-/

/-- `MIN_SAFE_WINDOW_WIDTH` (window.c:2571). -/
def MIN_SAFE_WINDOW_WIDTH : Int := 2

/-- `MIN_SAFE_WINDOW_HEIGHT` (window.c:2572). -/
def MIN_SAFE_WINDOW_HEIGHT : Int := 1

/-- Modelled from the spec: the window chrome of the character-cell
frames modelled here occupies no columns, so `WINDOW_FRINGE_COLS`
(window.h) is zero and the spec's safe width floor is the bare
`MIN_SAFE_WINDOW_WIDTH` columns. -/
def WINDOW_FRINGE_COLS (w : Window) : Int :=
  match w with | _ => 0

/-- Modelled from the spec: as `WINDOW_FRINGE_COLS`, the scroll bar of
the frames modelled here occupies no columns (`WINDOW_SCROLL_BAR_COLS`,
window.h). -/
def WINDOW_SCROLL_BAR_COLS (w : Window) : Int :=
  match w with | _ => 0

/-- Modelled from the spec: a window's left display-margin width in
columns, zero when unset (`WINDOW_LEFT_MARGIN_COLS`, window.h). -/
def WINDOW_LEFT_MARGIN_COLS (w : Window) : Int :=
  match w.left_margin_cols with
  | .num n => n
  | _ => 0

/-- Modelled from the spec: the right margin, as
`WINDOW_LEFT_MARGIN_COLS`. -/
def WINDOW_RIGHT_MARGIN_COLS (w : Window) : Int :=
  match w.right_margin_cols with
  | .num n => n
  | _ => 0

/-- `window_min_size_2` (window.c:2710-2734): the minimum size of a leaf
window.  For width the safe floor plus chrome; for height 1 when the
window is the minibuffer window and otherwise the safe floor plus one
line when the window's buffer wants a mode line; unless `safe_p`, the
user floors `window-min-width` / `window-min-height` (window.c:7081 and
7090 set the defaults 10 and 4) clamp the result from below. -/
def window_min_size_2 (s : EState) (w : Nat) (width_p safe_p : Bool) : Int :=
  if width_p then
    let safe_size := MIN_SAFE_WINDOW_WIDTH +
      WINDOW_FRINGE_COLS (s.windows w) + WINDOW_SCROLL_BAR_COLS (s.windows w)
    if safe_p then safe_size else max s.window_min_width safe_size
  else if MINI_WINDOW_P s w then 1
  else
    let safe_size := MIN_SAFE_WINDOW_HEIGHT +
      (match (s.windows w).buffer.bufferp with
       | some b => if (s.buffers b).mode_line_format.nilp then 0 else 1
       | none => 0)
    if safe_p then safe_size else max s.window_min_height safe_size

mutual

/-- `window_fixed_size_p` (window.c:2609-2700) on the arena: a
horizontal combination is fixed-width when all of its children are and
fixed-height when one of them is, a vertical combination symmetrically;
a leaf consults its buffer's `window-size-fixed` policy, and with
`check_siblings_p` a free leaf inside a combination still counts as
fixed when every one of its siblings is fixed. -/
def window_fixed_size_p (fuel : Nat) (s : EState) (w : Nat)
    (width_p check_siblings_p : Bool) : Option Bool :=
  match fuel with
  | 0 => none
  | fuel + 1 =>
    match (s.windows w).hchild with
    | some c =>
      if width_p then chainAllFixed fuel s Window.next (some c) width_p
      else
        (chainAllNotFixed fuel s (some c) width_p).bind fun r => some (!r)
    | none =>
      match (s.windows w).vchild with
      | some c =>
        if width_p then
          (chainAllNotFixed fuel s (some c) width_p).bind fun r => some (!r)
        else chainAllFixed fuel s Window.next (some c) width_p
      | none =>
        match (s.windows w).buffer.bufferp with
        | some b =>
          let fp := leafFixed (s.buffers b).window_size_fixed width_p
          if ¬ fp ∧ check_siblings_p ∧ (s.windows w).parent.isSome then
            (chainAllFixed fuel s Window.prev (s.windows w).prev
              width_p).bind fun rp =>
            if rp then
              chainAllFixed fuel s Window.next (s.windows w).next width_p
            else some false
          else some fp
        | none => some true

/-- The `while (c && window_fixed_size_p (c, width_p, 0))` loops of
`window_fixed_size_p`: whether every window along the chain drawn by
`step` is fixed. -/
def chainAllFixed (fuel : Nat) (s : EState) (step : Window → Option Nat)
    (c : Option Nat) (width_p : Bool) : Option Bool :=
  match fuel with
  | 0 => none
  | fuel + 1 =>
    match c with
    | none => some true
    | some cw =>
      (window_fixed_size_p fuel s cw width_p false).bind fun f =>
      if f then chainAllFixed fuel s step (step (s.windows cw)) width_p
      else some false

/-- The `while (c && !window_fixed_size_p (c, width_p, 0))` loops of
`window_fixed_size_p`: whether no window along the `next` chain is
fixed. -/
def chainAllNotFixed (fuel : Nat) (s : EState) (c : Option Nat)
    (width_p : Bool) : Option Bool :=
  match fuel with
  | 0 => none
  | fuel + 1 =>
    match c with
    | none => some true
    | some cw =>
      (window_fixed_size_p fuel s cw width_p false).bind fun f =>
      if f then some false
      else chainAllNotFixed fuel s (s.windows cw).next width_p

end

/-- `make_window` (window.c:166-217): take a fresh window id from the
allocator, bump the global `sequence_number` into the new window, and
initialize its fields; `allocate_window` zero-fills and the explicit
assignments then match the `Window` defaults (fresh detached markers
for `start` and `pointm`, `vertical_scroll_bar_type = Qt`; the C parks
`Qnil` in `frame` until the caller sets it, here the default id 0
stands until `Fsplit_window` overwrites it). -/
def make_window (s : EState) : EState × Nat :=
  let wid := s.next_window_id
  let sq := s.sequence_number + 1
  let s := { s with next_window_id := wid + 1, sequence_number := sq }
  (updW s wid (fun _ => { sequence_number := sq }), wid)

/-- `replace_window` (window.c:1435-1483): put `repl` into the tree in
place of `old`: take over a root-window role, copy the geometry, reset
the render bookkeeping, and splice into the `next`/`prev`/`parent`
links, fixing the parent's child pointer. -/
def replace_window (s : EState) (old repl : Nat) : EState :=
  let s :=
    if (s.frames (s.windows old).frame).root_window = old then
      updF s (s.windows old).frame (fun r => { r with root_window := repl })
    else s
  let o := s.windows old
  let s := updW s repl (fun r =>
    { r with
      left_col := o.left_col, top_line := o.top_line,
      total_cols := o.total_cols, total_lines := o.total_lines,
      vscroll := 0, window_end_valid := .nil,
      frozen_window_start_p := false,
      orig_top_line := .nil, orig_total_lines := .nil,
      next := o.next, prev := o.prev, parent := o.parent })
  let s :=
    match o.next with
    | some nxt => updW s nxt (fun r => { r with prev := some repl })
    | none => s
  let s :=
    match o.prev with
    | some pv => updW s pv (fun r => { r with next := some repl })
    | none => s
  match o.parent with
  | some par =>
    let s :=
      if (s.windows par).vchild = some old then
        updW s par (fun r => { r with vchild := some repl })
      else s
    if (s.windows par).hchild = some old then
      updW s par (fun r => { r with hchild := some repl })
    else s
  | none => s

/-- `make_dummy_parent` (window.c:3710-3738): allocate a window that is
a field-for-field copy of `window`, give it a fresh `sequence_number`,
put it in `window`'s place in the tree, cut `window` loose beneath it,
and clear the copy's markers and buffer (the C stores `Qnil` in the
marker fields of the combination window; a detached marker stands for
that here, and nothing reads the markers of a bufferless window).
Returns the new parent's id. -/
def make_dummy_parent (s : EState) (window : Nat) : EState × Nat :=
  let new := s.next_window_id
  let sq := s.sequence_number + 1
  let s := { s with next_window_id := new + 1, sequence_number := sq }
  let s := updW s new (fun _ => s.windows window)
  let s := updW s new (fun r => { r with sequence_number := sq })
  let s := replace_window s window new
  let s := updW s window (fun r =>
    { r with next := none, prev := none, vchild := none, hchild := none,
             parent := some new })
  let s := updW s new (fun r =>
    { r with start := {}, pointm := {}, buffer := .nil })
  (s, new)

/-- `adjust_window_margins` (window.c:2845-2873): when the window's text
area would fall below the safe width, shrink its display margins to
fit; the flag reports whether the margins now fit. -/
def adjust_window_margins (s : EState) (w : Nat) : EState × Bool :=
  let wr := s.windows w
  let box_cols :=
    wr.total_cols - WINDOW_FRINGE_COLS wr - WINDOW_SCROLL_BAR_COLS wr
  let margin_cols := WINDOW_LEFT_MARGIN_COLS wr + WINDOW_RIGHT_MARGIN_COLS wr
  if MIN_SAFE_WINDOW_WIDTH ≤ box_cols - margin_cols then (s, true)
  else if margin_cols < 0 ∨ box_cols < MIN_SAFE_WINDOW_WIDTH then (s, false)
  else
    let mc := box_cols - MIN_SAFE_WINDOW_WIDTH
    if 0 < WINDOW_RIGHT_MARGIN_COLS wr then
      if 0 < WINDOW_LEFT_MARGIN_COLS wr then
        (updW s w (fun r =>
          { r with left_margin_cols := .num (Int.tdiv mc 2),
                   right_margin_cols := .num (Int.tdiv mc 2) }), true)
      else
        (updW s w (fun r => { r with right_margin_cols := .num mc }), true)
    else
      (updW s w (fun r => { r with left_margin_cols := .num mc }), true)

/-- `set_window_buffer` (window.c:3347-3441) as called with
`keep_margins_p` set (`Fsplit_window` passes `Qt`): install the buffer,
record the window in the buffer's `last_selected_window` when the
window is selected, invalidate the window end, and, when the buffer
actually changes, reset the scroll state, plant the window's point at
the buffer's point and its start at the buffer's remembered window
start, and clear the start flags.  The non-keep-margins tail that
resets margins, fringes and scroll bars from buffer-locals is not taken
on this path, and the display time stamps and hook runs are
render-side. -/
def set_window_buffer_keep_margins (s : EState) (window b : Nat) : EState :=
  let samebuf := (s.windows window).buffer = LV.buf b
  let s := updW s window (fun r => { r with buffer := .buf b })
  let s :=
    if window = s.selected_window then
      updB s b (fun r => { r with last_selected_window := some window })
    else s
  let s := updW s window (fun r => { r with window_end_valid := .nil })
  if samebuf then s
  else
    updW s window (fun r =>
      { r with
        hscroll := 0, min_hscroll := 0, vscroll := 0,
        pointm := markerAt b (BUF_PT s b),
        start := set_marker_restricted s (s.buffers b).last_window_start b,
        start_at_line_beg := .nil, force_start := .nil,
        last_modified := 0, last_overlay_modified := 0 })

/-- The dummy-parent branch of `Fsplit_window` (window.c:3798-3822):
when the window's parent is missing or is not a combination in the
split direction, hang the window under a fresh dummy parent and make it
that parent's sole child in the split direction. -/
def splitEnsureCombination (s : EState) (window : Nat) (horizontal : Bool) :
    EState :=
  let needDummy :=
    match (s.windows window).parent with
    | none => true
    | some par =>
      if horizontal then (s.windows par).hchild.isNone
      else (s.windows par).vchild.isNone
  if needDummy then
    let r := make_dummy_parent s window
    if horizontal then
      updW r.1 r.2 (fun p => { p with hchild := some window })
    else
      updW r.1 r.2 (fun p => { p with vchild := some window })
  else s

/-- The allocate-and-splice step of `Fsplit_window` (window.c:3827-3852):
flag the frame's sizes changed, allocate the new window, copy the
linkage and the special geometry settings from the split window, and
splice the new window in as its next sibling.  Returns the new id. -/
def splitLinkNew (s : EState) (window : Nat) : EState × Nat :=
  let s := updF s (s.windows window).frame
    (fun r => { r with window_sizes_changed := true })
  let r := make_window s
  let s := r.1
  let new := r.2
  let s := updW s new (fun p =>
    { p with
      frame := (s.windows window).frame,
      next := (s.windows window).next,
      prev := some window,
      parent := (s.windows window).parent,
      buffer := .t,
      window_end_valid := .nil,
      left_margin_cols := (s.windows window).left_margin_cols,
      right_margin_cols := (s.windows window).right_margin_cols,
      left_fringe_width := (s.windows window).left_fringe_width,
      right_fringe_width := (s.windows window).right_fringe_width,
      fringes_outside_margins := (s.windows window).fringes_outside_margins,
      scroll_bar_width := (s.windows window).scroll_bar_width,
      vertical_scroll_bar_type := (s.windows window).vertical_scroll_bar_type })
  let s :=
    match (s.windows new).next with
    | some nxt => updW s nxt (fun r => { r with prev := some new })
    | none => s
  let s := updW s window (fun r => { r with next := some new })
  (s, new)

/-- The apportioning step of `Fsplit_window` (window.c:3854-3871): give
the new window the split window's extent on the other axis, the
remainder beyond `size_int` on the split axis, and the abutting
position; a horizontal split refits both windows' margins. -/
def splitApportion (s : EState) (window new : Nat) (size_int : Int)
    (horizontal : Bool) : Option EState :=
  if horizontal then
    let s := updW s new (fun p =>
      { p with
        total_lines := (s.windows window).total_lines,
        top_line := (s.windows window).top_line,
        total_cols := (s.windows window).total_cols - size_int,
        left_col := (s.windows window).left_col + size_int })
    let s := updW s window (fun r => { r with total_cols := size_int })
    let s := (adjust_window_margins s new).1
    some (adjust_window_margins s window).1
  else
    match (s.windows window).total_lines with
    | .num lines =>
      let s := updW s new (fun p =>
        { p with
          left_col := (s.windows window).left_col,
          total_cols := (s.windows window).total_cols,
          total_lines := .num (lines - size_int),
          top_line := (s.windows window).top_line + size_int })
      some (updW s window (fun r => { r with total_lines := .num size_int }))
    | _ => none

/-- `Fsplit_window` (window.c:3740-3880): split `window` (default the
selected window) into itself and a new sibling along the chosen axis.
Compute the requested first-half size (halving the window, rounded up
for a horizontal split, when no size is given), refuse splitting the
minibuffer, a window fixed on the split axis, or with a size leaving
either half below the minimum, hang the window under a fresh dummy
parent when it is not already inside a combination of the split
direction, allocate and splice in the sibling, apportion the extent,
and install the window's buffer in the sibling (which must still be
live).  Returns the new window's id with the state; `adjust_glyphs` is
render-side. -/
def Fsplit_window (fuel : Nat) (s : EState) (window0 : Option Nat)
    (size : Option Int) (horizontal : Bool) : Option (EState × Nat) :=
  (match window0 with
   | none => some s.selected_window
   | some w =>
     if (s.windows w).buffer.nilp then none else some w).bind fun window =>
  (match size with
   | none =>
     if horizontal then
       some (Int.ediv ((s.windows window).total_cols + 1) 2)
     else
       match (s.windows window).total_lines with
       | .num n => some (Int.ediv n 2)
       | _ => none
   | some n => some n).bind fun size_int =>
  if MINI_WINDOW_P s window then none
  else
    (window_fixed_size_p fuel s window horizontal false).bind fun fixed =>
    if fixed then none
    else
      (if horizontal then
        let wmin := window_min_size_2 s window true false
        if size_int < wmin then none
        else if (s.windows window).total_cols < size_int + wmin then none
        else some (splitEnsureCombination s window true)
      else
        let wmin := window_min_size_2 s window false false
        match (s.windows window).total_lines with
        | .num lines =>
          if size_int < wmin then none
          else if lines < size_int + wmin then none
          else some (splitEnsureCombination s window false)
        | _ => none).bind fun s1 =>
      let r := splitLinkNew s1 window
      (splitApportion r.1 window r.2 size_int horizontal).bind fun s2 =>
      match (s2.windows window).buffer with
      | .buf b =>
        if (s2.buffers b).live then
          some (set_window_buffer_keep_margins s2 r.2 b, r.2)
        else none
      | _ => none

/-!
#### Effects of a split

The split pipeline is characterized stage by stage: three small views of
the state (`payload`, `skel`, `gview`) are shown invariant under the
stages that do not touch them, the apportioning and linkage stages are
computed, and the stages compose into the effects `Fsplit_window`'s
callers rely on.
-/


/-- The fields of a window that the split effects track. -/
def payload (w : Window) : LV × Int × LV × Int × Int × Nat :=
  (w.buffer, w.total_cols, w.total_lines, w.left_col, w.top_line, w.frame)

/-- The link / geometry skeleton untouched by buffer installation. -/
def skel (w : Window) : Option Nat × Option Nat × Int × LV × Int × Int :=
  (w.next, w.prev, w.total_cols, w.total_lines, w.left_col, w.top_line)

/-- The globals the split leaves alone. -/
def gview (s : EState) : (Nat → Buffer) × Nat × (Nat → Nat) :=
  (s.buffers, s.selected_window, fun f => (s.frames f).selected_window)

theorem payload_updW_other (s : EState) (i j : Nat) (f : Window → Window)
    (hj : j ≠ i) : payload ((updW s i f).windows j) = payload (s.windows j) := by
  simp [updW, hj]

theorem payload_updW_pres (s : EState) (i j : Nat) (f : Window → Window)
    (hf : ∀ r, payload (f r) = payload r) :
    payload ((updW s i f).windows j) = payload (s.windows j) := by
  simp only [updW]
  split
  · exact hf _
  · rfl

theorem updF_windows (s : EState) (i : Nat) (f : Frame → Frame) :
    (updF s i f).windows = s.windows := rfl

set_option maxHeartbeats 1000000 in
theorem payload_replace (s : EState) (old repl j : Nat) (hj : j ≠ repl) :
    payload ((replace_window s old repl).windows j) = payload (s.windows j) := by
  unfold replace_window
  dsimp only
  repeat' split
  all_goals
    repeat'
      first
      | rfl
      | rw [payload_updW_other _ _ _ _ hj]
      | rw [payload_updW_pres] <;> try (intro r; rfl)

theorem replace_window_nwid (s : EState) (old repl : Nat) :
    (replace_window s old repl).next_window_id = s.next_window_id := by
  unfold replace_window
  dsimp only
  repeat' split
  all_goals rfl

theorem gview_replace (s : EState) (old repl : Nat) :
    gview (replace_window s old repl) = gview s := by
  unfold replace_window
  dsimp only
  repeat' split
  all_goals
    simp only [gview, Prod.mk.injEq]
    refine ⟨rfl, rfl, funext fun f => ?_⟩
    first
    | rfl
    | (simp only [updW, updF]; split <;> rfl)

theorem make_dummy_parent_snd (s : EState) (w : Nat) :
    (make_dummy_parent s w).2 = s.next_window_id := rfl

theorem updW_nwid (s : EState) (i : Nat) (f : Window → Window) :
    (updW s i f).next_window_id = s.next_window_id := rfl

theorem gview_updW (s : EState) (i : Nat) (f : Window → Window) :
    gview (updW s i f) = gview s := rfl

theorem make_dummy_parent_nwid (s : EState) (w : Nat) :
    (make_dummy_parent s w).1.next_window_id = s.next_window_id + 1 := by
  unfold make_dummy_parent
  dsimp only
  rw [updW_nwid, updW_nwid, replace_window_nwid, updW_nwid, updW_nwid]

theorem gview_dummy (s : EState) (w : Nat) :
    gview (make_dummy_parent s w).1 = gview s := by
  unfold make_dummy_parent
  dsimp only
  rw [gview_updW, gview_updW, gview_replace, gview_updW, gview_updW]
  rfl

theorem payload_dummy (s : EState) (w j : Nat) (hj : j ≠ s.next_window_id) :
    payload ((make_dummy_parent s w).1.windows j) = payload (s.windows j) := by
  unfold make_dummy_parent
  dsimp only
  rw [payload_updW_other _ _ _ _ hj]
  rw [payload_updW_pres] <;> try (intro r; rfl)
  rw [payload_replace _ _ _ _ hj]
  rw [payload_updW_other _ _ _ _ hj, payload_updW_other _ _ _ _ hj]


theorem skel_updW_pres (s : EState) (i j : Nat) (f : Window → Window)
    (hf : ∀ r, skel (f r) = skel r) :
    skel ((updW s i f).windows j) = skel (s.windows j) := by
  simp only [updW]
  split
  · exact hf _
  · rfl

theorem payload_ensure (s : EState) (w j : Nat) (h : Bool)
    (hj : j ≠ s.next_window_id) :
    payload ((splitEnsureCombination s w h).windows j) = payload (s.windows j) := by
  unfold splitEnsureCombination
  dsimp only
  repeat' split
  all_goals
    first
    | rfl
    | (rw [payload_updW_pres] <;> try (intro r; rfl)
       rw [payload_dummy _ _ _ hj])

theorem gview_ensure (s : EState) (w : Nat) (h : Bool) :
    gview (splitEnsureCombination s w h) = gview s := by
  unfold splitEnsureCombination
  dsimp only
  repeat' split
  all_goals
    first
    | rfl
    | rw [gview_updW, gview_dummy]

theorem nwid_ensure (s : EState) (w : Nat) (h : Bool) :
    (splitEnsureCombination s w h).next_window_id = s.next_window_id ∨
      (splitEnsureCombination s w h).next_window_id = s.next_window_id + 1 := by
  unfold splitEnsureCombination
  dsimp only
  repeat' split
  all_goals
    first
    | exact Or.inl rfl
    | (right; rw [updW_nwid, make_dummy_parent_nwid])

theorem dummy_w_next (s : EState) (w : Nat) :
    ((make_dummy_parent s w).1.windows w).next = none := by
  unfold make_dummy_parent
  dsimp only
  simp only [updW]
  split <;> simp

theorem ensure_w_next (s : EState) (w : Nat) (h : Bool) :
    ((splitEnsureCombination s w h).windows w).next = (s.windows w).next ∨
      ((splitEnsureCombination s w h).windows w).next = none := by
  unfold splitEnsureCombination
  dsimp only
  repeat' split
  all_goals
    first
    | exact Or.inl rfl
    | (right
       simp only [updW]
       split <;> exact dummy_w_next s w)

theorem splitLinkNew_snd (s : EState) (w : Nat) :
    (splitLinkNew s w).2 = s.next_window_id := rfl

theorem updF_nwid (s : EState) (i : Nat) (f : Frame → Frame) :
    (updF s i f).next_window_id = s.next_window_id := rfl

theorem splitLinkNew_w_next (s : EState) (w : Nat) :
    (((splitLinkNew s w).1).windows w).next = some s.next_window_id := by
  unfold splitLinkNew make_window
  dsimp only
  simp only [updF_nwid, updW]
  simp

theorem splitLinkNew_w_payload (s : EState) (w : Nat)
    (hwne : w ≠ s.next_window_id) :
    payload (((splitLinkNew s w).1).windows w) = payload (s.windows w) := by
  unfold splitLinkNew make_window
  dsimp only
  simp only [updF_nwid]
  repeat' split
  all_goals
    repeat'
      first
      | rfl
      | rw [payload_updW_other _ _ _ _ hwne]
      | (rw [payload_updW_pres] <;> try (intro r; rfl))

theorem fld_updW_other {α : Type} (g : Window → α) (s : EState) (i j : Nat)
    (f : Window → Window) (hj : j ≠ i) :
    g ((updW s i f).windows j) = g (s.windows j) := by
  simp [updW, hj]

theorem fld_updW_pres {α : Type} (g : Window → α) (s : EState) (i j : Nat)
    (f : Window → Window) (hf : ∀ r, g (f r) = g r) :
    g ((updW s i f).windows j) = g (s.windows j) := by
  simp only [updW]
  split
  · exact hf _
  · rfl

theorem splitLinkNew_new_buffer (s : EState) (w : Nat)
    (hwne : w ≠ s.next_window_id) :
    (((splitLinkNew s w).1).windows s.next_window_id).buffer = .t := by
  have h2 : s.next_window_id ≠ w := hwne.symm
  unfold splitLinkNew make_window
  dsimp only
  simp only [updF_nwid]
  rw [fld_updW_other Window.buffer _ _ _ _ h2]
  split
  · rw [fld_updW_pres Window.buffer] <;> try (intro r; rfl)
    rw [updW_windows_same]
  · rw [updW_windows_same]

theorem splitLinkNew_new_prev (s : EState) (w : Nat)
    (hwne : w ≠ s.next_window_id)
    (hn : ∀ x, (s.windows w).next = some x → x < s.next_window_id) :
    (((splitLinkNew s w).1).windows s.next_window_id).prev = some w := by
  have h2 : s.next_window_id ≠ w := hwne.symm
  unfold splitLinkNew make_window
  dsimp only
  simp only [updF_nwid]
  rw [fld_updW_other Window.prev _ _ _ _ h2]
  split
  · rename_i nxt heq
    rw [updW_windows_same] at heq
    simp only [updW, hwne, if_false] at heq
    have hne2 : s.next_window_id ≠ nxt := (hn nxt heq).ne'
    rw [fld_updW_other Window.prev _ _ _ _ hne2]
    rw [updW_windows_same]
  · rw [updW_windows_same]

theorem gview_linkNew (s : EState) (w : Nat) :
    gview ((splitLinkNew s w).1) = gview s := by
  unfold splitLinkNew make_window
  dsimp only
  repeat' split
  all_goals
    simp only [gview, Prod.mk.injEq, updW, updF]
    refine ⟨by trivial, by trivial, funext fun f => ?_⟩
    first
    | rfl
    | (split <;> rfl)

theorem swb_other (s : EState) (window b j : Nat) (hj : j ≠ window) :
    (set_window_buffer_keep_margins s window b).windows j = s.windows j := by
  unfold set_window_buffer_keep_margins
  dsimp only
  repeat' split
  all_goals simp [updW, updB, hj]

theorem swb_buffer (s : EState) (window b : Nat) :
    ((set_window_buffer_keep_margins s window b).windows window).buffer =
      .buf b := by
  unfold set_window_buffer_keep_margins
  dsimp only
  repeat' split
  all_goals simp [updW, updB]

theorem updB_windows (s : EState) (i : Nat) (f : Buffer → Buffer) :
    (updB s i f).windows = s.windows := rfl

theorem swb_skel (s : EState) (window b j : Nat) :
    skel ((set_window_buffer_keep_margins s window b).windows j) =
      skel (s.windows j) := by
  unfold set_window_buffer_keep_margins
  dsimp only
  repeat' split
  all_goals
    repeat'
      first
      | rfl
      | rw [updB_windows]
      | (rw [skel_updW_pres] <;> try (intro r; rfl))

theorem swb_globals (s : EState) (window b : Nat) :
    (set_window_buffer_keep_margins s window b).frames = s.frames ∧
    (set_window_buffer_keep_margins s window b).selected_window =
      s.selected_window := by
  unfold set_window_buffer_keep_margins
  dsimp only
  repeat' split
  all_goals exact ⟨rfl, rfl⟩

theorem amarg_payload (s : EState) (w j : Nat) :
    payload (((adjust_window_margins s w).1).windows j) = payload (s.windows j) := by
  unfold adjust_window_margins
  dsimp only
  repeat' split
  all_goals
    repeat'
      first
      | rfl
      | (rw [payload_updW_pres]; try (intro r; rfl))

theorem amarg_skel (s : EState) (w j : Nat) :
    skel (((adjust_window_margins s w).1).windows j) = skel (s.windows j) := by
  unfold adjust_window_margins
  dsimp only
  repeat' split
  all_goals
    repeat'
      first
      | rfl
      | (rw [skel_updW_pres]; try (intro r; rfl))

theorem amarg_gview (s : EState) (w : Nat) :
    gview ((adjust_window_margins s w).1) = gview s := by
  unfold adjust_window_margins
  dsimp only
  repeat' split
  all_goals rfl

theorem pl_buffer {a b : Window} (h : payload a = payload b) :
    a.buffer = b.buffer := congrArg (fun p => p.1) h

theorem pl_cols {a b : Window} (h : payload a = payload b) :
    a.total_cols = b.total_cols := congrArg (fun p => p.2.1) h

theorem pl_lines {a b : Window} (h : payload a = payload b) :
    a.total_lines = b.total_lines := congrArg (fun p => p.2.2.1) h

theorem pl_left {a b : Window} (h : payload a = payload b) :
    a.left_col = b.left_col := congrArg (fun p => p.2.2.2.1) h

theorem pl_top {a b : Window} (h : payload a = payload b) :
    a.top_line = b.top_line := congrArg (fun p => p.2.2.2.2.1) h

theorem sk_next {a b : Window} (h : skel a = skel b) :
    a.next = b.next := congrArg (fun p => p.1) h

theorem sk_prev {a b : Window} (h : skel a = skel b) :
    a.prev = b.prev := congrArg (fun p => p.2.1) h

theorem sk_cols {a b : Window} (h : skel a = skel b) :
    a.total_cols = b.total_cols := congrArg (fun p => p.2.2.1) h

theorem sk_lines {a b : Window} (h : skel a = skel b) :
    a.total_lines = b.total_lines := congrArg (fun p => p.2.2.2.1) h

theorem sk_left {a b : Window} (h : skel a = skel b) :
    a.left_col = b.left_col := congrArg (fun p => p.2.2.2.2.1) h

theorem sk_top {a b : Window} (h : skel a = skel b) :
    a.top_line = b.top_line := congrArg (fun p => p.2.2.2.2.2) h

theorem gv_buffers {a b : EState} (h : gview a = gview b) :
    a.buffers = b.buffers := congrArg (fun p => p.1) h

theorem gv_sel {a b : EState} (h : gview a = gview b) :
    a.selected_window = b.selected_window := congrArg (fun p => p.2.1) h

theorem gv_fsel {a b : EState} (h : gview a = gview b) (f : Nat) :
    (a.frames f).selected_window = (b.frames f).selected_window :=
  congrFun (congrArg (fun p => p.2.2) h) f

theorem splitApportion_spec (s : EState) (w new : Nat) (n L : Int)
    (horizontal : Bool) (hwnew : w ≠ new)
    (hL : (s.windows w).total_lines = .num L) :
    ∃ s2, splitApportion s w new n horizontal = some s2 ∧
      gview s2 = gview s ∧
      (s2.windows w).buffer = (s.windows w).buffer ∧
      (s2.windows w).next = (s.windows w).next ∧
      (s2.windows new).prev = (s.windows new).prev ∧
      (s2.windows new).buffer = (s.windows new).buffer ∧
      (if horizontal then
        (s2.windows w).total_cols = n ∧
        (s2.windows w).total_lines = (s.windows w).total_lines ∧
        (s2.windows w).left_col = (s.windows w).left_col ∧
        (s2.windows w).top_line = (s.windows w).top_line ∧
        (s2.windows new).total_cols = (s.windows w).total_cols - n ∧
        (s2.windows new).left_col = (s.windows w).left_col + n ∧
        (s2.windows new).top_line = (s.windows w).top_line ∧
        (s2.windows new).total_lines = (s.windows w).total_lines
      else
        (s2.windows w).total_lines = .num n ∧
        (s2.windows w).total_cols = (s.windows w).total_cols ∧
        (s2.windows w).left_col = (s.windows w).left_col ∧
        (s2.windows w).top_line = (s.windows w).top_line ∧
        (s2.windows new).total_lines = .num (L - n) ∧
        (s2.windows new).top_line = (s.windows w).top_line + n ∧
        (s2.windows new).left_col = (s.windows w).left_col ∧
        (s2.windows new).total_cols = (s.windows w).total_cols) := by
  have hnw : new ≠ w := hwnew.symm
  cases horizontal with
  | false =>
    simp only [splitApportion, hL, Bool.false_eq_true, if_false]
    refine ⟨_, rfl, ?_⟩
    simp [updW, hwnew, hnw, gview]
  | true =>
    simp only [splitApportion, if_true]
    refine ⟨_, rfl, ?_⟩
    have hskel2 : ∀ j,
        skel ((((adjust_window_margins
            ((adjust_window_margins (updW (updW s new (fun p =>
              { p with
                total_lines := (s.windows w).total_lines,
                top_line := (s.windows w).top_line,
                total_cols := (s.windows w).total_cols - n,
                left_col := (s.windows w).left_col + n })) w (fun r =>
              { r with total_cols := n })) new).1) w).1).windows j)) =
          skel ((updW (updW s new (fun p =>
              { p with
                total_lines := (s.windows w).total_lines,
                top_line := (s.windows w).top_line,
                total_cols := (s.windows w).total_cols - n,
                left_col := (s.windows w).left_col + n })) w (fun r =>
              { r with total_cols := n })).windows j) :=
      fun j => (amarg_skel _ _ _).trans (amarg_skel _ _ _)
    have hpl2 : ∀ j,
        payload ((((adjust_window_margins
            ((adjust_window_margins (updW (updW s new (fun p =>
              { p with
                total_lines := (s.windows w).total_lines,
                top_line := (s.windows w).top_line,
                total_cols := (s.windows w).total_cols - n,
                left_col := (s.windows w).left_col + n })) w (fun r =>
              { r with total_cols := n })) new).1) w).1).windows j)) =
          payload ((updW (updW s new (fun p =>
              { p with
                total_lines := (s.windows w).total_lines,
                top_line := (s.windows w).top_line,
                total_cols := (s.windows w).total_cols - n,
                left_col := (s.windows w).left_col + n })) w (fun r =>
              { r with total_cols := n })).windows j) :=
      fun j => (amarg_payload _ _ _).trans (amarg_payload _ _ _)
    refine ⟨(amarg_gview _ _).trans ((amarg_gview _ _).trans (by
        simp [gview, updW])), ?_, ?_, ?_, ?_, ?_⟩
    · exact (pl_buffer (hpl2 w)).trans (by simp [updW, hwnew])
    · exact (sk_next (hskel2 w)).trans (by simp [updW, hwnew])
    · exact (sk_prev (hskel2 new)).trans (by simp [updW, hnw])
    · exact (pl_buffer (hpl2 new)).trans (by simp [updW, hnw])
    · refine ⟨?_, ?_, ?_, ?_, ?_, ?_, ?_, ?_⟩
      · exact (pl_cols (hpl2 w)).trans (by simp [updW, hwnew])
      · exact (pl_lines (hpl2 w)).trans (by simp [updW, hwnew])
      · exact (pl_left (hpl2 w)).trans (by simp [updW, hwnew])
      · exact (pl_top (hpl2 w)).trans (by simp [updW, hwnew])
      · exact (sk_cols (hskel2 new)).trans (by simp [updW, hnw])
      · exact (sk_left (hskel2 new)).trans (by simp [updW, hnw])
      · exact (sk_top (hskel2 new)).trans (by simp [updW, hnw])
      · exact (sk_lines (hskel2 new)).trans (by simp [updW, hnw])

theorem splitTail_spec (s1 : EState) (w b : Nat) (n L : Int)
    (horizontal : Bool)
    (hwne1 : w ≠ s1.next_window_id)
    (hn1 : ∀ x, (s1.windows w).next = some x → x < s1.next_window_id)
    (hbuf1 : (s1.windows w).buffer = .buf b)
    (hlive1 : (s1.buffers b).live = true)
    (hL1 : (s1.windows w).total_lines = .num L) :
    ∃ s3,
      ((splitApportion (splitLinkNew s1 w).1 w (splitLinkNew s1 w).2 n
          horizontal).bind fun s2 =>
        match (s2.windows w).buffer with
        | .buf bb =>
          if (s2.buffers bb).live then
            some (set_window_buffer_keep_margins s2 (splitLinkNew s1 w).2 bb,
              (splitLinkNew s1 w).2)
          else none
        | _ => none) = some (s3, s1.next_window_id) ∧
      s3.selected_window = s1.selected_window ∧
      (∀ f, (s3.frames f).selected_window = (s1.frames f).selected_window) ∧
      (s3.windows w).buffer = .buf b ∧
      (s3.windows s1.next_window_id).buffer = .buf b ∧
      (s3.windows w).next = some s1.next_window_id ∧
      (s3.windows s1.next_window_id).prev = some w ∧
      (if horizontal then
        (s3.windows w).total_cols = n ∧
        (s3.windows w).total_lines = (s1.windows w).total_lines ∧
        (s3.windows w).left_col = (s1.windows w).left_col ∧
        (s3.windows w).top_line = (s1.windows w).top_line ∧
        (s3.windows s1.next_window_id).total_cols =
          (s1.windows w).total_cols - n ∧
        (s3.windows s1.next_window_id).left_col =
          (s1.windows w).left_col + n ∧
        (s3.windows s1.next_window_id).top_line = (s1.windows w).top_line ∧
        (s3.windows s1.next_window_id).total_lines =
          (s1.windows w).total_lines
      else
        (s3.windows w).total_lines = .num n ∧
        (s3.windows w).total_cols = (s1.windows w).total_cols ∧
        (s3.windows w).left_col = (s1.windows w).left_col ∧
        (s3.windows w).top_line = (s1.windows w).top_line ∧
        (s3.windows s1.next_window_id).total_lines = .num (L - n) ∧
        (s3.windows s1.next_window_id).top_line =
          (s1.windows w).top_line + n ∧
        (s3.windows s1.next_window_id).left_col = (s1.windows w).left_col ∧
        (s3.windows s1.next_window_id).total_cols =
          (s1.windows w).total_cols) := by
  have hwnext := splitLinkNew_w_next s1 w
  have hwpl := splitLinkNew_w_payload s1 w hwne1
  have hnbuf := splitLinkNew_new_buffer s1 w hwne1
  have hnprev := splitLinkNew_new_prev s1 w hwne1 hn1
  have hgl := gview_linkNew s1 w
  have hwnew2 : w ≠ (splitLinkNew s1 w).2 := hwne1
  obtain ⟨s2, hs2eq, hs2g, hs2buf, hs2next, hs2prev, hs2nbuf, hs2geo⟩ :=
    splitApportion_spec (splitLinkNew s1 w).1 w (splitLinkNew s1 w).2 n L
      horizontal hwnew2 ((pl_lines hwpl).trans hL1)
  have hbw2 : (s2.windows w).buffer = .buf b :=
    hs2buf.trans ((pl_buffer hwpl).trans hbuf1)
  have hlv2 : (s2.buffers b).live = true := by
    have h1 : s2.buffers = s1.buffers :=
      (gv_buffers hs2g).trans (gv_buffers hgl)
    rw [h1]; exact hlive1
  have hsw := swb_globals s2 (splitLinkNew s1 w).2 b
  refine ⟨set_window_buffer_keep_margins s2 (splitLinkNew s1 w).2 b, ?_, ?_,
    ?_, ?_, ?_, ?_, ?_, ?_⟩
  · rw [hs2eq, Option.some_bind, hbw2]
    simp only [hlv2, if_true]
    rfl
  · exact hsw.2.trans ((gv_sel hs2g).trans (gv_sel hgl))
  · intro f
    rw [hsw.1]
    exact (gv_fsel hs2g f).trans (gv_fsel hgl f)
  · rw [swb_other s2 _ b w hwnew2]
    exact hbw2
  · exact swb_buffer s2 _ b
  · exact (sk_next (swb_skel s2 _ b w)).trans (hs2next.trans hwnext)
  · exact (sk_prev (swb_skel s2 _ b s1.next_window_id)).trans
      (hs2prev.trans hnprev)
  · cases horizontal with
    | true =>
      obtain ⟨g1, g2, g3, g4, g5, g6, g7, g8⟩ := hs2geo
      refine ⟨?_, ?_, ?_, ?_, ?_, ?_, ?_, ?_⟩
      · exact (sk_cols (swb_skel s2 _ b w)).trans g1
      · exact (sk_lines (swb_skel s2 _ b w)).trans
          (g2.trans (pl_lines hwpl))
      · exact (sk_left (swb_skel s2 _ b w)).trans
          (g3.trans (pl_left hwpl))
      · exact (sk_top (swb_skel s2 _ b w)).trans (g4.trans (pl_top hwpl))
      · exact (sk_cols (swb_skel s2 _ b s1.next_window_id)).trans
          (g5.trans (by rw [pl_cols hwpl]))
      · exact (sk_left (swb_skel s2 _ b s1.next_window_id)).trans
          (g6.trans (by rw [pl_left hwpl]))
      · exact (sk_top (swb_skel s2 _ b s1.next_window_id)).trans
          (g7.trans (pl_top hwpl))
      · exact (sk_lines (swb_skel s2 _ b s1.next_window_id)).trans
          (g8.trans (pl_lines hwpl))
    | false =>
      obtain ⟨g1, g2, g3, g4, g5, g6, g7, g8⟩ := hs2geo
      refine ⟨?_, ?_, ?_, ?_, ?_, ?_, ?_, ?_⟩
      · exact (sk_lines (swb_skel s2 _ b w)).trans g1
      · exact (sk_cols (swb_skel s2 _ b w)).trans
          (g2.trans (pl_cols hwpl))
      · exact (sk_left (swb_skel s2 _ b w)).trans
          (g3.trans (pl_left hwpl))
      · exact (sk_top (swb_skel s2 _ b w)).trans (g4.trans (pl_top hwpl))
      · exact (sk_lines (swb_skel s2 _ b s1.next_window_id)).trans g5
      · exact (sk_top (swb_skel s2 _ b s1.next_window_id)).trans
          (g6.trans (by rw [pl_top hwpl]))
      · exact (sk_left (swb_skel s2 _ b s1.next_window_id)).trans
          (g7.trans (pl_left hwpl))
      · exact (sk_cols (swb_skel s2 _ b s1.next_window_id)).trans
          (g8.trans (pl_cols hwpl))

/-- Claim C6: for every split of a live window `w` showing live buffer
`b` whose preconditions hold (fresh allocator, not the minibuffer
window, not fixed-size on the split axis, both resulting extents at
least the minimum `window_min_size_2`), `Fsplit_window` succeeds and
returns a newly created second window (its id taken at or above the
allocator mark): the original keeps its identity and the requested
`size` on the split axis (and stays selected if it was selected, the
global and every frame's selected window being untouched), the new
sibling is spliced right after it (`w.next = nid`, `nid.prev = w`),
receives the remaining `oldSize - size`, is positioned to abut the
original (`top_line + size` below it for a vertical split, `left_col +
size` right of it for a horizontal one) while matching it on the other
axis, and both windows display the original's buffer. -/
theorem Fsplit_window_effects (fuel : Nat) (s : EState) (w b : Nat)
    (n L : Int) (horizontal : Bool)
    (hw : w < s.next_window_id)
    (hn : ∀ x, (s.windows w).next = some x → x < s.next_window_id)
    (hbuf : (s.windows w).buffer = .buf b)
    (hlive : (s.buffers b).live = true)
    (hmini : MINI_WINDOW_P s w = false)
    (hfix : window_fixed_size_p fuel s w horizontal false = some false)
    (hL : (s.windows w).total_lines = .num L)
    (hlo : window_min_size_2 s w horizontal false ≤ n)
    (hhi : n + window_min_size_2 s w horizontal false ≤
      (if horizontal then (s.windows w).total_cols else L)) :
    ∃ s3 nid,
      Fsplit_window fuel s (some w) (some n) horizontal = some (s3, nid) ∧
      s.next_window_id ≤ nid ∧
      s3.selected_window = s.selected_window ∧
      (∀ f, (s3.frames f).selected_window = (s.frames f).selected_window) ∧
      (s3.windows w).buffer = .buf b ∧
      (s3.windows nid).buffer = .buf b ∧
      (s3.windows w).next = some nid ∧
      (s3.windows nid).prev = some w ∧
      (if horizontal then
        (s3.windows w).total_cols = n ∧
        (s3.windows w).total_lines = .num L ∧
        (s3.windows w).left_col = (s.windows w).left_col ∧
        (s3.windows w).top_line = (s.windows w).top_line ∧
        (s3.windows nid).total_cols = (s.windows w).total_cols - n ∧
        (s3.windows nid).left_col = (s.windows w).left_col + n ∧
        (s3.windows nid).top_line = (s.windows w).top_line ∧
        (s3.windows nid).total_lines = .num L
      else
        (s3.windows w).total_lines = .num n ∧
        (s3.windows w).total_cols = (s.windows w).total_cols ∧
        (s3.windows w).left_col = (s.windows w).left_col ∧
        (s3.windows w).top_line = (s.windows w).top_line ∧
        (s3.windows nid).total_lines = .num (L - n) ∧
        (s3.windows nid).top_line = (s.windows w).top_line + n ∧
        (s3.windows nid).left_col = (s.windows w).left_col ∧
        (s3.windows nid).total_cols = (s.windows w).total_cols) := by
  have hle : s.next_window_id ≤
      (splitEnsureCombination s w horizontal).next_window_id := by
    rcases nwid_ensure s w horizontal with h | h <;> omega
  have hpe := payload_ensure s w w horizontal (Nat.ne_of_lt hw)
  have hge := gview_ensure s w horizontal
  have hbuf1 : ((splitEnsureCombination s w horizontal).windows w).buffer =
      .buf b := (pl_buffer hpe).trans hbuf
  have hL1 : ((splitEnsureCombination s w horizontal).windows w).total_lines =
      .num L := (pl_lines hpe).trans hL
  have hwne1 : w ≠ (splitEnsureCombination s w horizontal).next_window_id :=
    Nat.ne_of_lt (lt_of_lt_of_le hw hle)
  have hn1 : ∀ x,
      ((splitEnsureCombination s w horizontal).windows w).next = some x →
      x < (splitEnsureCombination s w horizontal).next_window_id := by
    intro x hx
    rcases ensure_w_next s w horizontal with h | h
    · rw [h] at hx
      exact lt_of_lt_of_le (hn x hx) hle
    · rw [h] at hx
      cases hx
  have hlive1 : ((splitEnsureCombination s w horizontal).buffers b).live =
      true := by
    rw [gv_buffers hge]
    exact hlive
  obtain ⟨s3, hrun, hsel, hfsel, hbw, hbn, hnx, hpv, hgeo⟩ :=
    splitTail_spec (splitEnsureCombination s w horizontal) w b n L horizontal
      hwne1 hn1 hbuf1 hlive1 hL1
  refine ⟨s3, (splitEnsureCombination s w horizontal).next_window_id, ?_,
    hle, hsel.trans (gv_sel hge),
    fun f => (hfsel f).trans (gv_fsel hge f), hbw, hbn, hnx, hpv, ?_⟩
  · cases horizontal with
    | false =>
      have hg1 : ¬ (n < window_min_size_2 s w false false) := not_lt.2 hlo
      simp only [Bool.false_eq_true, if_false] at hhi
      have hg2 : ¬ (L < n + window_min_size_2 s w false false) :=
        not_lt.2 hhi
      unfold Fsplit_window
      simp only [hbuf, LV.nilp, Bool.false_eq_true, if_false,
        Option.some_bind, hmini, hfix, hL, hg1, hg2]
      exact hrun
    | true =>
      have hg1 : ¬ (n < window_min_size_2 s w true false) := not_lt.2 hlo
      simp only [if_true] at hhi
      have hg2 : ¬ ((s.windows w).total_cols <
          n + window_min_size_2 s w true false) := not_lt.2 hhi
      unfold Fsplit_window
      simp only [hbuf, LV.nilp, Bool.false_eq_true, if_false, if_true,
        Option.some_bind, hmini, hfix, hg1, hg2]
      exact hrun
  · cases horizontal with
    | true =>
      obtain ⟨g1, g2, g3, g4, g5, g6, g7, g8⟩ := hgeo
      refine ⟨g1, g2.trans ((pl_lines hpe).trans hL),
        g3.trans (pl_left hpe), g4.trans (pl_top hpe),
        by rw [g5, pl_cols hpe], by rw [g6, pl_left hpe],
        g7.trans (pl_top hpe), g8.trans ((pl_lines hpe).trans hL)⟩
    | false =>
      obtain ⟨g1, g2, g3, g4, g5, g6, g7, g8⟩ := hgeo
      refine ⟨g1, g2.trans (pl_cols hpe), g3.trans (pl_left hpe),
        g4.trans (pl_top hpe), g5, by rw [g6, pl_top hpe],
        g7.trans (pl_left hpe), g8.trans (pl_cols hpe)⟩


/-- A one-window frame to exercise the split: window 1 is frame 0's root
and selected window and shows live buffer 2 on 20 lines and 80 columns. -/
def c6State : EState :=
  { windows := fun j =>
      if j = 1 then
        { frame := 0, buffer := .buf 2, total_cols := 80,
          total_lines := .num 20, left_col := 0, top_line := 0 }
      else {},
    buffers := fun j =>
      if j = 2 then { live := true, pt := 5, begv := 1, zv := 30, z := 30,
                      last_window_start := 3 }
      else { live := false },
    frames := fun j =>
      if j = 0 then { live := true, root_window := 1, selected_window := 1,
                      minibuf_window := none }
      else { live := false },
    frame_list := [0], selected_frame := 0, selected_window := 1,
    current_buffer := 2, buffer_alist := [2], next_window_id := 3 }

/-- Closed witness for `Fsplit_window_effects`: the vertical split of the
20-line window 1 of `c6State` at size 12. -/
theorem Fsplit_window_effects_witness :
    ∃ s3 nid,
      Fsplit_window 6 c6State (some 1) (some 12) false = some (s3, nid) ∧
      c6State.next_window_id ≤ nid ∧
      s3.selected_window = c6State.selected_window ∧
      (∀ f, (s3.frames f).selected_window =
        (c6State.frames f).selected_window) ∧
      (s3.windows 1).buffer = .buf 2 ∧
      (s3.windows nid).buffer = .buf 2 ∧
      (s3.windows 1).next = some nid ∧
      (s3.windows nid).prev = some 1 ∧
      (if (false : Bool) then
        (s3.windows 1).total_cols = 12 ∧
        (s3.windows 1).total_lines = .num 20 ∧
        (s3.windows 1).left_col = (c6State.windows 1).left_col ∧
        (s3.windows 1).top_line = (c6State.windows 1).top_line ∧
        (s3.windows nid).total_cols = (c6State.windows 1).total_cols - 12 ∧
        (s3.windows nid).left_col = (c6State.windows 1).left_col + 12 ∧
        (s3.windows nid).top_line = (c6State.windows 1).top_line ∧
        (s3.windows nid).total_lines = .num 20
      else
        (s3.windows 1).total_lines = .num 12 ∧
        (s3.windows 1).total_cols = (c6State.windows 1).total_cols ∧
        (s3.windows 1).left_col = (c6State.windows 1).left_col ∧
        (s3.windows 1).top_line = (c6State.windows 1).top_line ∧
        (s3.windows nid).total_lines = .num (20 - 12) ∧
        (s3.windows nid).top_line = (c6State.windows 1).top_line + 12 ∧
        (s3.windows nid).left_col = (c6State.windows 1).left_col ∧
        (s3.windows nid).total_cols = (c6State.windows 1).total_cols) :=
  Fsplit_window_effects 6 c6State 1 2 12 20 false (by decide)
    (fun x hx => Option.noConfusion hx) rfl rfl (by decide) (by decide) rfl
    (by decide) (by decide)


/-!
### Part 6: the window list, cyclic next-window, and window deletion

`window_list` (window.c:1737-1760) over the canonical leaf order of
`foreach_window_1` (window.c:935-950), the `next_window` scan
(window.c:1885-1946) with `candidate_window_p` (window.c:1780-1838) at
the arguments `delete_window`'s selection loop passes, and
`delete_window` (window.c:1507-1708) mutually recursive with
`size_window` (window.c:3036-3227), `window_min_size_1`
(window.c:2743-2809) and the `shrink_windows` list model of Part 1.
-/

/-- `WINDOW_TOTAL_SIZE (w, width_p)` (window.h): the window's extent on
the chosen axis (`total_lines` must hold a number). -/
def WINDOW_TOTAL_SIZE (s : EState) (w : Nat) (width_p : Bool) : Option Int :=
  if width_p then some (s.windows w).total_cols
  else
    match (s.windows w).total_lines with
    | .num n => some n
    | _ => none

mutual

/-- `window_min_size_1` (window.c:2743-2809): the minimum size of a
window not taking fixedness into account; for a combination the sum of
the children's minimums along the split axis and their maximum across
it. -/
def window_min_size_1 (fuel : Nat) (s : EState) (w : Nat)
    (width_p safe_p : Bool) : Option Int :=
  match fuel with
  | 0 => none
  | fuel + 1 =>
    match (s.windows w).hchild with
    | some c =>
      if width_p then minChainSum fuel s (some c) width_p safe_p
      else minChainMax fuel s (some c) width_p safe_p
    | none =>
      match (s.windows w).vchild with
      | some c =>
        if width_p then minChainMax fuel s (some c) width_p safe_p
        else minChainSum fuel s (some c) width_p safe_p
      | none => some (window_min_size_2 s w width_p safe_p)

/-- The summing sibling loops of `window_min_size_1`. -/
def minChainSum (fuel : Nat) (s : EState) (c : Option Nat)
    (width_p safe_p : Bool) : Option Int :=
  match fuel with
  | 0 => none
  | fuel + 1 =>
    match c with
    | none => some 0
    | some cw =>
      (window_min_size_1 fuel s cw width_p safe_p).bind fun m =>
      (minChainSum fuel s (s.windows cw).next width_p safe_p).bind fun rest =>
      some (m + rest)

/-- The maximizing sibling loops of `window_min_size_1` (the C
accumulator starts at 0). -/
def minChainMax (fuel : Nat) (s : EState) (c : Option Nat)
    (width_p safe_p : Bool) : Option Int :=
  match fuel with
  | 0 => none
  | fuel + 1 =>
    match c with
    | none => some 0
    | some cw =>
      (window_min_size_1 fuel s cw width_p safe_p).bind fun m =>
      (minChainMax fuel s (s.windows cw).next width_p safe_p).bind fun rest =>
      some (max m rest)

end

/-- `foreach_window_1` (window.c:935-950) specialized to
`add_window_to_list`: collect the leaf windows below `w` (and its
following siblings) in canonical order. -/
def foreachCollect (fuel : Nat) (s : EState) (w : Option Nat) :
    Option (List Nat) :=
  match fuel with
  | 0 => none
  | fuel + 1 =>
    match w with
    | none => some []
    | some wid =>
      (match (s.windows wid).hchild with
        | some hc => foreachCollect fuel s (some hc)
        | none =>
          match (s.windows wid).vchild with
          | some vc => foreachCollect fuel s (some vc)
          | none => some [wid]).bind fun here =>
      (foreachCollect fuel s (s.windows wid).next).bind fun rest =>
      some (here ++ rest)

/-- `window_list` (window.c:1737-1760): the leaf windows of every frame
of `Vframe_list` in canonical order.  The C caches the list in
`Vwindow_list` and invalidates the cache on every window creation or
deletion; recomputing it here is the cache-coherent reading. -/
def window_list (fuel : Nat) (s : EState) : List Nat → Option (List Nat)
  | [] => some []
  | f :: tl =>
    (foreachCollect fuel s (some ((s.frames f).root_window))).bind fun ws =>
    (window_list fuel s tl).bind fun rest =>
    some (ws ++ rest)

/-- `candidate_window_p` (window.c:1780-1838) at `MINIBUF = Qlambda` and
`ALL_FRAMES = Qnil`, the arguments `delete_window`'s selection loop
passes through `Fnext_window (swindow, Qlambda, Qnil)` (window.c:1561):
the window qualifies when it shows a buffer, is not a minibuffer window,
and lives on `owindow`'s frame. -/
def candidate_window_p (s : EState) (window owindow : Nat) : Bool :=
  (s.windows window).buffer.bufferp.isSome &&
  ! MINI_WINDOW_P s window &&
  decide ((s.windows window).frame = (s.windows owindow).frame)

/-- `next_window` (window.c:1885-1946) with `next_p = 1` at the decoded
arguments `MINIBUF = Qlambda`, `ALL_FRAMES = Qnil` (`Fnext_window
(window, Qlambda, Qnil)` for a live `window`): find `window` in the
window list, take the first candidate after it, wrapping to the first
candidate of the prefix before it, and fall back to `window` itself
when there is no other candidate. -/
def next_window_sel (fuel : Nat) (s : EState) (window : Nat) : Option Nat :=
  (window_list fuel s s.frame_list).bind fun wl =>
  let before := wl.takeWhile (fun x => x != window)
  match wl.dropWhile (fun x => x != window) with
  | [] =>
    some ((before.find? (fun x => candidate_window_p s x window)).getD window)
  | _ :: after =>
    match after.find? (fun x => candidate_window_p s x window) with
    | some c => some c
    | none =>
      some ((before.find? (fun x => candidate_window_p s x window)).getD window)

/-- The inner scan of `delete_window`'s selection block
(window.c:1548-1553): whether `window` occurs on the parent chain from
`x` (so `x` is `window` or one of its descendants by parentage). -/
def windowAncestorP (fuel : Nat) (s : EState) (window : Nat)
    (x : Option Nat) : Option Bool :=
  match fuel with
  | 0 => none
  | fuel + 1 =>
    match x with
    | none => some false
    | some p =>
      if p = window then some true
      else windowAncestorP fuel s window (s.windows p).parent

/-- The selection loop of `delete_window` (window.c:1544-1568): starting
from the frame's selected window, step with `Fnext_window (swindow,
Qlambda, Qnil)` while the current window is `window` or one of its
descendants; stepping back onto the frame's selected window means there
is no acceptable alternative (`error ("Cannot delete window")`, the
inner `none`). -/
def deleteSelectLoop (fuel : Nat) (s : EState) (window f swindow : Nat) :
    Option (Option Nat) :=
  match fuel with
  | 0 => none
  | fuel + 1 =>
    (windowAncestorP fuel s window (some swindow)).bind fun inSub =>
    if inSub then
      (next_window_sel fuel s swindow).bind fun sw =>
      if sw = (s.frames f).selected_window then some none
      else deleteSelectLoop fuel s window f sw
    else some (some swindow)

/-- The last window of a sibling chain (the `last_only` search of
`size_window`, window.c:3089-3100). -/
def lastOfChain (fuel : Nat) (s : EState) (c : Nat) : Option Nat :=
  match fuel with
  | 0 => none
  | fuel + 1 =>
    match (s.windows c).next with
    | none => some c
    | some nxt => lastOfChain fuel s nxt

/-- The reparenting walk of `delete_window`'s combination flattening
(window.c:1684-1689): give every window along the chain the parent of
the removed combination `pp`, and return the last chain element. -/
def reparentChain (fuel : Nat) (s : EState) (x : Option Nat) (pp : Nat) :
    Option (EState × Option Nat) :=
  match fuel with
  | 0 => none
  | fuel + 1 =>
    match x with
    | none => some (s, none)
    | some t =>
      let s := updW s t (fun r => { r with parent := (s.windows pp).parent })
      match (s.windows t).next with
      | none => some (s, some t)
      | some nxt => reparentChain fuel s (some nxt) pp

mutual

/-- `delete_window` (window.c:1507-1708).  A deleted window is a no-op;
a window without a parent cannot be deleted; if the frame's selected
window is the window or one of its descendants, selection is reassigned
before any unlinking (via `Fselect_window` when the frame's selected
window is the globally selected one, else by setting the frame's slot),
erroring out when the selection loop finds no alternative.  Then the
window is unshown and its markers unchained, it is unlinked from its
siblings and parent, a sibling inherits its position and is stretched
over its space with `size_window` in no-delete mode, a parent left with
a single child is replaced by it, the window's subtree is marked
deleted, and a combination directly under a same-direction combination
is flattened away.  `free_window_matrices` and `adjust_glyphs` are
render-side. -/
def delete_window (fuel : Nat) (s : EState) (window : Nat) : Option EState :=
  match fuel with
  | 0 => none
  | fuel + 1 =>
    if (s.windows window).buffer.nilp ∧ (s.windows window).hchild = none ∧
        (s.windows window).vchild = none then some s
    else
      match (s.windows window).parent with
      | none => none
      | some parent =>
        let f := (s.windows window).frame
        let s := updF s f (fun r => { r with window_sizes_changed := true })
        (deleteSelectLoop fuel s window f
            ((s.frames f).selected_window)).bind fun res =>
        (match res with
          | none => none
          | some swindow =>
            if ¬ (swindow = (s.frames f).selected_window) then
              if (s.frames f).selected_window = s.selected_window then
                Fselect_window fuel s swindow false
              else
                some (updF s f (fun r => { r with selected_window := swindow }))
            else some s).bind fun s =>
        let s := { s with window_deletion_count := s.window_deletion_count + 1 }
        (if (s.windows window).buffer.nilp then some s
          else
            (unshow_buffer s window).bind fun s =>
            some (updW s window (fun r =>
              { r with pointm := {}, start := {} }))).bind fun s =>
        let s :=
          match (s.windows window).next with
          | some nxt =>
            updW s nxt (fun r => { r with prev := (s.windows window).prev })
          | none => s
        let s :=
          match (s.windows window).prev with
          | some pv =>
            updW s pv (fun r => { r with next := (s.windows window).next })
          | none => s
        let s :=
          if (s.windows parent).hchild = some window then
            updW s parent (fun r => { r with hchild := (s.windows window).next })
          else s
        let s :=
          if (s.windows parent).vchild = some window then
            updW s parent (fun r => { r with vchild := (s.windows window).next })
          else s
        (match (s.windows window).prev with
          | some sib => some (s, sib)
          | none =>
            match (s.windows window).next with
            | some sib =>
              some (updW s sib (fun r =>
                { r with top_line := (s.windows window).top_line,
                         left_col := (s.windows window).left_col }), sib)
            | none => none).bind fun sp =>
        (if (sp.1.windows parent).vchild ≠ none then
            (WINDOW_TOTAL_SIZE sp.1 sp.2 false).bind fun sl =>
            (WINDOW_TOTAL_SIZE sp.1 window false).bind fun pl =>
            size_window fuel sp.1 sp.2 (sl + pl) false 1 false false
          else some sp.1).bind fun s =>
        (if (s.windows parent).hchild ≠ none then
            (WINDOW_TOTAL_SIZE s sp.2 true).bind fun sc =>
            (WINDOW_TOTAL_SIZE s window true).bind fun pc =>
            size_window fuel s sp.2 (sc + pc) true 1 false false
          else some s).bind fun s =>
        (match (match (s.windows parent).hchild with
                 | some t => some t
                 | none => (s.windows parent).vchild) with
          | none => none
          | some tem =>
            if (s.windows tem).next = none then
              some (replace_window s parent tem, tem)
            else some (s, parent)).bind fun sq =>
        (match (sq.1.windows window).hchild with
          | some hc => delete_all_subwindows fuel sq.1 hc
          | none =>
            match (sq.1.windows window).vchild with
            | some vc => delete_all_subwindows fuel sq.1 vc
            | none => some sq.1).bind fun s =>
        let s := updW s window (fun r =>
          { r with buffer := .nil, hchild := none, vchild := none })
        let par :=
          match (s.windows sq.2).parent with
          | some pp => pp
          | none => sq.2
        match (s.windows par).vchild with
        | some vc =>
          if (s.windows vc).vchild ≠ none then
            let s := updW s par (fun r => { r with vchild := (s.windows vc).vchild })
            (reparentChain fuel s ((s.windows vc).vchild) vc).bind fun st =>
            let s :=
              match st.2 with
              | some lastt =>
                let s := updW st.1 lastt (fun r =>
                  { r with next := (st.1.windows vc).next })
                match (s.windows vc).next with
                | some nn => updW s nn (fun r => { r with prev := st.2 })
                | none => s
              | none => st.1
            some (updW s vc (fun r =>
              { r with next := none, prev := none, vchild := none,
                       hchild := none, buffer := .nil }))
          else deleteFlattenH fuel s par
        | none => deleteFlattenH fuel s par

/-- The `hchild` arm of `delete_window`'s flattening block
(window.c:1676-1703). -/
def deleteFlattenH (fuel : Nat) (s : EState) (par : Nat) : Option EState :=
  match fuel with
  | 0 => none
  | fuel + 1 =>
    match (s.windows par).hchild with
    | some hc =>
      if (s.windows hc).hchild ≠ none then
        let s := updW s par (fun r => { r with hchild := (s.windows hc).hchild })
        (reparentChain fuel s ((s.windows hc).hchild) hc).bind fun st =>
        let s :=
          match st.2 with
          | some lastt =>
            let s := updW st.1 lastt (fun r =>
              { r with next := (st.1.windows hc).next })
            match (s.windows hc).next with
            | some nn => updW s nn (fun r => { r with prev := st.2 })
            | none => s
          | none => st.1
        some (updW s hc (fun r =>
          { r with next := none, prev := none, vchild := none,
                   hchild := none, buffer := .nil }))
      else some s
    | none => some s

/-- `size_window` (window.c:3036-3227): set the window's extent on one
axis; delete it instead when it falls below its minimum (unless
`nodelete_p = 1`; `nodelete_p = 2` uses safe minimums); propagate the
extent to parallel children, to only the first or last of serial
children when so asked, and otherwise apportion serial children
proportionally (through the `shrink_windows` arrays when shrinking),
re-deleting too-small children afterwards when deletion is allowed. -/
def size_window (fuel : Nat) (s : EState) (window : Nat) (size0 : Int)
    (width_p : Bool) (nodelete_p : Nat) (first_only last_only : Bool) :
    Option EState :=
  match fuel with
  | 0 => none
  | fuel + 1 =>
    (WINDOW_TOTAL_SIZE s window width_p).bind fun old_size =>
    let size := max 0 size0
    (if nodelete_p ≠ 1 ∧ (s.windows window).parent ≠ none then
        (window_min_size_1 fuel s window width_p (nodelete_p = 2)).bind
          fun m => some (decide (size < m))
      else some false).bind fun tooSmall =>
    if tooSmall then delete_window fuel s window
    else
      let s := updW s window (fun r =>
        { r with last_modified := 0, last_overlay_modified := 0 })
      let s := updF s (s.windows window).frame
        (fun r => { r with window_sizes_changed := true })
      let s :=
        if width_p then
          (adjust_window_margins
            (updW s window (fun r => { r with total_cols := size })) window).1
        else
          updW s window (fun r =>
            { r with total_lines := .num size, orig_total_lines := .nil })
      let sideward :=
        if width_p then (s.windows window).vchild else (s.windows window).hchild
      let forward :=
        if width_p then (s.windows window).hchild else (s.windows window).vchild
      match sideward with
      | some sc =>
        sizeChainParallel fuel s window (some sc) size width_p nodelete_p
          first_only last_only
      | none =>
        match forward with
        | none => some s
        | some fc =>
          if last_only then
            (lastOfChain fuel s fc).bind fun lastc =>
            (WINDOW_TOTAL_SIZE s lastc width_p).bind fun csz =>
            size_window fuel s lastc (size - old_size + csz) width_p
              nodelete_p first_only last_only
          else if first_only then
            let s :=
              if width_p then
                updW s fc (fun r =>
                  { r with left_col := (s.windows window).left_col })
              else
                updW s fc (fun r =>
                  { r with top_line := (s.windows window).top_line })
            (WINDOW_TOTAL_SIZE s fc width_p).bind fun csz =>
            size_window fuel s fc (size - old_size + csz) width_p
              nodelete_p first_only last_only
          else
            (collectKids fuel s (some fc) width_p
                (decide (nodelete_p = 2))).bind fun cs =>
            let total := (cs.map (fun pc => pc.2.size)).sum
            let nchildren := cs.length
            let nfixed := (cs.filter (fun pc => pc.2.fixed)).length
            let fixed_size :=
              ((cs.filter (fun pc => pc.2.fixed)).map (fun pc => pc.2.size)).sum
            let resize_fixed_p : Bool :=
              decide (nfixed = nchildren) || decide (size < fixed_size)
            let n : Int :=
              if resize_fixed_p then (nchildren : Int)
              else (nchildren : Int) - (nfixed : Int)
            (if size < total ∧ 1 < n then
                (shrink_windows total size n resize_fixed_p
                    (cs.map Prod.snd)).bind fun ns =>
                some (some ns)
              else some none).bind fun newSizes =>
            let each :=
              match newSizes with
              | none => Int.tdiv (size - total) n
              | some _ => 0
            let extra :=
              match newSizes with
              | none => (size - total) - n * each
              | some _ => 0
            let first_pos :=
              if width_p then (s.windows window).left_col
              else (s.windows window).top_line
            (sizeInstall fuel s (some fc) newSizes each extra first_pos
                width_p resize_fixed_p first_only last_only).bind fun s =>
            if nodelete_p ≠ 1 then
              sizeDeleteLoop fuel s (some fc) width_p nodelete_p first_only
                last_only
            else some s

/-- The parallel-siblings loop of `size_window` (window.c:3075-3087):
give each child the window's near edge and the full new size. -/
def sizeChainParallel (fuel : Nat) (s : EState) (window : Nat)
    (c : Option Nat) (size : Int) (width_p : Bool) (nodelete_p : Nat)
    (first_only last_only : Bool) : Option EState :=
  match fuel with
  | 0 => none
  | fuel + 1 =>
    match c with
    | none => some s
    | some cw =>
      let s :=
        if width_p then
          updW s cw (fun r => { r with left_col := (s.windows window).left_col })
        else
          updW s cw (fun r => { r with top_line := (s.windows window).top_line })
      (size_window fuel s cw size width_p nodelete_p first_only
          last_only).bind fun s =>
      sizeChainParallel fuel s window (s.windows cw).next size width_p
        nodelete_p first_only last_only

/-- The fixed-portion scan of `size_window` (window.c:3126-3140): each
child's size, fixedness, minimum (as `shrink_windows` reads it) and
`resize_proportionally`. -/
def collectKids (fuel : Nat) (s : EState) (c : Option Nat)
    (width_p safe_p : Bool) : Option (List (Nat × SWChild)) :=
  match fuel with
  | 0 => none
  | fuel + 1 =>
    match c with
    | none => some []
    | some cw =>
      (WINDOW_TOTAL_SIZE s cw width_p).bind fun sz =>
      (window_fixed_size_p fuel s cw width_p false).bind fun fx =>
      (window_min_size_1 fuel s cw width_p safe_p).bind fun mn =>
      (collectKids fuel s (s.windows cw).next width_p safe_p).bind fun rest =>
      some ((cw, { size := sz, minSz := mn, fixed := fx,
                   prop := !(s.windows cw).resize_proportionally.nilp }) :: rest)

/-- The install loop of `size_window` (window.c:3159-3199): set each
child's near edge to the accumulated position, give a resizable child
its computed size (from the `shrink_windows` array or the uniform
share, the rounding `extra` only once), resize it in no-delete mode,
and advance the position by the new size. -/
def sizeInstall (fuel : Nat) (s : EState) (c : Option Nat)
    (newSizes : Option (List Int)) (each extra last_pos : Int)
    (width_p resize_fixed_p first_only last_only : Bool) : Option EState :=
  match fuel with
  | 0 => none
  | fuel + 1 =>
    match c with
    | none => some s
    | some cw =>
      (WINDOW_TOTAL_SIZE s cw width_p).bind fun old_child_size =>
      let s :=
        if width_p then updW s cw (fun r => { r with left_col := last_pos })
        else updW s cw (fun r => { r with top_line := last_pos })
      (window_fixed_size_p fuel s cw width_p false).bind fun fx =>
      (if resize_fixed_p || !fx then
          match newSizes with
          | some ns =>
            match ns.head? with
            | some v => some (v, (0 : Int))
            | none => none
          | none => some (old_child_size + each + extra, (0 : Int))
        else some (old_child_size, extra)).bind fun ne =>
      (size_window fuel s cw ne.1 width_p 1 first_only last_only).bind fun s =>
      sizeInstall fuel s (s.windows cw).next (newSizes.map (List.drop 1))
        each ne.2 (last_pos + ne.1) width_p resize_fixed_p first_only last_only

/-- The trailing deletion loop of `size_window` (window.c:3208-3218):
re-size each child to its own size with the caller's `nodelete_p`,
letting `size_window` delete those now below their minimum. -/
def sizeDeleteLoop (fuel : Nat) (s : EState) (c : Option Nat)
    (width_p : Bool) (nodelete_p : Nat) (first_only last_only : Bool) :
    Option EState :=
  match fuel with
  | 0 => none
  | fuel + 1 =>
    match c with
    | none => some s
    | some cw =>
      (WINDOW_TOTAL_SIZE s cw width_p).bind fun sz =>
      (size_window fuel s cw sz width_p nodelete_p first_only
          last_only).bind fun s =>
      sizeDeleteLoop fuel s (s.windows cw).next width_p nodelete_p
        first_only last_only

end

/-- `set_window_height` (window.c:3229-3233). -/
def set_window_height (fuel : Nat) (s : EState) (window : Nat)
    (height : Int) (nodelete : Nat) : Option EState :=
  size_window fuel s window height false nodelete false false

/-- `set_window_width` (window.c:3243-3247). -/
def set_window_width (fuel : Nat) (s : EState) (window : Nat)
    (width : Int) (nodelete : Nat) : Option EState :=
  size_window fuel s window width true nodelete false false

end Arena

end EmacsWindow

